import Mathlib

/-!
# MathVision core solver — shallow embedding and verification

This file embeds the string-processing core of the MathVision math solver
(`MathSolver` in the repository source) in Lean 4 and settles the frozen
claims about it.

Modelling conventions:

* Strings are Lean `String`s; most work happens on their `List Char` data.
* JavaScript numbers are modelled as exact rationals (`ℚ`).  A JavaScript
  number that is not finite (`NaN`, `±Infinity`) is modelled as `none` in
  `JsNum := Option ℚ`.  JavaScript float rounding is not modelled; every
  concrete computation appearing in a theorem below stays inside values on
  which binary floating point is exact or whose comparisons are far from
  representation error, so the rational model and the float semantics agree
  on those runs.
* External computer-algebra collaborators (math.js, nerdamer, Algebrite,
  the compute engine) and the domain solvers that the specification scopes
  out (vector/matrix/statistics/… solvers) are supplied through an explicit
  `Env` record; theorems quantify over every instantiation, so nothing is
  assumed about their behaviour.
* Each JavaScript regular-expression test/replace used by the embedded code
  is implemented as a hand-rolled scanner with the same matching semantics
  (leftmost match, greedy character classes, matching always against the
  original string during a global replace).
-/

namespace MathSolver

/-- Character list of a string; all scanners work on this representation. -/
abbrev Chars := List Char

/-- One solution step: human description plus rendered math. -/
structure Step where
  description : String
  math : String
deriving Repr, DecidableEq

/-- The structured result of solving one problem (`SolutionRecord` in the spec). -/
structure SolutionRecord where
  number : Nat
  original : String
  type : String
  steps : List Step
  answer : String
  error : Option String := none
deriving Repr, DecidableEq

deriving instance DecidableEq for Except

/-! ## JavaScript-flavoured character classes -/

/-- ASCII decimal digit (`\d` in the source regexes). -/
def isDigitC (c : Char) : Bool :=
  '0' ≤ c && c ≤ '9'

/-- ASCII lowercase letter. -/
def isLowerAZ (c : Char) : Bool :=
  'a' ≤ c && c ≤ 'z'

/-- ASCII uppercase letter. -/
def isUpperAZ (c : Char) : Bool :=
  'A' ≤ c && c ≤ 'Z'

/-- ASCII letter (`[a-z]` with the `i` flag). -/
def isLetterC (c : Char) : Bool :=
  isLowerAZ c || isUpperAZ c

/-- JavaScript word character (`\w`): ASCII letter, digit or underscore. -/
def isWordC (c : Char) : Bool :=
  isLetterC c || isDigitC c || c = '_'

/-- JavaScript whitespace (`\s`): ASCII blanks plus the Unicode space set. -/
def isJsSpace (c : Char) : Bool :=
  c = ' ' || c = '\t' || c = '\n' || c = '\r' ||
  c = (Char.ofNat 11) || c = (Char.ofNat 12) ||
  c = (Char.ofNat 0xa0) || c = (Char.ofNat 0x1680) ||
  ((Char.ofNat 0x2000) ≤ c && c ≤ (Char.ofNat 0x200a)) ||
  c = (Char.ofNat 0x2028) || c = (Char.ofNat 0x2029) ||
  c = (Char.ofNat 0x202f) || c = (Char.ofNat 0x205f) ||
  c = (Char.ofNat 0x3000) || c = (Char.ofNat 0xfeff)

/-- JavaScript `toLowerCase`, restricted to the ASCII range the solver uses. -/
def jsLowerChar (c : Char) : Char :=
  if isUpperAZ c then Char.ofNat (c.toNat + 32) else c

/-- Lowercase a whole string (`problem.toLowerCase()`). -/
def jsLower (s : String) : String :=
  ⟨s.data.map jsLowerChar⟩

/-- The ASCII apostrophe character, built by code point to keep source text plain. -/
def aposC : Char := Char.ofNat 39

/-- The ASCII apostrophe as a one-character string. -/
def aposS : String := ⟨[aposC]⟩

/-- The ASCII backtick character. -/
def btickC : Char := Char.ofNat 96

/-! ## Basic list scanners shared by the regex models -/

/-- Does `pre` occur at the head of `l`? -/
def startsWithL : Chars → Chars → Bool
  | [], _ => true
  | _ :: _, [] => false
  | p :: ps, c :: cs => p = c && startsWithL ps cs

/-- Does `needle` occur anywhere in `hay` (JS `String.includes`)? -/
def containsSubL (hay needle : Chars) : Bool :=
  match hay with
  | [] => startsWithL needle []
  | _ :: cs => startsWithL needle hay || containsSubL cs needle

/-- `String.includes` on strings. -/
def containsSub (hay needle : String) : Bool :=
  containsSubL hay.data needle.data

/-- Does character `c` occur in `l`? -/
def containsCharL (l : Chars) (c : Char) : Bool :=
  l.any (· = c)

/-- Does character `c` occur in string `s`? -/
def containsChar (s : String) (c : Char) : Bool :=
  containsCharL s.data c

/-- Split the digits off the front of a character list. -/
def spanDigits (l : Chars) : Chars × Chars :=
  (l.takeWhile isDigitC, l.dropWhile isDigitC)

/-- Numeric value of a digit run (base 10). -/
def digitsVal (l : Chars) : Nat :=
  l.foldl (fun a c => a * 10 + (c.toNat - '0'.toNat)) 0

/-! ## JavaScript numbers as exact rationals -/

/-- A JavaScript number: `some q` is the finite value `q`; `none` stands for
the non-finite results (`NaN`, `±Infinity`), which the embedded control flow
never lets reach a meaningful branch. -/
abbrev JsNum := Option ℚ

/-- Addition with NaN propagation. -/
def jadd : JsNum → JsNum → JsNum
  | some a, some b => some (a + b)
  | _, _ => none

/-- Subtraction with NaN propagation. -/
def jsub : JsNum → JsNum → JsNum
  | some a, some b => some (a - b)
  | _, _ => none

/-- Multiplication with NaN propagation. -/
def jmul : JsNum → JsNum → JsNum
  | some a, some b => some (a * b)
  | _, _ => none

/-- Negation with NaN propagation. -/
def jneg : JsNum → JsNum
  | some a => some (-a)
  | none => none

/-- Division; division by zero yields a non-finite value (`none`). -/
def jdiv : JsNum → JsNum → JsNum
  | some a, some b => if b = 0 then none else some (a / b)
  | _, _ => none

/-- JavaScript `<` (false whenever an operand is NaN). -/
def jlt : JsNum → JsNum → Bool
  | some a, some b => a < b
  | _, _ => false

/-- JavaScript `===` between numbers (false whenever an operand is NaN). -/
def jeq : JsNum → JsNum → Bool
  | some a, some b => a = b
  | _, _ => false

/-- `Math.round`: round half toward positive infinity. -/
def jsRound (q : ℚ) : ℤ :=
  ⌊q + 1/2⌋

/-! ## JavaScript `parseFloat` / `parseInt` -/

/-- Parse an optional exponent suffix `e`/`E` `[+-]?` digits; fails (and is
backtracked by the caller) when no digit follows. -/
def parseExpPart (l : Chars) : Option (ℤ × Chars) :=
  match l with
  | c :: r =>
    if c = 'e' || c = 'E' then
      let (neg, r2) : Bool × Chars :=
        match r with
        | '+' :: r2 => (false, r2)
        | '-' :: r2 => (true, r2)
        | _ => (false, r)
      let (ds, r3) := spanDigits r2
      if ds.isEmpty then none
      else some ((if neg then -(digitsVal ds : ℤ) else (digitsVal ds : ℤ)), r3)
    else none
  | [] => none

/-- Value of `intDigits.fracDigits` as a rational. -/
def decimalVal (ip fp : Chars) : ℚ :=
  (digitsVal ip : ℚ) + (digitsVal fp : ℚ) / (10 : ℚ) ^ fp.length

/-- Strip an optional leading sign: the negativity flag and the rest. -/
def splitSign (l : Chars) : Bool × Chars :=
  match l with
  | '+' :: r => (false, r)
  | '-' :: r => (true, r)
  | _ => (false, l)

/-- JavaScript `parseFloat` on a character list: skip leading whitespace, an
optional sign, then the longest decimal-literal prefix; `none` is `NaN`.
(`Infinity` is also mapped to `none`, the non-finite value.) -/
def jsParseFloatL (l : Chars) : JsNum :=
  let l1 := l.dropWhile isJsSpace
  let (neg, l2) := splitSign l1
  if startsWithL "Infinity".data l2 then none
  else
    let (ip, r1) := spanDigits l2
    let (fp, r2) : Chars × Chars :=
      match r1 with
      | '.' :: r => spanDigits r
      | _ => ([], r1)
    if ip.isEmpty && fp.isEmpty then none
    else
      let mant := decimalVal ip fp
      let e : ℤ :=
        match parseExpPart r2 with
        | some (e, _) => e
        | none => 0
      some ((if neg then -mant else mant) * (10 : ℚ) ^ e)

/-- `parseFloat` on strings. -/
def jsParseFloat (s : String) : JsNum :=
  jsParseFloatL s.data

/-- JavaScript `parseInt(s)` (radix 10): skip whitespace and an optional
sign, then read a digit run; `none` is `NaN`. -/
def jsParseIntL (l : Chars) : Option ℤ :=
  let l1 := l.dropWhile isJsSpace
  let (neg, l2) := splitSign l1
  let (ds, _) := spanDigits l2
  if ds.isEmpty then none
  else some (if neg then -(digitsVal ds : ℤ) else (digitsVal ds : ℤ))

/-- `parseInt` on strings. -/
def jsParseInt (s : String) : Option ℤ :=
  jsParseIntL s.data

/-! ## Rendering numbers the way JavaScript template strings do

The embedded code interpolates only rationals whose denominator divides a
power of ten (values produced by `parseFloat` and ring operations on them),
which JavaScript prints as plain decimal strings. -/

/-- The decimal digit characters. -/
def digitChar (d : Nat) : Char :=
  match d with
  | 0 => '0' | 1 => '1' | 2 => '2' | 3 => '3' | 4 => '4'
  | 5 => '5' | 6 => '6' | 7 => '7' | 8 => '8' | 9 => '9'
  | _ => '*'

/-- Accumulate the decimal digits of `n` in front of `acc` (structural
recursion on a fuel bound so the definition evaluates by reduction). -/
def natDigitsGo (fuel n : Nat) (acc : Chars) : Chars :=
  match fuel with
  | 0 => acc
  | fuel + 1 =>
    if n = 0 then acc
    else natDigitsGo fuel (n / 10) (digitChar (n % 10) :: acc)

/-- The decimal digit string of a natural number. -/
def natDigits (n : Nat) : Chars :=
  if n = 0 then ['0'] else natDigitsGo n n []

/-- Decimal rendering of a natural number (the digits of `String(n)`). -/
def natRepr (n : Nat) : String :=
  ⟨natDigits n⟩

/-- Smallest `k ≤ 64` with `d ∣ 10^k`, if any. -/
def decExp (d : Nat) : Option Nat :=
  (List.range 65).find? (fun k => 10 ^ k % d = 0)

/-- Strip trailing `'0'` characters. -/
def stripTrailingZeros (l : Chars) : Chars :=
  (l.reverse.dropWhile (· = '0')).reverse

/-- Decimal digit string of `n`, left-padded with zeros to length `k`. -/
def padDigits (n k : Nat) : Chars :=
  List.replicate (k - (natDigits n).length) '0' ++ natDigits n

/-- Render a rational the way a JavaScript number prints: exact decimal when
the denominator divides a power of ten, a fraction display otherwise (the
latter is never reached by the embedded flows). -/
def qToJsString (q : ℚ) : String :=
  let n := q.num.natAbs
  let d := q.den
  let core : String :=
    match decExp d with
    | some k =>
      let scaled := n * (10 ^ k / d)
      let ip := scaled / 10 ^ k
      let fp := scaled % 10 ^ k
      if fp = 0 then natRepr ip
      else natRepr ip ++ "." ++ (⟨stripTrailingZeros (padDigits fp k)⟩ : String)
    | none => natRepr n ++ "/" ++ natRepr d
  if q < 0 then "-" ++ core else core

/-- Render a possibly-non-finite JavaScript number (`String(x)` / `${x}`). -/
def jsNumToString (x : JsNum) : String :=
  match x with
  | some q => qToJsString q
  | none => "NaN"

/-- The fraction table of `formatNumber`, in source order. -/
def fractionTable : List (ℚ × String) :=
  [(1/2, "1/2"), (1/3, "1/3"), (2/3, "2/3"),
   (1/4, "1/4"), (3/4, "3/4"), (1/5, "1/5"),
   (2/5, "2/5"), (3/5, "3/5"), (4/5, "4/5")]

/-- Scan the fraction table exactly like the source loop: for each entry
first the positive then the negated proximity test, first hit wins. -/
def formatFrac : List (ℚ × String) → ℚ → Option String
  | [], _ => none
  | (v, s) :: rest, r =>
    if |r - v| < 1/10000 then some s
    else if |r + v| < 1/10000 then some ("-" ++ s)
    else formatFrac rest r

/-- `MathSolver.formatNumber`: integers print plainly; other values are
rounded to four decimals, snapped to a nearby simple fraction when one is
within `0.0001`, and printed as decimals otherwise. -/
def formatNumber (x : JsNum) : String :=
  match x with
  | none => "NaN"
  | some q =>
    if q.den = 1 then qToJsString q
    else
      let rounded : ℚ := (jsRound (q * 10000) : ℚ) / 10000
      match formatFrac fractionTable rounded with
      | some s => s
      | none => qToJsString rounded

/-! ## Generic position scanners (regex search helpers) -/

/-- Does predicate `p` hold of some suffix of `l` (regex search over all
start positions)? -/
def anySuffix (p : Chars → Bool) : Chars → Bool
  | [] => p []
  | c :: r => p (c :: r) || anySuffix p r

/-- First (leftmost) successful result of a position matcher. -/
def findFirst {α : Type} (p : Chars → Option α) : Chars → Option α
  | [] => p []
  | c :: r =>
    match p (c :: r) with
    | some a => some a
    | none => findFirst p r

/-- Case-insensitive literal (`name` given lowercased); returns the rest. -/
def eatLower : Chars → Chars → Option Chars
  | [], l => some l
  | _ :: _, [] => none
  | n :: ns, c :: cs => if jsLowerChar c = n then eatLower ns cs else none

/-- `\s*`. -/
def eatSp (l : Chars) : Chars :=
  l.dropWhile isJsSpace

/-- A single literal character. -/
def eatChar (ch : Char) : Chars → Option Chars
  | c :: r => if c = ch then some r else none
  | [] => none

/-- A single literal character, case-insensitively. -/
def eatCharCI (ch : Char) : Chars → Option Chars
  | c :: r => if jsLowerChar c = ch then some r else none
  | [] => none

/-- An optional single literal character (`c?` in a regex). -/
def eatOpt (ch : Char) (l : Chars) : Chars :=
  match l with
  | c :: r => if c = ch then r else l
  | [] => l

/-- Case-insensitive substring search (a bare `/lit/i.test`). -/
def containsLowerSub (hay needle : Chars) : Bool :=
  anySuffix (fun r => (eatLower needle r).isSome) hay

/-- Case-insensitive substring search over several literals. -/
def containsAnyLower (hay : Chars) (needles : List Chars) : Bool :=
  needles.any (containsLowerSub hay)

/-- Split on a literal separator character (JS `String.split(ch)`). -/
def splitOnCharL (sep : Char) : Chars → List Chars
  | [] => [[]]
  | c :: r =>
    if c = sep then [] :: splitOnCharL sep r
    else
      match splitOnCharL sep r with
      | h :: t => (c :: h) :: t
      | [] => [[c]]

/-- JS `String.split(ch)` on strings. -/
def jsSplitOnChar (sep : Char) (s : String) : List String :=
  (splitOnCharL sep s.data).map (fun l => (⟨l⟩ : String))

/-- JS `String.trim()`. -/
def jsTrim (s : String) : String :=
  ⟨((s.data.dropWhile isJsSpace).reverse.dropWhile isJsSpace).reverse⟩

/-- `replace(/\s/g, '')`. -/
def removeSpaces (s : String) : String :=
  ⟨s.data.filter (fun c => !isJsSpace c)⟩

/-- Expand one character into a replacement string everywhere
(`replace(/c/g, rep)`). -/
def replCharL (a : Char) (rep : Chars) (l : Chars) : Chars :=
  l.foldr (fun c acc => (if c = a then rep else [c]) ++ acc) []

/-- The global replace of `'-'` by `'+-'`: rewrite subtraction as addition
of a negative term. -/
def minusToPlusMinus (l : Chars) : Chars :=
  replCharL '-' ['+', '-'] l

/-- Worker for `replSubL` with the pattern's head explicit (structural
recursion on a fuel bound, so the definition evaluates by reduction; the
fuel is the input length, which bounds the number of scanning steps). -/
def replSubAux (fuel : Nat) (p0 : Char) (ps repl : Chars) : Chars → Chars
  | [] => []
  | c :: r =>
    match fuel with
    | 0 => c :: r
    | fuel + 1 =>
      if c = p0 && startsWithL ps r then
        repl ++ replSubAux fuel p0 ps repl (r.drop ps.length)
      else
        c :: replSubAux fuel p0 ps repl r

/-- Global literal-substring replacement (JS `replace(/pat/g, repl)` for a
fixed pattern), matching against the original string left to right. -/
def replSubL (pat repl l : Chars) : Chars :=
  match pat with
  | [] => l
  | p :: ps => replSubAux l.length p ps repl l

/-! ## JavaScript values returned by external engines -/

/-- A value returned by an external engine call: a string, a finite number,
`NaN`, or `null`. -/
inductive JsVal where
  | vstr (s : String)
  | vnum (q : ℚ)
  | vnan
  | vnull
deriving DecidableEq, Repr

/-- JavaScript truthiness of a `JsVal`. -/
def JsVal.truthy : JsVal → Bool
  | .vstr s => !s.isEmpty
  | .vnum q => q ≠ 0
  | .vnan => false
  | .vnull => false

/-- JavaScript strict equality of a `JsVal` against a string literal. -/
def JsVal.eqStr : JsVal → String → Bool
  | .vstr t, s => t = s
  | _, _ => false

/-- `String(v)` on a `JsVal`. -/
def jsValToString : JsVal → String
  | .vstr s => s
  | .vnum q => qToJsString q
  | .vnan => "NaN"
  | .vnull => "null"

/-! ## The environment of external collaborators

The specification scopes out the external CAS engines (math.js, nerdamer,
Algebrite) and the domain solvers (vector/matrix/statistics/…); they are
modelled as an environment record.  For an external call, `none` models a
thrown exception and `some v` a returned value.  `Math.sqrt`/`Math.cbrt`/
`Math.acos`/`Math.cos`/`Math.PI` are floating-point primitives, modelled as
environment-supplied rational approximations (exact on the inputs any
theorem below evaluates them at).  All theorems quantify over every
environment unless the claim itself fixes a branch (e.g. "manual path, no
external CAS"). -/
structure Env where
  nerdamerAvailable : Bool
  algebriteAvailable : Bool
  sqrt : ℚ → ℚ
  cbrt : ℚ → ℚ
  acos : ℚ → ℚ
  cosF : ℚ → ℚ
  piF : ℚ
  nerdamerSolve : String → String → Option String
  nerdamerSolveEquations : String → String → Option (List String)
  nerdamerEvaluate : String → Option String
  nerdamerText : String → Option String
  algebriteRun : String → Option String
  algebriteSimplify : String → Option String
  mathSimplify : String → Option String
  mathEvaluate : String → Option JsVal
  mathEvalX : String → JsNum → Option JsNum
  solveCompoundE : String → Nat → Except String SolutionRecord
  solveVectorE : String → Nat → Except String SolutionRecord
  solveMatrixE : String → Nat → Except String SolutionRecord
  solveStatisticsE : String → Nat → Except String SolutionRecord
  solveLimitE : String → Nat → Except String SolutionRecord
  solveSeriesE : String → Nat → Except String SolutionRecord
  solveLogarithmE : String → Nat → Except String SolutionRecord
  solveTrigonometryE : String → Nat → Except String SolutionRecord
  solveComplexNumberE : String → Nat → Except String SolutionRecord
  solveGraphE : String → Nat → Except String SolutionRecord
  solveGeometryE : String → Nat → Except String SolutionRecord
  solveSimplificationE : String → Nat → Except String SolutionRecord
  solveSystemE : String → Nat → Except String SolutionRecord
  solveGenericE : String → Nat → Except String SolutionRecord

/-- The environment in which every external engine is unavailable (throws)
and every scoped-out domain solver fails: the pure manual path. -/
def noCasEnv : Env where
  nerdamerAvailable := false
  algebriteAvailable := false
  sqrt := id
  cbrt := id
  acos := id
  cosF := id
  piF := 0
  nerdamerSolve := fun _ _ => none
  nerdamerSolveEquations := fun _ _ => none
  nerdamerEvaluate := fun _ => none
  nerdamerText := fun _ => none
  algebriteRun := fun _ => none
  algebriteSimplify := fun _ => none
  mathSimplify := fun _ => none
  mathEvaluate := fun _ => none
  mathEvalX := fun _ _ => none
  solveCompoundE := fun _ _ => Except.error "unavailable"
  solveVectorE := fun _ _ => Except.error "unavailable"
  solveMatrixE := fun _ _ => Except.error "unavailable"
  solveStatisticsE := fun _ _ => Except.error "unavailable"
  solveLimitE := fun _ _ => Except.error "unavailable"
  solveSeriesE := fun _ _ => Except.error "unavailable"
  solveLogarithmE := fun _ _ => Except.error "unavailable"
  solveTrigonometryE := fun _ _ => Except.error "unavailable"
  solveComplexNumberE := fun _ _ => Except.error "unavailable"
  solveGraphE := fun _ _ => Except.error "unavailable"
  solveGeometryE := fun _ _ => Except.error "unavailable"
  solveSimplificationE := fun _ _ => Except.error "unavailable"
  solveSystemE := fun _ _ => Except.error "unavailable"
  solveGenericE := fun _ _ => Except.error "unavailable"

/-! ## Matchers for the term-engine regexes -/

/-- The character class of coefficient/exponent groups: `[\d.]` plus `'-'`. -/
def isCoefC (c : Char) : Bool :=
  c = '-' || isDigitC c || c = '.'

/-- `/name\s*\(\s*x\s*\)/i` at the current position (`name` lowercased). -/
def fnCallHere (name : Chars) (l : Chars) : Bool :=
  (do
    let r ← eatLower name l
    let r ← eatChar '(' (eatSp r)
    let r ← eatCharCI 'x' (eatSp r)
    let _ ← eatChar ')' (eatSp r)
    pure ()).isSome

/-- `/name\s*\(\s*x\s*\)/i` anywhere in the term. -/
def testFnCall (name : Chars) (l : Chars) : Bool :=
  anySuffix (fnCallHere name) l

/-- The anchored coefficient lookbehind `^([\-\d\.]*)\s*name` (the `name`
literal is matched case-sensitively, as in the source). -/
def coefGroupBefore (name : Chars) (l : Chars) : Option Chars :=
  let g := l.takeWhile isCoefC
  let r := (l.dropWhile isCoefC).dropWhile isJsSpace
  if startsWithL name r then some g else none

/-- `coefMatch && coefMatch[1] ? parseFloat(coefMatch[1]) || 1 : 1`. -/
def coefOr1 (g? : Option Chars) : ℚ :=
  match g? with
  | none => 1
  | some g =>
    if g.isEmpty then 1
    else
      match jsParseFloatL g with
      | none => 1
      | some v => if v = 0 then 1 else v

/-- The derivative test `/e\s*\^\s*x|exp\s*\(\s*x\s*\)/i` at one position. -/
def expTermHere (l : Chars) : Bool :=
  ((do
      let r ← eatCharCI 'e' l
      let r ← eatChar '^' (eatSp r)
      let _ ← eatCharCI 'x' (eatSp r)
      pure ()).isSome) ||
  fnCallHere "exp".data l

/-- The derivative test `/sqrt\s*\(\s*x\s*\)|√x/i` at one position (both
alternatives case-insensitive, per the regex `i` flag). -/
def sqrtTermHere (l : Chars) : Bool :=
  fnCallHere "sqrt".data l || (eatLower "√x".data l).isSome

/-- The shared power-rule parse `^([\-\d\.]*)x\^?([\-\d\.]*)` (with the
fallback `^([\-\d\.]*)x`, which can never succeed when the first regex
fails): returns the two captured groups. -/
def powerMatch (l : Chars) : Option (Chars × Chars) :=
  let g1 := l.takeWhile isCoefC
  match l.dropWhile isCoefC with
  | 'x' :: r => some (g1, (eatOpt '^' r).takeWhile isCoefC)
  | _ => none

/-- Coefficient of a power-rule match:
`match[1] === '' || match[1] === '+' ? 1 : (match[1] === '-' ? -1 : parseFloat(match[1]))`. -/
def powCoef (g : Chars) : JsNum :=
  if g.isEmpty then some 1
  else if g = ['-'] then some (-1)
  else jsParseFloatL g

/-- Exponent of a power-rule match: `match[2] ? parseFloat(match[2]) : 1`. -/
def powExp (g : Chars) : JsNum :=
  if g.isEmpty then some 1 else jsParseFloatL g

/-! ## `MathSolver.differentiateTerm`

The source pushes justification steps onto a caller-supplied array and
returns the derivative text; here the updated step list is returned next to
the text. -/

/-- Term-by-term symbolic differentiation (`MathSolver.differentiateTerm`).
Rule order is the source order: constant, `sin`, `cos`, `tan`, `e^x`,
`ln`/`log`, `sqrt`, power rule, and finally an unchanged pass-through. -/
def differentiateTerm (term : String) (steps : List Step) : String × List Step :=
  let t := term.data
  if !containsCharL t 'x' then
    ("0", steps ++ [⟨"Constant rule: derivative of " ++ term ++ " is 0",
                     "d/dx[" ++ term ++ "] = 0"⟩])
  else if testFnCall "sin".data t then
    let coef := coefOr1 (coefGroupBefore "sin".data t)
    (if coef = 1 then "cos(x)" else qToJsString coef ++ "cos(x)",
     steps ++ [⟨"d/dx[" ++ term ++ "]", "= " ++ qToJsString coef ++ "cos(x)"⟩])
  else if testFnCall "cos".data t then
    let coef := coefOr1 (coefGroupBefore "cos".data t)
    (qToJsString (-coef) ++ "sin(x)",
     steps ++ [⟨"d/dx[" ++ term ++ "]", "= " ++ qToJsString (-coef) ++ "sin(x)"⟩])
  else if testFnCall "tan".data t then
    let coef := coefOr1 (coefGroupBefore "tan".data t)
    (if coef = 1 then "sec²(x)" else qToJsString coef ++ "sec²(x)",
     steps ++ [⟨"d/dx[" ++ term ++ "]", "= " ++ qToJsString coef ++ "sec²(x)"⟩])
  else if anySuffix expTermHere t then
    (term,
     steps ++ [⟨"d/dx[" ++ term ++ "]", "= " ++ term ++ " (exponential rule)"⟩])
  else if testFnCall "ln".data t || testFnCall "log".data t then
    let coef := coefOr1 (coefGroupBefore "l".data t)
    (if coef = 1 then "1/x" else qToJsString coef ++ "/x",
     steps ++ [⟨"d/dx[" ++ term ++ "]", "= " ++ qToJsString coef ++ "/x"⟩])
  else if anySuffix sqrtTermHere t then
    ("1/(2√x)", steps ++ [⟨"d/dx[" ++ term ++ "]", "= 1/(2√x)"⟩])
  else
    match powerMatch t with
    | some (g1, g2) =>
      let coef := powCoef g1
      let exp := powExp g2
      let newCoef := jmul coef exp
      let newExp := jsub exp (some 1)
      let out : String :=
        if jeq newExp (some 0) then jsNumToString newCoef
        else if jeq newExp (some 1) then jsNumToString newCoef ++ "x"
        else if jeq newExp (some (-1)) then jsNumToString newCoef ++ "/x"
        else if jeq newExp (some (1/2)) then jsNumToString newCoef ++ "√x"
        else jsNumToString newCoef ++ "x^" ++ jsNumToString newExp
      (out,
       steps ++ [⟨"Power rule: d/dx[" ++ term ++ "] = " ++ jsNumToString coef ++
                   " × " ++ jsNumToString exp ++ " × x^(" ++ jsNumToString exp ++ "-1)",
                  "= " ++ jsNumToString newCoef ++ "x^" ++ jsNumToString newExp⟩])
    | none => (term, steps)

/-- `MathSolver.computeDerivative`: normalise signs, split on `+`,
differentiate each term, drop zero derivatives, and join. -/
def computeDerivative (func : String) (steps : List Step) : String × List Step :=
  let normalized := minusToPlusMinus (removeSpaces func).data
  let terms := (splitOnCharL '+' normalized).filter (fun t => !t.isEmpty)
  let (derivs, steps1) :=
    terms.foldl (fun (acc : List String × List Step) t =>
      let (d, st) := differentiateTerm (⟨t⟩ : String) acc.2
      (if d ≠ "0" then acc.1 ++ [d] else acc.1, st)) ([], steps)
  let joined := String.intercalate " + " derivs
  let result : String := ⟨replSubL "+ -".data "- ".data joined.data⟩
  let result := if result.isEmpty then "0" else result
  (result,
   steps1 ++ [⟨"Combine all differentiated terms",
               "f" ++ aposS ++ "(x) = " ++ result⟩])

/-! ## Matchers for the integration rules -/

/-- The integration trig-family anchored test `/^-?\d*\*?name\(?x\)?$/i`. -/
def anchoredTrigInt (name : Chars) (l : Chars) : Bool :=
  let l1 := eatOpt '-' l
  let l2 := l1.dropWhile isDigitC
  let l3 := eatOpt '*' l2
  match eatLower name l3 with
  | none => false
  | some r =>
    let r1 := eatOpt '(' r
    match r1 with
    | c :: rest => jsLowerChar c = 'x' && (rest = [] || rest = [')'])
    | [] => false

/-- Coefficient group of `/^(-?\d*)\*?name/i`:
`coefMatch[1] === '-' ? -1 : parseFloat(coefMatch[1])`, defaulting to `1`
when the group is empty. -/
def trigIntCoef (l : Chars) : ℚ :=
  let (sgn, l1) : Bool × Chars :=
    match l with
    | '-' :: r => (true, r)
    | _ => (false, l)
  let ds := l1.takeWhile isDigitC
  if !sgn && ds.isEmpty then 1
  else if sgn && ds.isEmpty then -1
  else (if sgn then -1 else 1) * (digitsVal ds : ℚ)

/-- The unanchored test `/name\^?2?\(?x\)?/i` at one position. -/
def secStyleHere (name : Chars) (l : Chars) : Bool :=
  match eatLower name l with
  | none => false
  | some r =>
    match eatOpt '(' (eatOpt '2' (eatOpt '^' r)) with
    | c :: _ => jsLowerChar c = 'x'
    | [] => false

/-- `name\(?x\)?` at the current position; returns the rest. -/
def fnXOptParens (name : Chars) (l : Chars) : Option Chars :=
  (do
    let r ← eatLower name l
    let r1 := eatOpt '(' r
    let r2 ← eatCharCI 'x' r1
    pure (eatOpt ')' r2))

/-- `/sec\(?x\)?[\s\*]*tan\(?x\)?/i` at one position. -/
def secTanHere (l : Chars) : Bool :=
  (do
    let r ← fnXOptParens "sec".data l
    let r := r.dropWhile (fun c => isJsSpace c || c = '*')
    let _ ← fnXOptParens "tan".data r
    pure ()).isSome

/-- `/csc\(?x\)?[\s\*]*cot\(?x\)?/i` at one position. -/
def cscCotHere (l : Chars) : Bool :=
  (do
    let r ← fnXOptParens "csc".data l
    let r := r.dropWhile (fun c => isJsSpace c || c = '*')
    let _ ← fnXOptParens "cot".data r
    pure ()).isSome

/-- The anchored exponential test `/^-?\d*\*?e\^x$/i`. -/
def anchoredExpInt (l : Chars) : Bool :=
  let l1 := eatOpt '-' l
  let l2 := l1.dropWhile isDigitC
  let l3 := eatOpt '*' l2
  (do
    let r ← eatCharCI 'e' l3
    let r ← eatChar '^' r
    let r ← eatCharCI 'x' r
    if r = [] then some () else none).isSome

/-- `/e\^\(?(-?\d+)x\)?/i` at one position, returning the captured `a`. -/
def eAxHere (l : Chars) : Option ℤ :=
  (do
    let r ← eatCharCI 'e' l
    let r ← eatChar '^' r
    let r1 := eatOpt '(' r
    let (sgn, r2) : Bool × Chars :=
      match r1 with
      | '-' :: t => (true, t)
      | _ => (false, r1)
    let ds := r2.takeWhile isDigitC
    if ds.isEmpty then none
    else
      match r2.dropWhile isDigitC with
      | c :: _ =>
        if jsLowerChar c = 'x' then
          some (if sgn then -(digitsVal ds : ℤ) else (digitsVal ds : ℤ))
        else none
      | [] => none)

/-- The anchored natural-log test `/^ln\(?x\)?$/i`. -/
def anchoredLnInt (l : Chars) : Bool :=
  (do
    let r ← eatLower "ln".data l
    let r1 := eatOpt '(' r
    let r2 ← eatCharCI 'x' r1
    if eatOpt ')' r2 = [] then some () else none).isSome

/-- `/1\/\(1\+x\^?2\)|1\/\(1\s*\+\s*x\*\*2\)/i` at one position. -/
def arctanHere (l : Chars) : Bool :=
  ((do
      let r ← eatLower "1/(1+x".data l
      let r1 := eatOpt '^' r
      let r2 ← eatChar '2' r1
      let _ ← eatChar ')' r2
      pure ()).isSome) ||
  ((do
      let r ← eatLower "1/(1".data l
      let r ← eatChar '+' (eatSp r)
      let r ← eatCharCI 'x' (eatSp r)
      let r ← eatLower "**2)".data r
      pure r).isSome)

/-- `/1\/sqrt\(1-x\^?2\)|1\/√\(1-x\^?2\)/i` at one position. -/
def arcsinHere (l : Chars) : Bool :=
  ((do
      let r ← eatLower "1/sqrt(1-x".data l
      let r1 := eatOpt '^' r
      let r2 ← eatChar '2' r1
      let _ ← eatChar ')' r2
      pure ()).isSome) ||
  ((do
      let r ← eatLower "1/√(1-x".data l
      let r1 := eatOpt '^' r
      let r2 ← eatChar '2' r1
      let _ ← eatChar ')' r2
      pure ()).isSome)

/-- The special-function screen of the constant rule:
`/sin|cos|tan|sec|csc|cot|ln|e\^|log/i`. -/
def hasSpecialFn (l : Chars) : Bool :=
  containsAnyLower l
    ["sin".data, "cos".data, "tan".data, "sec".data, "csc".data,
     "cot".data, "ln".data, "e^".data, "log".data]

/-! ## `MathSolver.integrateTerm` -/

/-- Term-by-term symbolic integration (`MathSolver.integrateTerm`).  Rule
order is the source order: constant, `sin`/`cos` families, `sec²`, `csc²`,
`sec·tan`, `csc·cot`, `e^x`, `e^(ax)`, `1/x`, `ln(x)`, `arctan`, `arcsin`
forms, the power rule with its `n = -1` special case, then the external
engines (Algebrite, nerdamer) as a last resort, and finally the
conservative `term + "x"` placeholder. -/
def integrateTerm (env : Env) (term : String) (steps : List Step) :
    String × List Step :=
  let cleanTerm := jsTrim term
  let t := cleanTerm.data
  let stepFor (res : String) : List Step :=
    steps ++ [⟨"∫" ++ cleanTerm ++ " dx", "= " ++ res⟩]
  if !containsCharL t 'x' && !hasSpecialFn t &&
      (jsParseFloatL t).isSome then
    match jsParseFloatL t with
    | some c =>
      (qToJsString c ++ "x",
       steps ++ [⟨"Constant rule: ∫" ++ qToJsString c ++ " dx = " ++
                   qToJsString c ++ "x",
                  "∫" ++ qToJsString c ++ " dx = " ++ qToJsString c ++ "x"⟩])
    | none => ("", steps)
  else if anchoredTrigInt "sin".data t then
    let coef := trigIntCoef t
    let result : String :=
      if coef = 1 then "-cos(x)"
      else if coef = -1 then "cos(x)"
      else qToJsString (-coef) ++ "cos(x)"
    (result, stepFor result)
  else if anchoredTrigInt "cos".data t then
    let coef := trigIntCoef t
    let result : String :=
      if coef = 1 then "sin(x)" else qToJsString coef ++ "sin(x)"
    (result, stepFor result)
  else if anySuffix (secStyleHere "sec".data) t then
    ("tan(x)", stepFor "tan(x)")
  else if anySuffix (secStyleHere "csc".data) t then
    ("-cot(x)", stepFor "-cot(x)")
  else if anySuffix secTanHere t then
    ("sec(x)", stepFor "sec(x)")
  else if anySuffix cscCotHere t then
    ("-csc(x)", stepFor "-csc(x)")
  else if anchoredExpInt t then
    let coef := trigIntCoef t
    let result : String :=
      if coef = 1 then "e^x" else qToJsString coef ++ "e^x"
    (result, stepFor result)
  else if (findFirst eAxHere t).isSome then
    match findFirst eAxHere t with
    | some a =>
      let aq : ℚ := (a : ℚ)
      let oneOverA := jdiv (some 1) (some aq)
      let result := "(1/" ++ qToJsString aq ++ ")e^(" ++ qToJsString aq ++ "x)"
      (formatNumber oneOverA ++ "e^(" ++ qToJsString aq ++ "x)",
       steps ++ [⟨"∫" ++ cleanTerm ++ " dx",
                  "= " ++ result ++ " = " ++ formatNumber oneOverA ++
                    "e^(" ++ qToJsString aq ++ "x)"⟩])
    | none => ("", steps)
  else if jsLower cleanTerm = "1/x" || jsLower cleanTerm = "x^-1" then
    ("ln|x|", stepFor "ln|x|")
  else if anchoredLnInt t then
    ("x·ln(x) - x",
     steps ++ [⟨"Integration by parts: ∫ln(x) dx", "= x·ln(x) - x"⟩])
  else if anySuffix arctanHere t then
    ("arctan(x)", stepFor "arctan(x)")
  else if anySuffix arcsinHere t then
    ("arcsin(x)", stepFor "arcsin(x)")
  else
    match powerMatch t with
    | some (g1, g2) =>
      let coef := powCoef g1
      let exp := powExp g2
      if jeq exp (some (-1)) then
        let result : String :=
          if jeq coef (some 1) then "ln|x|"
          else jsNumToString coef ++ "ln|x|"
        (result,
         steps ++ [⟨"∫" ++ cleanTerm ++ " dx (special case n = -1)",
                    "= " ++ result⟩])
      else
        let newExp := jadd exp (some 1)
        let newCoef := jdiv coef newExp
        let out : String :=
          if jeq newExp (some 1) then formatNumber newCoef ++ "x"
          else if jeq newExp (some 0) then formatNumber newCoef
          else formatNumber newCoef ++ "x^" ++ jsNumToString newExp
        (out,
         steps ++ [⟨"Power rule: ∫" ++ cleanTerm ++ " dx = " ++
                     jsNumToString coef ++ " × x^(" ++ jsNumToString exp ++
                     "+1)/(" ++ jsNumToString exp ++ "+1)",
                    "= " ++ formatNumber newCoef ++ "x^" ++
                      jsNumToString newExp⟩])
    | none =>
      match env.algebriteRun ("integral(" ++ cleanTerm ++ ", x)") with
      | some r =>
        if !r.isEmpty && r ≠ "undefined" && !containsSub r "integral" then
          (r, stepFor r)
        else
          match env.nerdamerText ("integrate(" ++ cleanTerm ++ ", x)") with
          | some r2 =>
            if !r2.isEmpty && r2 ≠ cleanTerm then (r2, stepFor r2)
            else (cleanTerm ++ "x", steps)
          | none => (cleanTerm ++ "x", steps)
      | none =>
        match env.nerdamerText ("integrate(" ++ cleanTerm ++ ", x)") with
        | some r2 =>
          if !r2.isEmpty && r2 ≠ cleanTerm then (r2, stepFor r2)
          else (cleanTerm ++ "x", steps)
        | none => (cleanTerm ++ "x", steps)

/-- `MathSolver.computeIntegral`: split into signed terms, integrate each,
join, and record the combined antiderivative with its `+ C`. -/
def computeIntegral (env : Env) (func : String) (steps : List Step) :
    String × List Step :=
  let normalized := minusToPlusMinus (removeSpaces func).data
  let terms := (splitOnCharL '+' normalized).filter (fun t => !t.isEmpty)
  let (ints, steps1) :=
    terms.foldl (fun (acc : List String × List Step) t =>
      let (r, st) := integrateTerm env (⟨t⟩ : String) acc.2
      (acc.1 ++ [r], st)) ([], steps)
  let joined := String.intercalate " + " ints
  let result : String := ⟨replSubL "+ -".data "- ".data joined.data⟩
  (result,
   steps1 ++ [⟨"Combine all integrated terms and add constant of integration",
               "∫f(x)dx = " ++ result ++ " + C"⟩])

/-! ## Classifier (`MathSolver.classifyProblem`) -/

/-- The category keyword table, in source (insertion) order.  Weights are
keyword lengths, so only the strings matter here. -/
def problemCategories : List (String × List String) :=
  [("Algebra", ["equation", "solve", "factor", "expand", "simplify",
     "polynomial", "expression", "variable", "linear", "quadratic", "cubic",
     "system"]),
   ("Calculus", ["derivative", "differentiate", "integral", "integrate",
     "limit", "series", "taylor", "maclaurin", "differential",
     "antiderivative", "f" ++ aposS, "d/dx", "∫"]),
   ("Geometry", ["area", "perimeter", "volume", "radius", "diameter",
     "circle", "triangle", "rectangle", "square", "sphere", "cube",
     "cylinder", "cone", "polygon", "angle", "hypotenuse", "pythagorean"]),
   ("Trigonometry", ["sin", "cos", "tan", "cot", "sec", "csc", "arcsin",
     "arccos", "arctan", "radian", "degree", "trigonometric", "identity"]),
   ("Vector", ["vector", "dot product", "cross product", "magnitude",
     "unit vector", "position vector", "perpendicular", "parallel", "plane",
     "normal", "reflection", "→"]),
   ("Matrix", ["matrix", "determinant", "inverse", "transpose",
     "eigenvalue", "eigenvector", "rank", "trace"]),
   ("Statistics", ["mean", "median", "mode", "standard deviation",
     "variance", "probability", "distribution", "regression",
     "correlation"]),
   ("Number Theory", ["prime", "factorial", "gcd", "lcm", "divisor",
     "modulo", "remainder", "fibonacci"]),
   ("Complex Numbers", ["complex", "imaginary", "real part", "conjugate",
     "arg", "modulus", "euler"]),
   ("Logarithms", ["log", "ln", "logarithm", "exponential", "exp",
     "natural log"]),
   ("Sequences", ["sequence", "series", "sum", "product", "arithmetic",
     "geometric", "recurrence", "nth term"]),
   ("Combinatorics", ["permutation", "combination", "choose", "arrange",
     "binomial"]),
   ("Graphing", ["graph", "plot", "y =", "sketch", "curve",
     "function plot"]),
   ("Arithmetic", ["add", "subtract", "multiply", "divide", "calculate",
     "compute", "evaluate"])]

/-- Keyword score of one category: sum of lengths of the keywords occurring
as substrings of the lowercased problem. -/
def categoryScore (lower : Chars) (kws : List String) : Nat :=
  kws.foldl
    (fun a kw => if containsSubL lower (jsLower kw).data then a + kw.length
                 else a) 0

/-- `x\s*\*\s*x` (case-insensitive) at one position. -/
def xStarXHere (l : Chars) : Bool :=
  (do
    let r ← eatCharCI 'x' l
    let r ← eatChar '*' (eatSp r)
    let _ ← eatCharCI 'x' (eatSp r)
    pure ()).isSome

/-- The Algebra bonus pattern `/\^2|²|x\s*\*\s*x/i`. -/
def algebraBonus (t : Chars) : Bool :=
  containsSubL t "^2".data || containsCharL t '²' || anySuffix xStarXHere t

/-- The Calculus bonus pattern `/∫|∂|dx|dy/i`. -/
def calculusBonus (t : Chars) : Bool :=
  containsAnyLower t ["∫".data, "∂".data, "dx".data, "dy".data]

/-- `\(\s*\d+\s*,\s*\d+\s*,\s*\d+\s*\)` (a 3-tuple of naturals) at one
position. -/
def tripleCoordHere (l : Chars) : Bool :=
  (do
    let r ← eatChar '(' l
    let r := eatSp r
    let ds1 := r.takeWhile isDigitC
    if ds1.isEmpty then none else
    let r ← eatChar ',' (eatSp (r.dropWhile isDigitC))
    let r := eatSp r
    let ds2 := r.takeWhile isDigitC
    if ds2.isEmpty then none else
    let r ← eatChar ',' (eatSp (r.dropWhile isDigitC))
    let r := eatSp r
    let ds3 := r.takeWhile isDigitC
    if ds3.isEmpty then none else
    let _ ← eatChar ')' (eatSp (r.dropWhile isDigitC))
    pure ()).isSome

/-- The Vector bonus pattern `/→|\(\s*\d+\s*,\s*\d+\s*,\s*\d+\s*\)/i`. -/
def vectorBonus (t : Chars) : Bool :=
  containsCharL t '→' || anySuffix tripleCoordHere t

/-- The Matrix bonus pattern `/\[\s*\[|\]\s*\]/i`. -/
def matrixBonus (t : Chars) : Bool :=
  anySuffix (fun r => (do
    let r1 ← eatChar '[' r
    let _ ← eatChar '[' (eatSp r1)
    pure ()).isSome) t ||
  anySuffix (fun r => (do
    let r1 ← eatChar ']' r
    let _ ← eatChar ']' (eatSp r1)
    pure ()).isSome) t

/-- The Trigonometry bonus pattern `/sin|cos|tan/i`. -/
def trigBonus (t : Chars) : Bool :=
  containsAnyLower t ["sin".data, "cos".data, "tan".data]

/-- The Logarithms bonus pattern `/log|ln\s*\(/i`. -/
def logBonus (t : Chars) : Bool :=
  containsLowerSub t "log".data ||
  anySuffix (fun r => (do
    let r1 ← eatLower "ln".data r
    let _ ← eatChar '(' (eatSp r1)
    pure ()).isSome) t

/-- The character class `[\d\s\+\-\*\/\(\)\.\^\%]` of the arithmetic-only
patterns. -/
def isArithChar (c : Char) : Bool :=
  isDigitC c || isJsSpace c || c = '+' || c = '-' || c = '*' || c = '/' ||
  c = '(' || c = ')' || c = '.' || c = '^' || c = '%'

/-- The Arithmetic bonus pattern `/^\s*[\d\s\+\-\*\/\(\)\.\^\%]+\s*$/i`:
a nonempty string made only of arithmetic characters. -/
def arithmeticOnly (t : Chars) : Bool :=
  !t.isEmpty && t.all isArithChar

/-- The fixed pattern bonus added to one category's keyword score. -/
def bonusFor (t : Chars) (name : String) : Nat :=
  if name = "Algebra" then (if algebraBonus t then 3 else 0)
  else if name = "Calculus" then (if calculusBonus t then 5 else 0)
  else if name = "Vector" then (if vectorBonus t then 5 else 0)
  else if name = "Matrix" then (if matrixBonus t then 5 else 0)
  else if name = "Trigonometry" then (if trigBonus t then 3 else 0)
  else if name = "Logarithms" then (if logBonus t then 3 else 0)
  else if name = "Arithmetic" then (if arithmeticOnly t then 10 else 0)
  else 0

/-- `MathSolver.classifyProblem`: weighted keyword scores plus structural
bonuses; the first category with the strictly highest score wins, and a
zero-score problem is labelled `"General Mathematics"`. -/
def classifyProblem (problem : String) : String :=
  let lower := (jsLower problem).data
  let t := problem.data
  let scores := problemCategories.map
    (fun p => (p.1, categoryScore lower p.2 + bonusFor t p.1))
  (scores.foldl
    (fun (acc : String × Nat) p => if p.2 > acc.2 then p else acc)
    ("General Mathematics", 0)).1

/-! ## Detection predicates (`isMatrix`, `isVector`, …)

Each is the faithful translation of one regex test from the source's
`// DETECTION METHODS` block; the dispatcher applies most of them to the
lowercased problem, and the last few to the original text (as the source
does). -/

/-- Word-character test on an optional previous character (for `\b`). -/
def wdOpt : Option Char → Bool
  | none => false
  | some c => isWordC c

/-- Scan all positions carrying the previous character (for `\b` patterns). -/
def anySuffixPrev (p : Option Char → Chars → Bool) :
    Option Char → Chars → Bool
  | prev, [] => p prev []
  | prev, c :: r => p prev (c :: r) || anySuffixPrev p (some c) r

/-- `\blit\b` (case-insensitive) at one position. -/
def wordLitHere (lit : Chars) (prev : Option Char) (l : Chars) : Bool :=
  !wdOpt prev &&
  (match eatLower lit l with
   | some [] => true
   | some (c :: _) => !isWordC c
   | none => false)

/-- `\blit\b` (case-insensitive) anywhere. -/
def containsWordLit (lit : Chars) (l : Chars) : Bool :=
  anySuffixPrev (wordLitHere lit) none l

/-- `a\s*b` (two case-insensitive literals over optional space) at one
position. -/
def sepLitHere (a b : Chars) (l : Chars) : Bool :=
  (do
    let r ← eatLower a l
    let _ ← eatLower b (eatSp r)
    pure ()).isSome

/-- `a\s*b` anywhere. -/
def containsSepLit (hay a b : Chars) : Bool :=
  anySuffix (sepLitHere a b) hay

/-- `a\s+b` (mandatory whitespace) at one position. -/
def sepLitPlusHere (a b : Chars) (l : Chars) : Bool :=
  (do
    let r ← eatLower a l
    match r with
    | c :: r2 =>
      if isJsSpace c then
        let _ ← eatLower b (eatSp r2)
        pure ()
      else none
    | [] => none).isSome

/-- `a\s+b` anywhere. -/
def containsSepLitPlus (hay a b : Chars) : Bool :=
  anySuffix (sepLitPlusHere a b) hay

/-- JavaScript line terminators (what `.` does not match). -/
def isLineTerm (c : Char) : Bool :=
  c = '\n' || c = '\r' || c = (Char.ofNat 0x2028) || c = (Char.ofNat 0x2029)

/-- Is there a character satisfying `p` later on the same line (`.*` then a
class)? -/
def laterOnLine (p : Char → Bool) : Chars → Bool
  | [] => false
  | c :: r => if isLineTerm c then false else p c || laterOnLine p r

/-- `MathSolver.isMatrix`. -/
def isMatrix (s : String) : Bool :=
  let t := s.data
  containsAnyLower t ["matrix".data, "determinant".data, "inverse".data,
    "transpose".data, "eigenvalue".data, "eigenvector".data] ||
  matrixBonus t || containsSepLit t "det".data "(".data

/-- `MathSolver.isStatistics`. -/
def isStatistics (s : String) : Bool :=
  let t := s.data
  containsAnyLower t ["mean".data, "median".data, "mode".data,
    "variance".data, "average".data, "probability".data,
    "percentile".data, "quartile".data] ||
  containsSepLit t "standard".data "deviation".data

/-- `as\s+x\s*→` at one position. -/
def asXArrowHere (l : Chars) : Bool :=
  (do
    let r ← eatLower "as".data l
    match r with
    | c :: r2 =>
      if isJsSpace c then
        let r3 ← eatCharCI 'x' (eatSp r2)
        let _ ← eatChar '→' (eatSp r3)
        pure ()
      else none
    | [] => none).isSome

/-- `MathSolver.isLimit`. -/
def isLimit (s : String) : Bool :=
  let t := s.data
  containsLowerSub t "limit".data ||
  anySuffix (fun r => (do
    let r1 ← eatLower "lim".data r
    match r1 with
    | c :: _ => if isJsSpace c then some () else none
    | [] => none).isSome) t ||
  containsLowerSub t "lim(".data ||
  containsCharL t '→' ||
  containsLowerSub t "approaches".data ||
  anySuffix asXArrowHere t

/-- `MathSolver.isSeries`. -/
def isSeries (s : String) : Bool :=
  let t := s.data
  containsLowerSub t "series".data ||
  containsSepLitPlus t "sum".data "of".data ||
  containsSepLitPlus t "sum".data "from".data ||
  containsCharL t '∑' ||
  containsLowerSub t "sigma".data ||
  containsLowerSub t "sequence".data ||
  containsSepLit t "nth".data "term".data ||
  containsSepLit t "arithmetic".data "sequence".data ||
  containsSepLit t "geometric".data "sequence".data

/-- `MathSolver.isLogarithm`. -/
def isLogarithm (s : String) : Bool :=
  let t := s.data
  containsWordLit "log".data t || containsWordLit "ln".data t ||
  containsLowerSub t "logarithm".data ||
  containsSepLit t "natural".data "log".data

/-- `MathSolver.isTrigonometry`: the trig keyword test together with the
area/perimeter exclusion that avoids geometry conflicts. -/
def isTrigonometry (s : String) : Bool :=
  let t := s.data
  (containsWordLit "sin".data t || containsWordLit "cos".data t ||
   containsWordLit "tan".data t || containsWordLit "cot".data t ||
   containsWordLit "sec".data t || containsWordLit "csc".data t ||
   containsAnyLower t ["arcsin".data, "arccos".data, "arctan".data,
     "trigonometric".data, "identity".data]) &&
  !(containsLowerSub t "area".data || containsLowerSub t "perimeter".data)

/-- `\bi\b.*[+-]` at one position (the `[+-]` must sit on the same line). -/
def loneIThenSignHere (prev : Option Char) (l : Chars) : Bool :=
  !wdOpt prev &&
  (match l with
   | c :: r =>
     jsLowerChar c = 'i' &&
     (match r with
      | [] => false
      | d :: _ => !isWordC d && laterOnLine (fun e => e = '+' || e = '-') r)
   | [] => false)

/-- `\d+\s*[+-]\s*\d*i` at one position. -/
def numSignNumIHere (l : Chars) : Bool :=
  (do
    let ds := l.takeWhile isDigitC
    if ds.isEmpty then none else
    let r := eatSp (l.dropWhile isDigitC)
    let r ← (match r with
             | c :: r2 => if c = '+' || c = '-' then some r2 else none
             | [] => none)
    let r := eatSp r
    let r := r.dropWhile isDigitC
    let _ ← eatCharCI 'i' r
    pure ()).isSome

/-- `MathSolver.isComplexNumber`. -/
def isComplexNumber (s : String) : Bool :=
  let t := s.data
  containsLowerSub t "complex".data ||
  containsLowerSub t "imaginary".data ||
  anySuffixPrev loneIThenSignHere none t ||
  anySuffix numSignNumIHere t ||
  containsLowerSub t "conjugate".data ||
  containsSepLit t "arg".data "(".data

/-- `MathSolver.isGraph`: a leading `graph`/`plot` command or `y = …`. -/
def isGraph (s : String) : Bool :=
  let t := s.data
  (let r := eatSp t
   (match eatLower "graph".data r with
    | some [] => true
    | some (c :: _) => !isWordC c
    | none => false) ||
   (match eatLower "plot".data r with
    | some [] => true
    | some (c :: _) => !isWordC c
    | none => false)) ||
  anySuffix (fun r => (do
    let r1 ← eatCharCI 'y' r
    let r2 ← eatChar '=' (eatSp r1)
    match r2 with
    | c :: _ => if c ≠ '=' then some () else none
    | [] => none).isSome) t

/-- `a.*b` (case-insensitive, the gap confined to one line) anywhere. -/
def litThenLitSameLine (a b t : Chars) : Bool :=
  anySuffix (fun r =>
    match eatLower a r with
    | some rest =>
      anySuffix (fun r2 => (eatLower b r2).isSome)
        (rest.takeWhile (fun c => !isLineTerm c))
    | none => false) t

/-- `MathSolver.isCompoundRequest` (`solve … then graph …`). -/
def isCompoundRequest (s : String) : Bool :=
  let t := s.data
  containsSepLitPlus t "then".data "graph".data ||
  containsSepLitPlus t "then".data "plot".data ||
  litThenLitSameLine "graph".data "solve".data t ||
  litThenLitSameLine "solve".data "graph".data t

/-- `MathSolver.isGeometry`. -/
def isGeometry (s : String) : Bool :=
  containsAnyLower s.data ["area".data, "perimeter".data,
    "circumference".data, "volume".data, "radius".data, "diameter".data,
    "circle".data, "triangle".data, "rectangle".data, "square".data,
    "sphere".data, "cube".data, "cylinder".data, "cone".data,
    "polygon".data, "hypotenuse".data, "pythagorean".data]

/-- `\b[A-Z]{2}\s*→` (with the `i` flag, so any two letters) at one
position. -/
def twoLettersArrowHere (prev : Option Char) (l : Chars) : Bool :=
  !wdOpt prev &&
  (match l with
   | a :: b :: r =>
     isLetterC a && isLetterC b && ((eatChar '→' (eatSp r)).isSome)
   | _ => false)

/-- `coordinates?\s*(of\s*)?[A-Z]\s*\(` at one position (with the
backtracking alternatives the optional pieces allow). -/
def coordOfHere (l : Chars) : Bool :=
  match eatLower "coordinate".data l with
  | none => false
  | some r =>
    let tailTry (r2 : Chars) : Bool :=
      match r2 with
      | c :: r3 => isLetterC c && (eatChar '(' (eatSp r3)).isSome
      | [] => false
    let attempts (r1 : Chars) : Bool :=
      let r2 := eatSp r1
      tailTry r2 ||
      (match eatLower "of".data r2 with
       | some r3 => tailTry (eatSp r3)
       | none => false)
    (match r with
     | c :: rs => (if jsLowerChar c = 's' then attempts rs else false)
     | [] => false) ||
    attempts r

/-- `MathSolver.isVector`. -/
def isVector (s : String) : Bool :=
  let t := s.data
  containsCharL t '→' ||
  containsLowerSub t "vector".data ||
  containsSepLit t "dot".data "product".data ||
  containsSepLit t "cross".data "product".data ||
  containsCharL t '•' || containsCharL t '×' ||
  containsSepLit t "position".data "vector".data ||
  containsSepLit t "unit".data "vector".data ||
  containsLowerSub t "magnitude".data ||
  containsLowerSub t "parallel".data ||
  containsLowerSub t "perpendicular".data ||
  containsLowerSub t "normal".data ||
  containsLowerSub t "plane".data ||
  containsSepLit t "cartesian".data "equation".data ||
  containsSepLit t "line".data "equation".data ||
  containsCharL t '𝐫' ||
  containsLowerSub t "reflection".data ||
  containsLowerSub t "intersection".data ||
  anySuffixPrev twoLettersArrowHere none t ||
  anySuffix tripleCoordHere t ||
  anySuffix coordOfHere t ||
  containsCharL t '𝑥' || containsCharL t '𝑦' || containsCharL t '𝑧' ||
  containsCharL t 'ℝ' || containsCharL t '𝛱' || containsCharL t '𝜇' ||
  containsCharL t '𝜆'

/-- `MathSolver.isIntegral`. -/
def isIntegral (s : String) : Bool :=
  containsAnyLower s.data ["integrate".data, "integral".data, "∫".data,
    "antiderivative".data]

/-- `MathSolver.isDerivative`. -/
def isDerivative (s : String) : Bool :=
  let t := s.data
  containsAnyLower t ["derive".data, "derivative".data,
    "differentiate".data, "d/dx".data, ("f" ++ aposS ++ "(").data,
    ("f" ++ aposS).data]

/-- `MathSolver.isCubicEquation` (applied to the original text). -/
def isCubicEquation (s : String) : Bool :=
  let t := s.data
  ((anySuffix (fun r => (do
      let r1 ← (match r with
                | c :: r1 => if isLetterC c then some r1 else none
                | [] => none)
      let _ ← eatLower "^3".data r1
      pure ()).isSome) t ||
    anySuffix (fun r => (match r with
      | c :: '³' :: _ => isLetterC c
      | _ => false)) t) &&
   containsCharL t '=') ||
  containsLowerSub t "cubic".data

/-- Case-sensitive `[a-z]\^2|[a-z]²` (no `i` flag in the source). -/
def lowerPow2 (t : Chars) : Bool :=
  anySuffix (fun r => (match r with
    | c :: '^' :: '2' :: _ => isLowerAZ c
    | _ => false)) t ||
  anySuffix (fun r => (match r with
    | c :: '²' :: _ => isLowerAZ c
    | _ => false)) t

/-- Case-sensitive `[a-z]\^3|[a-z]³`. -/
def lowerPow3 (t : Chars) : Bool :=
  anySuffix (fun r => (match r with
    | c :: '^' :: '3' :: _ => isLowerAZ c
    | _ => false)) t ||
  anySuffix (fun r => (match r with
    | c :: '³' :: _ => isLowerAZ c
    | _ => false)) t

/-- `MathSolver.isQuadraticEquation` (applied to the original text). -/
def isQuadraticEquation (s : String) : Bool :=
  let t := s.data
  lowerPow2 t && containsCharL t '=' && !lowerPow3 t

/-- `MathSolver.isLinearEquation` (applied to the original text). -/
def isLinearEquation (s : String) : Bool :=
  let t := s.data
  t.any isLowerAZ && containsCharL t '=' && !containsCharL t '^'

/-- `MathSolver.isSimplification` (applied to the original text). -/
def isSimplification (s : String) : Bool :=
  let t := s.data
  containsAnyLower t ["simplify".data, "expand".data, "factor".data] ||
  (t.any isLowerAZ && !containsCharL t '=' &&
   t.any (fun c => c = '+' || c = '-' || c = '*' || c = '/'))

/-- `MathSolver.isSystem` (applied to the original text). -/
def isSystem (s : String) : Bool :=
  let t := s.data
  (containsSubL t "system".data || containsSubL t "and".data ||
   containsCharL t ',') &&
  (t.countP (fun c => c = '=')) > 1

/-- `MathSolver.isArithmetic` (applied to the original text). -/
def isArithmetic (s : String) : Bool :=
  arithmeticOnly s.data

/-! ## Shared solver helpers -/

/-- Remove the first occurrence of a character (JS `replace(ch, '')` with a
string pattern). -/
def removeFirst (ch : Char) : Chars → Chars
  | [] => []
  | c :: r => if c = ch then r else c :: removeFirst ch r

/-- First ASCII letter of the text (`match(/[a-z]/i)`), if any. -/
def firstLetter (t : Chars) : Option Char :=
  t.find? (fun c => isLetterC c)

/-- All ASCII letters, in order (`match(/[a-z]/gi)`). -/
def allLetters (t : Chars) : Chars :=
  t.filter (fun c => isLetterC c)

/-- Worker for `dedupKeepOrder`. -/
def dedupKeepOrderAux (seen : Chars) : Chars → Chars
  | [] => []
  | c :: r =>
    if containsCharL seen c then dedupKeepOrderAux seen r
    else c :: dedupKeepOrderAux (c :: seen) r

/-- Deduplicate keeping first occurrences (`[...new Set(xs)]`). -/
def dedupKeepOrder (l : Chars) : Chars :=
  dedupKeepOrderAux [] l

/-- `Math.sqrt` lifted to `JsNum` through the environment (negative inputs
give `NaN`). -/
def jsqrtE (env : Env) : JsNum → JsNum
  | some q => if q < 0 then none else some (env.sqrt q)
  | none => none

/-- `Math.cbrt` lifted to `JsNum` through the environment. -/
def jcbrtE (env : Env) : JsNum → JsNum
  | some q => some (env.cbrt q)
  | none => none

/-- `Math.acos` lifted to `JsNum` through the environment. -/
def jacosE (env : Env) : JsNum → JsNum
  | some q => some (env.acos q)
  | none => none

/-- `Math.cos` lifted to `JsNum` through the environment. -/
def jcosE (env : Env) : JsNum → JsNum
  | some q => some (env.cosF q)
  | none => none

/-- `formatNumber` applied to an arbitrary value: non-numbers are returned
unchanged (`if (typeof num !== 'number') return num`). -/
def formatNumberVal : JsVal → String
  | .vnum q => formatNumber (some q)
  | .vnan => formatNumber none
  | .vstr s => s
  | .vnull => "null"

/-- The index strings `'₁₂'[i]` (JS string indexing; out of range is
`undefined`). -/
def subIdx12 (i : Nat) : String :=
  if i = 0 then "₁" else if i = 1 then "₂" else "undefined"

/-- The index strings `['₁','₂','₃'][i] || ''`. -/
def subIdx123 (i : Nat) : String :=
  if i = 0 then "₁" else if i = 1 then "₂" else if i = 2 then "₃" else ""

/-! ## Linear equation solver -/

/-- `MathSolver.parseLinearExpression`: accumulate the variable coefficient
and the constant contribution of one side of the equation. -/
def parseLinearExpression (expr : String) (varC : Char) : JsNum × JsNum :=
  let e := minusToPlusMinus (removeSpaces expr).data
  let terms := (splitOnCharL '+' e).filter (fun t => !t.isEmpty)
  terms.foldl
    (fun (acc : JsNum × JsNum) term =>
      if containsCharL term varC then
        let coefStr := removeFirst '*' (removeFirst varC term)
        if coefStr.isEmpty then (jadd acc.1 (some 1), acc.2)
        else if coefStr = ['-'] then (jadd acc.1 (some (-1)), acc.2)
        else (jadd acc.1 (jsParseFloatL coefStr), acc.2)
      else
        (acc.1, jadd acc.2 (some ((jsParseFloatL term).getD 0))))
    (some 0, some 0)

/-- `MathSolver.solveLinearManually`: collect coefficients from both sides,
fail exactly on a zero variable coefficient, otherwise divide. -/
def solveLinearManually (left right : String) (varC : Char)
    (steps : List Step) : Except String (JsNum × List Step) :=
  let leftParsed := parseLinearExpression left varC
  let rightParsed := parseLinearExpression right varC
  let a := jsub leftParsed.1 rightParsed.1
  let b := jsub leftParsed.2 rightParsed.2
  let c := jneg b
  let steps := steps ++
    [⟨"Collect all " ++ (⟨[varC]⟩ : String) ++
       " terms on one side and constants on the other",
      jsNumToString a ++ (⟨[varC]⟩ : String) ++ " = " ++ jsNumToString c⟩]
  if jeq a (some 0) then
    .error "No variable found or coefficient is zero"
  else
    let result := jdiv c a
    .ok (result, steps ++
      [⟨"Divide both sides by " ++ jsNumToString a,
        (⟨[varC]⟩ : String) ++ " = " ++ jsNumToString c ++ " ÷ " ++
          jsNumToString a ++ " = " ++ formatNumber result⟩])

/-- `MathSolver.solveLinearEquation`. -/
def solveLinearEquation (problem : String) (number : Nat) :
    Except String SolutionRecord :=
  let steps := [(⟨"Original equation", problem⟩ : Step)]
  let parts := (jsSplitOnChar '=' problem).map jsTrim
  match parts.get? 1 with
  | none => .error "Invalid equation format"
  | some right =>
    if right.isEmpty then .error "Invalid equation format"
    else
      let left := parts.headD ""
      let steps := steps ++
        [⟨"Identify left and right sides of the equation",
          "Left: " ++ left ++ ", Right: " ++ right⟩]
      let varC := (firstLetter problem.data).getD 'x'
      match solveLinearManually left right varC steps with
      | .error e => .error ("Could not solve linear equation: " ++ e)
      | .ok (result, steps) =>
        .ok { number, original := problem, type := "Linear Equation", steps,
              answer := (⟨[varC]⟩ : String) ++ " = " ++
                formatNumber result }

/-! ## Quadratic equation solver -/

/-- Remove every occurrence of `variable` with an optional `^` and optional
`2` (the global `new RegExp(variable + "\\^?2?")` replace). -/
def removeVarPow2 (v : Char) : Chars → Chars
  | [] => []
  | c :: r =>
    if c = v then
      match r with
      | '^' :: '2' :: r2 => removeVarPow2 v r2
      | '^' :: r2 => removeVarPow2 v r2
      | '2' :: r2 => removeVarPow2 v r2
      | r2 => removeVarPow2 v r2
    else c :: removeVarPow2 v r

/-- Interpretation of an extracted coefficient group
(`coef === '' || coef === '+' ? 1 : coef === '-' ? -1 : parseFloat(coef)`). -/
def qcoefInterp (g : Chars) : JsNum :=
  if g.isEmpty || g = ['+'] then some 1
  else if g = ['-'] then some (-1)
  else jsParseFloatL g

/-- `MathSolver.parseQuadraticCoefficients`: move everything to the left,
normalise signs, and accumulate `(a, b, c)`. -/
def parseQuadraticCoefficients (left : String) (right : Option String)
    (varC : Char) : JsNum × JsNum × JsNum :=
  let rightStr := match right with
    | some r => if r.isEmpty then "0" else r
    | none => "0"
  let combined := removeSpaces (left ++ "-(" ++ rightStr ++ ")")
  let normalized := replSubL "++".data "+".data
    (minusToPlusMinus combined.data)
  let terms := (splitOnCharL '+' normalized).filter (fun t => !t.isEmpty)
  terms.foldl
    (fun (acc : JsNum × JsNum × JsNum) term =>
      if containsSubL term "^2".data || containsCharL term '²' then
        (jadd acc.1 (qcoefInterp (removeFirst '*' (removeVarPow2 varC term))),
         acc.2.1, acc.2.2)
      else if containsCharL term varC then
        (acc.1,
         jadd acc.2.1 (qcoefInterp (removeFirst '*' (removeFirst varC term))),
         acc.2.2)
      else
        (acc.1, acc.2.1, jadd acc.2.2 (some ((jsParseFloatL term).getD 0))))
    (some 0, some 0, some 0)

/-- `MathSolver.solveQuadratic`: try nerdamer when it is available, then the
manual discriminant method with its three sign branches. -/
def solveQuadratic (env : Env) (problem : String) (number : Nat) :
    SolutionRecord :=
  let steps0 := [(⟨"Original equation", problem⟩ : Step)]
  let nerdamerResult : Option SolutionRecord :=
    if env.nerdamerAvailable then
      let equation : String := ⟨replCharL '²' "^2".data problem.data⟩
      match env.nerdamerSolveEquations equation "x" with
      | some sols =>
        if sols.length > 0 then
          let formatted := sols.enum.map
            (fun p => "x" ++ (if sols.length > 1 then subIdx12 p.1 else "") ++
              " = " ++ p.2)
          some { number, original := problem, type := "Quadratic Equation",
                 steps := steps0 ++
                   [⟨"Solve using algebraic methods", "Solving " ++ equation⟩,
                    ⟨"Solutions found", String.intercalate ", " formatted⟩],
                 answer := String.intercalate ", " formatted }
        else none
      | none => none
    else none
  match nerdamerResult with
  | some r => r
  | none =>
    let equation := removeSpaces ⟨replCharL '²' "^2".data problem.data⟩
    let varC := (firstLetter equation.data).getD 'x'
    let parts := jsSplitOnChar '=' equation
    let left := parts.headD ""
    let right? := parts.get? 1
    let rightDisplay := match right? with
      | some r => r
      | none => "undefined"
    let steps := steps0 ++
      [⟨"Rewrite in standard form ax² + bx + c = 0",
        left ++ " - (" ++ rightDisplay ++ ") = 0"⟩]
    let coeffs := parseQuadraticCoefficients left right? varC
    let a := coeffs.1
    let b := coeffs.2.1
    let c := coeffs.2.2
    let steps := steps ++
      [⟨"Identify coefficients",
        "a = " ++ jsNumToString a ++ ", b = " ++ jsNumToString b ++
          ", c = " ++ jsNumToString c⟩]
    let discriminant := jsub (jmul b b) (jmul (jmul (some 4) a) c)
    let steps := steps ++
      [⟨"Calculate discriminant: b² - 4ac",
        "Δ = (" ++ jsNumToString b ++ ")² - 4(" ++ jsNumToString a ++ ")(" ++
          jsNumToString c ++ ") = " ++ jsNumToString (jmul b b) ++ " - " ++
          jsNumToString (jmul (jmul (some 4) a) c) ++ " = " ++
          jsNumToString discriminant⟩]
    let vS : String := ⟨[varC]⟩
    if jlt (some 0) discriminant then
      let x1 := jdiv (jadd (jneg b) (jsqrtE env discriminant))
        (jmul (some 2) a)
      let x2 := jdiv (jsub (jneg b) (jsqrtE env discriminant))
        (jmul (some 2) a)
      { number, original := problem, type := "Quadratic Equation",
        steps := steps ++
          [⟨"Discriminant > 0, so there are two real solutions",
            vS ++ " = (-b ± √Δ) / 2a"⟩,
           ⟨"Apply the quadratic formula",
            vS ++ "₁ = (" ++ jsNumToString (jneg b) ++ " + √" ++
              jsNumToString discriminant ++ ") / " ++
              jsNumToString (jmul (some 2) a) ++ " = " ++ formatNumber x1⟩,
           ⟨"Calculate second solution",
            vS ++ "₂ = (" ++ jsNumToString (jneg b) ++ " - √" ++
              jsNumToString discriminant ++ ") / " ++
              jsNumToString (jmul (some 2) a) ++ " = " ++ formatNumber x2⟩],
        answer := vS ++ "₁ = " ++ formatNumber x1 ++ ", " ++ vS ++ "₂ = " ++
          formatNumber x2 }
    else if jeq discriminant (some 0) then
      let x := jdiv (jneg b) (jmul (some 2) a)
      { number, original := problem, type := "Quadratic Equation",
        steps := steps ++
          [⟨"Discriminant = 0, so there is one repeated solution",
            vS ++ " = -b / 2a = " ++ jsNumToString (jneg b) ++ " / " ++
              jsNumToString (jmul (some 2) a) ++ " = " ++ formatNumber x⟩],
        answer := vS ++ " = " ++ formatNumber x }
    else
      let realPart := jdiv (jneg b) (jmul (some 2) a)
      let imagPart := jdiv (jsqrtE env (jneg discriminant)) (jmul (some 2) a)
      { number, original := problem, type := "Quadratic Equation",
        steps := steps ++
          [⟨"Discriminant < 0, so solutions are complex numbers",
            vS ++ " = (-b ± i√|Δ|) / 2a"⟩,
           ⟨"Calculate complex solutions",
            vS ++ " = " ++ formatNumber realPart ++ " ± " ++
              formatNumber imagPart ++ "i"⟩],
        answer := vS ++ " = " ++ formatNumber realPart ++ " ± " ++
          formatNumber imagPart ++ "i" }

/-! ## Cubic equation solver -/

/-- Remove the first `x` with an optional `^` and optional given digit
(the single-occurrence `replace(/x\^?3?/, '')` and `replace(/x\^?2?/, '')`). -/
def removeFirstXPow (digit : Char) : Chars → Chars
  | [] => []
  | c :: r =>
    if c = 'x' then
      match r with
      | '^' :: r2 =>
        (match r2 with
         | d :: r3 => if d = digit then r3 else r2
         | [] => r2)
      | d :: r2 => if d = digit then r2 else r
      | [] => r
    else c :: removeFirstXPow digit r

/-- The single `replace(/=.*/, '')`: drop from the first `=` to the end of
that line. -/
def removeEqToLineEnd : Chars → Chars
  | [] => []
  | c :: r =>
    if c = '=' then r.dropWhile (fun d => !isLineTerm d)
    else c :: removeEqToLineEnd r

/-- Cubic coefficient interpretation
(`coef === '' || coef === '+' ? 1 : coef === '-' ? -1 : parseFloat(coef)`). -/
def cubicCoefInterp (g : Chars) : JsNum :=
  if g.isEmpty || g = ['+'] then some 1
  else if g = ['-'] then some (-1)
  else jsParseFloatL g

/-- Parse `(a, b, c, d)` from the left side of a cubic equation, exactly as
`MathSolver.solveCubic` does (note: assignments, not accumulation). -/
def parseCubicCoefficients (problem : String) :
    JsNum × JsNum × JsNum × JsNum :=
  let expr := jsTrim ⟨removeEqToLineEnd
    (replCharL '²' "^2".data (replCharL '³' "^3".data problem.data))⟩
  let terms := (splitOnCharL '+' (minusToPlusMinus expr.data)).filter
    (fun t => !(jsTrim ⟨t⟩).isEmpty)
  terms.foldl
    (fun (acc : JsNum × JsNum × JsNum × JsNum) term =>
      let t := (jsTrim ⟨term⟩).data
      if containsSubL t "x^3".data || containsSubL t "x³".data then
        (cubicCoefInterp (jsTrim ⟨removeFirstXPow '3' t⟩).data,
         acc.2.1, acc.2.2.1, acc.2.2.2)
      else if containsSubL t "x^2".data || containsSubL t "x²".data then
        (acc.1, cubicCoefInterp (jsTrim ⟨removeFirstXPow '2' t⟩).data,
         acc.2.2.1, acc.2.2.2)
      else if containsCharL t 'x' then
        (acc.1, acc.2.1,
         cubicCoefInterp (jsTrim ⟨removeFirst 'x' t⟩).data, acc.2.2.2)
      else if !t.isEmpty then
        (acc.1, acc.2.1, acc.2.2.1, some ((jsParseFloatL t).getD 0))
      else acc)
    (some 0, some 0, some 0, some 0)

/-- `MathSolver.solveCubic`: try nerdamer, then parse coefficients; with a
zero leading coefficient delegate to the quadratic solver, otherwise run
the depressed-cubic/Cardano branches. -/
def solveCubic (env : Env) (problem : String) (number : Nat) :
    SolutionRecord :=
  let steps0 := [(⟨"Original cubic equation", problem⟩ : Step)]
  let nerdamerResult : Option SolutionRecord :=
    if env.nerdamerAvailable then
      let equation : String :=
        ⟨replCharL '²' "^2".data (replCharL '³' "^3".data problem.data)⟩
      match env.nerdamerSolveEquations equation "x" with
      | some sols =>
        if sols.length > 0 then
          let formatted := sols.enum.map
            (fun p => "x" ++ subIdx123 p.1 ++ " = " ++ p.2)
          some { number, original := problem, type := "Cubic Equation",
                 steps := steps0 ++
                   [⟨"Solve using algebraic methods", "Solving " ++ equation⟩,
                    ⟨"Solutions found", String.intercalate "\n" formatted⟩],
                 answer := String.intercalate ", " formatted }
        else none
      | none => none
    else none
  match nerdamerResult with
  | some r => r
  | none =>
    let coeffs := parseCubicCoefficients problem
    let a := coeffs.1
    let b := coeffs.2.1
    let c := coeffs.2.2.1
    let d := coeffs.2.2.2
    let steps := steps0 ++
      [⟨"Identify coefficients",
        "a = " ++ jsNumToString a ++ ", b = " ++ jsNumToString b ++ ", c = " ++
          jsNumToString c ++ ", d = " ++ jsNumToString d⟩]
    if jeq a (some 0) then
      solveQuadratic env problem number
    else
      let p := jdiv (jsub (jmul (jmul (some 3) a) c) (jmul b b))
        (jmul (some 3) (jmul a a))
      let q := jdiv
        (jadd (jsub (jmul (some 2) (jmul b (jmul b b)))
            (jmul (some 9) (jmul a (jmul b c))))
          (jmul (some 27) (jmul (jmul a a) d)))
        (jmul (some 27) (jmul a (jmul a a)))
      let steps := steps ++
        [⟨"Convert to depressed cubic t³ + pt + q = 0",
          "p = " ++ formatNumber p ++ ", q = " ++ formatNumber q⟩]
      let discriminant := jadd (jdiv (jmul q q) (some 4))
        (jdiv (jmul p (jmul p p)) (some 27))
      let steps := steps ++
        [⟨"Cubic discriminant",
          "Δ = q²/4 + p³/27 = " ++ formatNumber discriminant⟩]
      let bOver3a := jdiv b (jmul (some 3) a)
      if jlt (some 0) discriminant then
        let sqrtDisc := jsqrtE env discriminant
        let u := jcbrtE env (jadd (jdiv (jneg q) (some 2)) sqrtDisc)
        let v := jcbrtE env (jsub (jdiv (jneg q) (some 2)) sqrtDisc)
        let x := jsub (jadd u v) bOver3a
        { number, original := problem, type := "Cubic Equation",
          steps := steps ++
            [⟨"One real root (discriminant > 0)",
              "x = " ++ formatNumber x⟩],
          answer := "x₁ = " ++ formatNumber x }
      else if jeq discriminant (some 0) then
        let u := jcbrtE env (jdiv (jneg q) (some 2))
        let x1 := jsub (jmul (some 2) u) bOver3a
        let x2 := jsub (jneg u) bOver3a
        { number, original := problem, type := "Cubic Equation",
          steps := steps ++
            [⟨"Repeated roots (discriminant = 0)",
              "x₁ = " ++ formatNumber x1 ++ ", x₂ = " ++ formatNumber x2⟩],
          answer := "x₁ = " ++ formatNumber x1 ++ ", x₂ = " ++
            formatNumber x2 }
      else
        let r := jsqrtE env (jdiv (jneg (jmul p (jmul p p))) (some 27))
        let theta := jacosE env (jdiv (jneg q) (jmul (some 2) r))
        let root (k : Nat) : JsNum :=
          let t := jmul (jmul (some 2) (jcbrtE env r))
            (jcosE env (jdiv (jadd theta
              (jmul (jmul (some 2) (some env.piF)) (some (k : ℚ))))
              (some 3)))
          jsub t bOver3a
        let roots := [root 0, root 1, root 2]
        { number, original := problem, type := "Cubic Equation",
          steps := steps ++
            [⟨"Three real roots (trigonometric method)",
              String.intercalate "\n" (roots.enum.map
                (fun pr => "x" ++ subIdx123 pr.1 ++ " = " ++
                  formatNumber pr.2))⟩],
          answer := String.intercalate ", " (roots.enum.map
            (fun pr => "x" ++ subIdx123 pr.1 ++ " = " ++ formatNumber pr.2)) }

/-! ## Arithmetic solver -/

/-- `MathSolver.solveArithmetic`. -/
def solveArithmetic (env : Env) (problem : String) (number : Nat) :
    Except String SolutionRecord :=
  let expression := removeSpaces problem
  let steps := [(⟨"Original expression", problem⟩ : Step)]
  let t := expression.data
  let steps := steps ++
    (if containsCharL t '(' then
      [(⟨"Evaluate expressions inside parentheses first (PEMDAS)",
         expression⟩ : Step)] else []) ++
    (if containsCharL t '^' then
      [(⟨"Calculate exponents", expression⟩ : Step)] else []) ++
    (if containsCharL t '*' || containsCharL t '/' then
      [(⟨"Perform multiplication and division from left to right",
         expression⟩ : Step)] else [])
  match env.mathEvaluate expression with
  | none => .error "Could not evaluate arithmetic expression"
  | some v =>
    .ok { number, original := problem, type := "Arithmetic",
          steps := steps ++
            [⟨"Calculate the final result",
              expression ++ " = " ++ formatNumberVal v⟩],
          answer := formatNumberVal v }

/-! ## Derivative and integral solvers -/

/-- First-of `lits` (all nonempty, matched case-insensitively) at this
position; result is the matched length. -/
def firstLitLen (lits : List Chars) (l : Chars) : Option Nat :=
  lits.findSome?
    (fun lit =>
      if lit.isEmpty then none
      else if (eatLower lit l).isSome then some lit.length else none)

/-- Global removal of every occurrence of any of the literals, in
alternation order (`replace(/a|b|…/gi, '')`). -/
def removeAllLitsGo (fuel : Nat) (lits : List Chars) : Chars → Chars
  | [] => []
  | c :: r =>
    match fuel with
    | 0 => c :: r
    | fuel + 1 =>
      match firstLitLen lits (c :: r) with
      | some (n + 1) => removeAllLitsGo fuel lits (r.drop n)
      | _ => c :: removeAllLitsGo fuel lits r

/-- Global removal, with the fuel fixed at the input's length (each scanning
step consumes at least one character). -/
def removeAllLits (lits : List Chars) (l : Chars) : Chars :=
  removeAllLitsGo l.length lits l

/-- Remove the first match of a position matcher (single `replace(re, '')`
without the `g` flag); the matcher returns the rest after the match. -/
def removeFirstMatch (m : Chars → Option Chars) : Chars → Chars
  | [] =>
    (match m [] with
     | some r => r
     | none => [])
  | c :: r =>
    match m (c :: r) with
    | some rest => rest
    | none => c :: removeFirstMatch m r

/-- `f\(x\)\s*=\s*` at one position. -/
def fxEqHere (l : Chars) : Option Chars :=
  (do
    let r ← eatLower "f(x)".data l
    let r2 ← eatChar '=' (eatSp r)
    pure (eatSp r2))

/-- `f'\(x\)` at one position. -/
def fPrimeParenHere (l : Chars) : Option Chars :=
  eatLower ("f" ++ aposS ++ "(x)").data l

/-- `MathSolver.solveDerivative`: strip the request words, try Algebrite,
fall back to the internal term-by-term engine. -/
def solveDerivative (env : Env) (problem : String) (number : Nat) :
    SolutionRecord :=
  let func := jsTrim ⟨removeAllLits
    ["derive".data, "derivative".data, "differentiate".data, "d/dx".data,
     "of".data, ":".data] problem.data⟩
  let func := jsTrim ⟨removeFirstMatch fxEqHere func.data⟩
  let func := jsTrim ⟨removeFirstMatch fPrimeParenHere func.data⟩
  let steps := [(⟨"Original function", "f(x) = " ++ func⟩ : Step)]
  let (derivative, steps) :=
    if env.algebriteAvailable then
      match env.algebriteRun ("d(" ++ func ++ ",x)") with
      | some d =>
        (d, steps ++ [⟨"Apply differentiation rules", "d/dx[" ++ func ++ "]"⟩])
      | none => computeDerivative func steps
    else computeDerivative func steps
  { number, original := problem, type := "Derivative",
    steps := steps ++
      [⟨"Result", "f" ++ aposS ++ "(x) = " ++ derivative⟩],
    answer := "f" ++ aposS ++ "(x) = " ++ derivative }

/-- `from\s*([\d\.\-]+)\s*to\s*([\d\.\-]+)` at one position: captures and
the rest after the match. -/
def fromToHere (l : Chars) : Option (Chars × Chars × Chars) :=
  (do
    let r ← eatLower "from".data l
    let r := eatSp r
    let g1 := r.takeWhile isCoefC
    if g1.isEmpty then none else
    let r2 := eatSp (r.dropWhile isCoefC)
    let r3 ← eatLower "to".data r2
    let r3 := eatSp r3
    let g2 := r3.takeWhile isCoefC
    if g2.isEmpty then none else
    pure (g1, g2, r3.dropWhile isCoefC))

/-- `replace(/(\d)x/g, '$1*x')`: insert explicit multiplication between a
digit and `x`. -/
def insertStarBeforeX : Chars → Chars
  | [] => []
  | [c] => [c]
  | d :: c :: r =>
    if isDigitC d && c = 'x' then d :: '*' :: 'x' :: insertStarBeforeX r
    else d :: insertStarBeforeX (c :: r)

/-- `MathSolver.solveIntegral`: strip request words, read optional bounds,
integrate (Algebrite first, then the internal engine), and for a definite
integral evaluate the antiderivative at the bounds. -/
def solveIntegral (env : Env) (problem : String) (number : Nat) :
    SolutionRecord :=
  let func := jsTrim ⟨removeAllLits
    ["integrate".data, "integral".data, "∫".data, "antiderivative".data,
     "of".data, ":".data] problem.data⟩
  let bounds := findFirst fromToHere func.data
  let (lowB, upB, func) : JsNum × JsNum × String :=
    match bounds with
    | some (g1, g2, _) =>
      (jsParseFloatL g1, jsParseFloatL g2,
       jsTrim ⟨removeFirstMatch (fun l => (fromToHere l).map (·.2.2))
         func.data⟩)
    | none => (none, none, func)
  let func := jsTrim ⟨removeAllLits ["dx".data] func.data⟩
  let steps := [(⟨"Original function to integrate",
                  "∫ " ++ func ++ " dx"⟩ : Step)]
  let (integral, steps) :=
    if env.algebriteAvailable then
      match env.algebriteRun ("integral(" ++ func ++ ",x)") with
      | some i =>
        (i, steps ++ [⟨"Apply integration rules",
          "∫ " ++ func ++ " dx = " ++ i⟩])
      | none => computeIntegral env func steps
    else computeIntegral env func steps
  let definite : Option SolutionRecord :=
    if bounds.isSome then
      let integralExpr : String := ⟨insertStarBeforeX integral.data⟩
      match env.mathEvalX integralExpr upB, env.mathEvalX integralExpr lowB with
      | some fUp, some fLow =>
        let result := jsub fUp fLow
        some { number, original := problem, type := "Definite Integral",
               steps := steps ++
                 [⟨"Evaluate from " ++ jsNumToString lowB ++ " to " ++
                     jsNumToString upB,
                   "F(" ++ jsNumToString upB ++ ") - F(" ++
                     jsNumToString lowB ++ ") = " ++ formatNumber result⟩],
               answer := formatNumber result }
      | _, _ => none
    else none
  match definite with
  | some r => r
  | none =>
    { number, original := problem, type := "Indefinite Integral", steps,
      answer := integral ++ " + C" }

/-! ## Universal-fallback strategies -/

/-- `replace(/√\(/g, 'sqrt(')`. -/
def replSqrtParen : Chars → Chars
  | '√' :: '(' :: r => 's' :: 'q' :: 'r' :: 't' :: '(' :: replSqrtParen r
  | c :: r => c :: replSqrtParen r
  | [] => []

/-- `replace(/(\d)([a-z])/gi, '$1*$2')`: implicit multiplication between a
digit and a letter. -/
def insertMulDL : Chars → Chars
  | [] => []
  | [c] => [c]
  | d :: c :: r =>
    if isDigitC d && isLetterC c then d :: '*' :: c :: insertMulDL r
    else d :: insertMulDL (c :: r)

/-- The cleaning shared by the engine strategies: `×`→`*`, `÷`→`/`,
`²`→`^2`, `³`→`^3`. -/
def cleanGlyphs (l : Chars) : Chars :=
  replCharL '³' "^3".data
    (replCharL '²' "^2".data
      (replCharL '÷' "/".data
        (replCharL '×' "*".data l)))

/-- `MathSolver.tryNerdamer`: `null` when the engine is absent, an equation
solve when an `=` is present, an evaluation otherwise; `Except.error ()`
models a thrown engine exception. -/
def tryNerdamer (env : Env) (problem : String) : Except Unit JsVal :=
  if !env.nerdamerAvailable then .ok .vnull
  else
    let clean : String :=
      ⟨insertMulDL (replSqrtParen (cleanGlyphs problem.data))⟩
    if containsCharL clean.data '=' then
      let parts := jsSplitOnChar '=' clean
      let expr := parts.headD "" ++ "-(" ++ (parts.get? 1).getD "" ++ ")"
      let mainVar : String :=
        match firstLetter clean.data with
        | some c => ⟨[jsLowerChar c]⟩
        | none => "x"
      match env.nerdamerSolve expr mainVar with
      | some s => .ok (.vstr (mainVar ++ " = " ++ s))
      | none => .error ()
    else
      match env.nerdamerEvaluate clean with
      | some s => .ok (.vstr s)
      | none => .error ()

/-- `MathSolver.tryAlgebrite`. -/
def tryAlgebrite (env : Env) (problem : String) : Except Unit JsVal :=
  if !env.algebriteAvailable then .ok .vnull
  else
    let clean : String := ⟨cleanGlyphs problem.data⟩
    match env.algebriteRun clean with
    | some r =>
      if !r.isEmpty && r ≠ "nil" then .ok (.vstr r)
      else
        match env.algebriteSimplify clean with
        | some s => .ok (.vstr s)
        | none => .error ()
    | none => .error ()

/-- `MathSolver.tryMathJs`. -/
def tryMathJs (env : Env) (problem : String) : Except Unit JsVal :=
  let clean : String := ⟨insertMulDL (cleanGlyphs problem.data)⟩
  if containsCharL clean.data '=' then
    let parts := (jsSplitOnChar '=' clean).map jsTrim
    let expr := parts.headD "" ++ "-(" ++ (parts.get? 1).getD "" ++ ")"
    match env.mathSimplify expr with
    | some s => .ok (.vstr ("Simplified: " ++ s ++ " = 0"))
    | none => .error ()
  else
    match env.mathEvaluate clean with
    | some v => .ok v
    | none => .error ()

/-- `MathSolver.trySimplify`. -/
def trySimplify (env : Env) (problem : String) : Except Unit JsVal :=
  let clean : String := ⟨cleanGlyphs problem.data⟩
  match env.mathSimplify clean with
  | some s => .ok (.vstr s)
  | none => .error ()

/-- Worker for `gcdJs`: Euclid steps with a structural fuel bound. -/
def gcdJsGo (fuel : Nat) (a b : ℕ) : ℕ :=
  match fuel with
  | 0 => a
  | fuel + 1 => if b = 0 then a else gcdJsGo fuel b (a % b)

/-- `MathSolver.gcd` (the source's Euclid recursion); `b` itself bounds the
number of steps, since the second argument strictly decreases. -/
def gcdJs (a b : ℕ) : ℕ :=
  gcdJsGo (b + 1) a b

/-- `MathSolver.isPrime`: trial division by odd numbers up to `√n` (the
source's `i <= Math.sqrt(n)` bound, exact here via `Nat.sqrt`). -/
def isPrimeJs (n : ℕ) : Bool :=
  if n < 2 then false
  else if n = 2 then true
  else if n % 2 = 0 then false
  else (List.range (Nat.sqrt n + 1)).all
    (fun i => i < 3 || i % 2 = 0 || n % i ≠ 0)

/-- `(\d+)!` at one position (the factorial pattern). -/
def factHere (l : Chars) : Option Nat :=
  let ds := l.takeWhile isDigitC
  if ds.isEmpty then none
  else
    match l.dropWhile isDigitC with
    | '!' :: _ => some (digitsVal ds)
    | _ => none

/-- `(\d+(?:\.\d+)?)`: a decimal-number token. -/
def numTokenHere (l : Chars) : Option (Chars × Chars) :=
  let ds := l.takeWhile isDigitC
  if ds.isEmpty then none
  else
    let r := l.dropWhile isDigitC
    match r with
    | '.' :: r2 =>
      let fs := r2.takeWhile isDigitC
      if fs.isEmpty then some (ds, r)
      else some (ds ++ '.' :: fs, r2.dropWhile isDigitC)
    | _ => some (ds, r)

/-- The percentage pattern `(\d+(?:\.\d+)?)\s*%\s*of\s*(\d+(?:\.\d+)?)` at
one position, with both numbers parsed. -/
def percentHere (l : Chars) : Option (ℚ × ℚ) :=
  (do
    let (t1, r) ← numTokenHere l
    let r ← eatChar '%' (eatSp r)
    let r ← eatLower "of".data (eatSp r)
    let (t2, _) ← numTokenHere (eatSp r)
    let a ← jsParseFloatL t1
    let b ← jsParseFloatL t2
    pure (a, b))

/-- The ratio pattern `(\d+)\s*:\s*(\d+)` at one position. -/
def ratioHere (l : Chars) : Option (Nat × Nat) :=
  (do
    let ds1 := l.takeWhile isDigitC
    if ds1.isEmpty then none else
    let r ← eatChar ':' (eatSp (l.dropWhile isDigitC))
    let r := eatSp r
    let ds2 := r.takeWhile isDigitC
    if ds2.isEmpty then none else
    pure (digitsVal ds1, digitsVal ds2))

/-- The primality pattern `is\s*(\d+)\s*prime` at one position. -/
def primeQHere (l : Chars) : Option Nat :=
  (do
    let r ← eatLower "is".data l
    let r := eatSp r
    let ds := r.takeWhile isDigitC
    if ds.isEmpty then none else
    let _ ← eatLower "prime".data (eatSp (r.dropWhile isDigitC))
    pure (digitsVal ds))

/-- `MathSolver.tryPatternMatch`: factorial, percentage, ratio and
primality patterns, else `null`.  This strategy never throws. -/
def tryPatternMatch (problem : String) : Except Unit JsVal :=
  let t := problem.data
  match findFirst factHere t with
  | some n =>
    .ok (.vstr (natRepr n ++ "! = " ++ natRepr (Nat.factorial n)))
  | none =>
  match findFirst percentHere t with
  | some (pct, num) =>
    .ok (.vstr (qToJsString pct ++ "% of " ++ qToJsString num ++ " = " ++
      qToJsString ((pct / 100) * num)))
  | none =>
  match findFirst ratioHere t with
  | some (a, b) =>
    let g := gcdJs a b
    .ok (.vstr (natRepr a ++ ":" ++ natRepr b ++ " = " ++
      jsNumToString (jdiv (some (a : ℚ)) (some (g : ℚ))) ++ ":" ++
      jsNumToString (jdiv (some (b : ℚ)) (some (g : ℚ))) ++ " (simplified)"))
  | none =>
  match findFirst primeQHere t with
  | some n =>
    .ok (.vstr (natRepr n ++ " is " ++
      (if isPrimeJs n then "" else "not ") ++ "prime"))
  | none => .ok .vnull

/-- `MathSolver.analyzeProblem`: list detected variables and operators. -/
def analyzeProblem (problem : String) : String :=
  let t := problem.data
  let letters := dedupKeepOrder ((allLetters t).map jsLowerChar)
  let parts : List String :=
    (if !letters.isEmpty then
      ["Variables: " ++ String.intercalate ", "
        (letters.map (fun c => (⟨[c]⟩ : String)))]
     else []) ++
    (if containsCharL t '+' then ["Contains addition"] else []) ++
    (if containsCharL t '-' then ["Contains subtraction"] else []) ++
    (if containsCharL t '*' || containsCharL t '×' then
      ["Contains multiplication"] else []) ++
    (if containsCharL t '/' || containsCharL t '÷' then
      ["Contains division"] else []) ++
    (if containsCharL t '^' || containsCharL t '²' || containsCharL t '³' then
      ["Contains exponents"] else []) ++
    (if containsSubL t "sqrt".data || containsCharL t '√' then
      ["Contains square root"] else []) ++
    (if containsCharL t '=' then ["This is an equation"] else [])
  let joined := String.intercalate "; " parts
  if joined.isEmpty then "Complex expression detected" else joined

/-- The acceptance test of the fallback loop:
`result && result !== 'undefined' && result !== 'NaN'`. -/
def acceptResult (v : JsVal) : Bool :=
  v.truthy && !(v.eqStr "undefined") && !(v.eqStr "NaN")

/-- The strategy list of `universalFallback`, in source order. -/
def fallbackStrategies (env : Env) (problem : String) :
    List (String × Except Unit JsVal) :=
  [("Nerdamer Solve", tryNerdamer env problem),
   ("Algebrite Solve", tryAlgebrite env problem),
   ("Math.js Evaluate", tryMathJs env problem),
   ("Symbolic Simplify", trySimplify env problem),
   ("Pattern Analysis", tryPatternMatch problem)]

/-- The `for (const strategy of strategies)` loop: a thrown strategy or an
unacceptable value falls through to the next strategy; the first acceptable
value builds the success record. -/
def ufLoop (problem : String) (number : Nat) (steps : List Step) :
    List (String × Except Unit JsVal) → Option SolutionRecord
  | [] => none
  | (name, res) :: rest =>
    match res with
    | .error _ => ufLoop problem number steps rest
    | .ok v =>
      if acceptResult v then
        some { number, original := problem, type := classifyProblem problem,
               steps := steps ++
                 [⟨"Solved using " ++ name, jsValToString v⟩],
               answer := jsValToString v }
      else ufLoop problem number steps rest

/-- `MathSolver.universalFallback`: try the strategies in order and accept
the first usable result; otherwise return the diagnostic record carrying
the original error's message. -/
def universalFallback (env : Env) (problem : String) (number : Nat)
    (originalError : String) : SolutionRecord :=
  let steps := [(⟨"Problem Analysis",
                  (⟨problem.data.take 150⟩ : String)⟩ : Step)]
  match ufLoop problem number steps (fallbackStrategies env problem) with
  | some r => r
  | none =>
    { number, original := problem, type := classifyProblem problem,
      steps := steps ++ [⟨"Analysis", analyzeProblem problem⟩],
      answer := "Problem requires manual analysis - see breakdown above",
      error := some originalError }

/-! ## Dispatch (`MathSolver.solveProblem`) -/

/-- `MathSolver.solveProblem`: the order-significant predicate chain.  The
first matching predicate selects the solver; predicates up to
`isDerivative` test the lowercased problem and the remaining ones the
original text, exactly as in the source. -/
def solveProblem (env : Env) (problem : String) (number : Nat) :
    Except String SolutionRecord :=
  let problemLower := jsLower problem
  if isCompoundRequest problemLower then env.solveCompoundE problem number
  else if isVector problemLower then env.solveVectorE problem number
  else if isMatrix problemLower then env.solveMatrixE problem number
  else if isStatistics problemLower then env.solveStatisticsE problem number
  else if isLimit problemLower then env.solveLimitE problem number
  else if isSeries problemLower then env.solveSeriesE problem number
  else if isLogarithm problemLower then env.solveLogarithmE problem number
  else if isTrigonometry problemLower then
    env.solveTrigonometryE problem number
  else if isComplexNumber problemLower then
    env.solveComplexNumberE problem number
  else if isGraph problemLower then env.solveGraphE problem number
  else if isGeometry problemLower then env.solveGeometryE problem number
  else if isIntegral problemLower then .ok (solveIntegral env problem number)
  else if isDerivative problemLower then
    .ok (solveDerivative env problem number)
  else if isCubicEquation problem then .ok (solveCubic env problem number)
  else if isQuadraticEquation problem then
    .ok (solveQuadratic env problem number)
  else if isLinearEquation problem then solveLinearEquation problem number
  else if isSimplification problem then
    env.solveSimplificationE problem number
  else if isSystem problem then env.solveSystemE problem number
  else if isArithmetic problem then solveArithmetic env problem number
  else env.solveGenericE problem number

/-! ## Input normaliser (`MathSolver.cleanInput`)

The thirteen substitution stages plus the final `trim`, in source order.
Each stage matches against its own input only (as a JavaScript global
replace does). -/

/-- Stage 1: `[×✕]` → `*`. -/
def glyph1 (c : Char) : Char :=
  if c = '×' || c = '✕' then '*' else c

/-- Stage 2: `[÷]` → `/`. -/
def glyph2 (c : Char) : Char :=
  if c = '÷' then '/' else c

/-- Stage 3: `[−–—]` → `-` (minus sign, en dash, em dash). -/
def glyph3 (c : Char) : Char :=
  if c = '−' || c = '–' || c = '—' then '-' else c

/-- Stage 4: curly single quotes and the backtick → `'`. -/
def glyph4 (c : Char) : Char :=
  if c = (Char.ofNat 0x2018) || c = (Char.ofNat 0x2019) || c = btickC then
    aposC
  else c

/-- Stage 5: curly double quotes → `"`. -/
def glyph5 (c : Char) : Char :=
  if c = (Char.ofNat 0x201c) || c = (Char.ofNat 0x201d) then '"' else c

/-- Is the next non-space character one of `[=+\-*/]` (the OCR lookahead)? -/
def lookOp : Chars → Bool
  | [] => false
  | c :: r =>
    if isJsSpace c then lookOp r
    else c = '=' || c = '+' || c = '-' || c = '*' || c = '/'

/-- Stages 6 and 7, generically: `\btgt\b(?=\s*[=+\-*/])` → `rep`.  The
scan carries the previous character of the original string for the `\b`
test; the lookahead forces the following boundary. -/
def ocrFix (tgt rep : Char) : Option Char → Chars → Chars
  | _, [] => []
  | prev, c :: r =>
    if c = tgt && !wdOpt prev && lookOp r then
      rep :: ocrFix tgt rep (some c) r
    else
      c :: ocrFix tgt rep (some c) r

/-- Stage 8: `\s+` → `' '` (whitespace collapse), with a flag telling
whether the previous character was whitespace. -/
def collapseWs (inRun : Bool) : Chars → Chars
  | [] => []
  | c :: r =>
    if isJsSpace c then
      if inRun then collapseWs true r
      else ' ' :: collapseWs true r
    else c :: collapseWs false r

/-- After optional whitespace, an opening parenthesis: the tail after it. -/
def parenAfterSp : Chars → Option Chars
  | [] => none
  | c :: r =>
    if isJsSpace c then parenAfterSp r
    else if c = '(' then some r
    else none

/-- Dropping a while-prefix never grows a list. -/
theorem dropWhile_len_le (p : Char → Bool) (l : Chars) :
    (l.dropWhile p).length ≤ l.length :=
  List.IsSuffix.length_le (List.dropWhile_suffix p)

/-- A successful `parenAfterSp` strictly shrinks the input. -/
theorem parenAfterSp_length {l tail : Chars}
    (h : parenAfterSp l = some tail) : tail.length < l.length := by
  induction l with
  | nil => cases h
  | cons c r ih =>
    unfold parenAfterSp at h
    split at h
    · have := ih h
      simp only [List.length_cons]
      omega
    · split at h
      · cases h
        simp
      · cases h

/-- Worker for stage 9 (structural recursion on a fuel bound; every
recursive call strictly shrinks the input, so the input length is enough
fuel). -/
def stage9Go : Nat → Chars → Chars
  | _, [] => []
  | 0, c :: r => c :: r
  | fuel + 1, c :: r =>
    if isDigitC c then
      match parenAfterSp r with
      | some tail => c :: '*' :: '(' :: stage9Go fuel tail
      | none => c :: stage9Go fuel r
    else c :: stage9Go fuel r

/-- Stage 9: `(\d)\s*\(` → `$1*(`. -/
def stage9 (l : Chars) : Chars :=
  stage9Go l.length l

/-- After optional whitespace, a digit: it and the tail after it. -/
def digitAfterSp : Chars → Option (Char × Chars)
  | [] => none
  | c :: r =>
    if isJsSpace c then digitAfterSp r
    else if isDigitC c then some (c, r)
    else none

/-- A successful `digitAfterSp` strictly shrinks the input. -/
theorem digitAfterSp_length {l : Chars} {d : Char} {tail : Chars}
    (h : digitAfterSp l = some (d, tail)) : tail.length < l.length := by
  induction l with
  | nil => cases h
  | cons c r ih =>
    unfold digitAfterSp at h
    split at h
    · have := ih h
      simp only [List.length_cons]
      omega
    · split at h
      · cases h
        simp
      · cases h

/-- Worker for stage 10. -/
def stage10Go : Nat → Chars → Chars
  | _, [] => []
  | 0, c :: r => c :: r
  | fuel + 1, c :: r =>
    if c = ')' then
      match digitAfterSp r with
      | some (d, tail) => ')' :: '*' :: d :: stage10Go fuel tail
      | none => ')' :: stage10Go fuel r
    else c :: stage10Go fuel r

/-- Stage 10: `\)\s*(\d)` → `)*$1`. -/
def stage10 (l : Chars) : Chars :=
  stage10Go l.length l

/-- Worker for stage 11. -/
def stage11Go : Nat → Chars → Chars
  | _, [] => []
  | 0, c :: r => c :: r
  | fuel + 1, c :: r =>
    if c = ')' then
      match parenAfterSp r with
      | some tail => ')' :: '*' :: '(' :: stage11Go fuel tail
      | none => ')' :: stage11Go fuel r
    else c :: stage11Go fuel r

/-- Stage 11: `\)\s*\(` → `)*(`. -/
def stage11 (l : Chars) : Chars :=
  stage11Go l.length l

/-- A digit run after an already-consumed sign: token and rest. -/
def digitsTok (sgn r : Chars) : Option (Chars × Chars) :=
  if (r.takeWhile isDigitC).isEmpty then none
  else some (sgn ++ r.takeWhile isDigitC, r.dropWhile isDigitC)

/-- `[+-]?\d+` (a signed integer token): the token and the rest. -/
def signedIntHere (l : Chars) : Option (Chars × Chars) :=
  match l with
  | '+' :: r => digitsTok ['+'] r
  | '-' :: r => digitsTok ['-'] r
  | _ => digitsTok [] l

/-- The body of the coordinate-triple pattern after the opening
parenthesis: `\s*([+-]?\d+)\s+([+-]?\d+)\s+([+-]?\d+)\s*\)`. -/
def coord3Body (l : Chars) : Option (Chars × Chars × Chars × Chars) :=
  match signedIntHere (eatSp l) with
  | none => none
  | some (n1, r) =>
    match r with
    | [] => none
    | c :: r2 =>
      if isJsSpace c then
        match signedIntHere (eatSp r2) with
        | none => none
        | some (n2, r3) =>
          match r3 with
          | [] => none
          | d :: r4 =>
            if isJsSpace d then
              match signedIntHere (eatSp r4) with
              | none => none
              | some (n3, r5) =>
                match eatChar ')' (eatSp r5) with
                | none => none
                | some r6 => some (n1, n2, n3, r6)
            else none
      else none

/-- The body of the coordinate-pair pattern after the opening parenthesis:
`\s*([+-]?\d+)\s+([+-]?\d+)\s*\)`. -/
def coord2Body (l : Chars) : Option (Chars × Chars × Chars) :=
  match signedIntHere (eatSp l) with
  | none => none
  | some (n1, r) =>
    match r with
    | [] => none
    | c :: r2 =>
      if isJsSpace c then
        match signedIntHere (eatSp r2) with
        | none => none
        | some (n2, r3) =>
          match eatChar ')' (eatSp r3) with
          | none => none
          | some r4 => some (n1, n2, r4)
      else none

/-- `eatSp` never grows its input. -/
theorem eatSp_length (l : Chars) : (eatSp l).length ≤ l.length := by
  simp only [eatSp]
  exact dropWhile_len_le isJsSpace l

/-- A successful `digitsTok` never grows its rest. -/
theorem digitsTok_length {sgn r tok rest : Chars}
    (h : digitsTok sgn r = some (tok, rest)) : rest.length ≤ r.length := by
  unfold digitsTok at h
  split at h
  · cases h
  · simp only [Option.some.injEq, Prod.mk.injEq] at h
    obtain ⟨h1, h2⟩ := h
    subst h2
    exact dropWhile_len_le isDigitC r

/-- A successful `signedIntHere` never grows its input. -/
theorem signedIntHere_length {l tok rest : Chars}
    (h : signedIntHere l = some (tok, rest)) : rest.length ≤ l.length := by
  unfold signedIntHere at h
  split at h
  · have := digitsTok_length h
    simp only [List.length_cons]
    omega
  · have := digitsTok_length h
    simp only [List.length_cons]
    omega
  · exact digitsTok_length h

/-- `eatChar` strictly shrinks its input. -/
theorem eatChar_length {ch : Char} {l r : Chars}
    (h : eatChar ch l = some r) : r.length < l.length := by
  cases l with
  | nil => cases h
  | cons c cs =>
    simp only [eatChar] at h
    split at h
    · cases h
      simp
    · cases h

/-- A successful `coord3Body` strictly shrinks the input. -/
theorem coord3Body_length {l n1 n2 n3 rest : Chars}
    (h : coord3Body l = some (n1, n2, n3, rest)) : rest.length < l.length := by
  unfold coord3Body at h
  split at h
  · cases h
  · rename_i n1' r heq1
    split at h
    · cases h
    · rename_i c r2
      split at h
      · split at h
        · cases h
        · rename_i n2' r3 heq2
          split at h
          · cases h
          · rename_i d r4
            split at h
            · split at h
              · cases h
              · rename_i n3' r5 heq3
                split at h
                · cases h
                · rename_i r6 heq4
                  simp only [Option.some.injEq, Prod.mk.injEq] at h
                  obtain ⟨-, -, -, h4⟩ := h
                  subst h4
                  have b1 := signedIntHere_length heq1
                  have b2 := signedIntHere_length heq2
                  have b3 := signedIntHere_length heq3
                  have b4 := eatChar_length heq4
                  have e1 := eatSp_length l
                  have e2 := eatSp_length r2
                  have e3 := eatSp_length r4
                  have e4 := eatSp_length r5
                  simp only [List.length_cons] at *
                  omega
            · cases h
      · cases h

/-- A successful `coord2Body` strictly shrinks the input. -/
theorem coord2Body_length {l n1 n2 rest : Chars}
    (h : coord2Body l = some (n1, n2, rest)) : rest.length < l.length := by
  unfold coord2Body at h
  split at h
  · cases h
  · rename_i n1' r heq1
    split at h
    · cases h
    · rename_i c r2
      split at h
      · split at h
        · cases h
        · rename_i n2' r3 heq2
          split at h
          · cases h
          · rename_i r4 heq3
            simp only [Option.some.injEq, Prod.mk.injEq] at h
            obtain ⟨-, -, h3⟩ := h
            subst h3
            have b1 := signedIntHere_length heq1
            have b2 := signedIntHere_length heq2
            have b3 := eatChar_length heq3
            have e1 := eatSp_length l
            have e2 := eatSp_length r2
            have e3 := eatSp_length r3
            simp only [List.length_cons] at *
            omega
      · cases h

/-- Stage 12: reformat space-separated coordinate triples,
`\(\s*([+-]?\d+)\s+([+-]?\d+)\s+([+-]?\d+)\s*\)` → `($1, $2, $3)`. -/
def stage12Go : Nat → Chars → Chars
  | _, [] => []
  | 0, c :: r => c :: r
  | fuel + 1, c :: r =>
    if c = '(' then
      match coord3Body r with
      | some (n1, n2, n3, rest) =>
        '(' :: n1 ++ ',' :: ' ' :: n2 ++ ',' :: ' ' :: n3 ++ ')' ::
          stage12Go fuel rest
      | none => '(' :: stage12Go fuel r
    else c :: stage12Go fuel r

/-- Stage 12 with the fuel fixed at the input length. -/
def stage12 (l : Chars) : Chars :=
  stage12Go l.length l

/-- Stage 13: reformat space-separated coordinate pairs,
`\(\s*([+-]?\d+)\s+([+-]?\d+)\s*\)` → `($1, $2)`. -/
def stage13Go : Nat → Chars → Chars
  | _, [] => []
  | 0, c :: r => c :: r
  | fuel + 1, c :: r =>
    if c = '(' then
      match coord2Body r with
      | some (n1, n2, rest) =>
        '(' :: n1 ++ ',' :: ' ' :: n2 ++ ')' :: stage13Go fuel rest
      | none => '(' :: stage13Go fuel r
    else c :: stage13Go fuel r

/-- Stage 13 with the fuel fixed at the input length. -/
def stage13 (l : Chars) : Chars :=
  stage13Go l.length l

/-- The final `trim()`. -/
def trimL (l : Chars) : Chars :=
  ((l.dropWhile isJsSpace).reverse.dropWhile isJsSpace).reverse

/-- `MathSolver.cleanInput` on character lists: the thirteen substitution
stages in source order, then `trim`. -/
def cleanList (l : Chars) : Chars :=
  trimL (stage13 (stage12 (stage11 (stage10 (stage9 (collapseWs false
    (ocrFix 'O' '0' none (ocrFix 'l' '1' none
      (((((l.map glyph1).map glyph2).map glyph3).map glyph4).map
        glyph5)))))))))

/-- `MathSolver.cleanInput`: fix OCR-style glyph confusions, collapse
whitespace, insert implicit multiplication, reformat coordinates, trim. -/
def cleanInput (s : String) : String :=
  ⟨cleanList s.data⟩

/-! ## Problem segmenter (`MathSolver.extractProblems`)

JavaScript `String.split(regex)` semantics: pieces between matches are
collected (empty pieces included); a pattern wrapped in a capture group also
emits the matched separator; a zero-width (lookahead) pattern splits at
match positions that sit strictly inside the string. -/

/-- Split on a consuming pattern; `keep` emits the matched separators (the
behaviour of a capture group covering the whole pattern).  The matcher
returns the matched text and the rest; `hm` certifies it consumes. -/
def splitConsumeAux (fuel : Nat) (keep : Bool)
    (m : Chars → Option (Chars × Chars)) (piece : Chars) :
    Chars → List Chars
  | [] => [piece.reverse]
  | c :: r =>
    match fuel with
    | 0 => [piece.reverse]
    | fuel + 1 =>
      match m (c :: r) with
      | some (matched, rest) =>
        piece.reverse :: (if keep then [matched] else []) ++
          splitConsumeAux fuel keep m [] rest
      | none => splitConsumeAux fuel keep m (c :: piece) r

/-- Split on a consuming pattern, with the fuel fixed at the input length
(every matcher used consumes at least one character per match). -/
def splitConsume (keep : Bool) (m : Chars → Option (Chars × Chars))
    (l : Chars) : List Chars :=
  splitConsumeAux l.length keep m [] l

/-- Split at the positions where a zero-width (lookahead) pattern matches;
the scan carries the previous character for `\b` tests. -/
def splitZWAux (m : Option Char → Chars → Bool) (prev : Option Char)
    (piece : Chars) : Chars → List Chars
  | [] => [piece.reverse]
  | c :: r =>
    if m prev (c :: r) && !piece.isEmpty then
      piece.reverse :: splitZWAux m (some c) [c] r
    else splitZWAux m (some c) (c :: piece) r

/-- A successful `digitsTok` strictly shrinks its rest (the digit run is
nonempty). -/
theorem digitsTok_lt {sgn r tok rest : Chars}
    (h : digitsTok sgn r = some (tok, rest)) : rest.length < r.length := by
  unfold digitsTok at h
  split at h
  · cases h
  · rename_i hne
    simp only [Option.some.injEq, Prod.mk.injEq] at h
    obtain ⟨-, h2⟩ := h
    subst h2
    cases r with
    | nil => simp [List.takeWhile] at hne
    | cons c cs =>
      by_cases hc : isDigitC c
      · simp only [List.dropWhile_cons, hc, if_true]
        have := dropWhile_len_le isDigitC cs
        simp only [List.length_cons]
        omega
      · simp [List.takeWhile_cons, hc] at hne

/-- The tail of exam pattern 1 after the digits and optional letter:
`\.\s*\[[^\]]*\]\s*`. -/
def exam1Tail (dsPre r1 : Chars) : Option (Chars × Chars) :=
  match eatChar '.' r1 with
  | none => none
  | some r2 =>
    match eatChar '[' (r2.dropWhile isJsSpace) with
    | none => none
    | some r4 =>
      match eatChar ']' (r4.dropWhile (fun c => c ≠ ']')) with
      | none => none
      | some r5 =>
        some (dsPre ++ '.' :: r2.takeWhile isJsSpace ++
          '[' :: r4.takeWhile (fun c => c ≠ ']') ++
          ']' :: r5.takeWhile isJsSpace, r5.dropWhile isJsSpace)

/-- `exam1Tail` strictly shrinks its input. -/
theorem exam1Tail_length {dsPre r1 a rest : Chars}
    (h : exam1Tail dsPre r1 = some (a, rest)) : rest.length < r1.length := by
  unfold exam1Tail at h
  split at h
  · cases h
  · rename_i r2 heq1
    split at h
    · cases h
    · rename_i r4 heq2
      split at h
      · cases h
      · rename_i r5 heq3
        simp only [Option.some.injEq, Prod.mk.injEq] at h
        obtain ⟨-, h2⟩ := h
        subst h2
        have b1 := eatChar_length heq1
        have b2 := eatChar_length heq2
        have b3 := eatChar_length heq3
        have d1 := dropWhile_len_le isJsSpace r2
        have d2 := dropWhile_len_le (fun c => c ≠ ']') r4
        have d3 := dropWhile_len_le isJsSpace r5
        omega

/-- Exam pattern 1, `\d+[a-z]?\.\s*\[[^\]]*\]\s*` (e.g. `1. [5 marks]`),
as a consuming matcher returning the matched text and the rest. -/
def exam1Here (l : Chars) : Option (Chars × Chars) :=
  match digitsTok [] l with
  | none => none
  | some (ds, r) =>
    match r with
    | c :: rr =>
      if isLetterC c then exam1Tail (ds ++ [c]) rr
      else exam1Tail ds (c :: rr)
    | [] => exam1Tail ds []

/-- `exam1Here` consumes at least one character. -/
theorem exam1Here_length {l a rest : Chars}
    (h : exam1Here l = some (a, rest)) : rest.length < l.length := by
  unfold exam1Here at h
  split at h
  · cases h
  · rename_i ds r heq
    have hr := digitsTok_lt heq
    split at h
    · rename_i c rr
      split at h
      · have := exam1Tail_length h
        simp only [List.length_cons] at *
        omega
      · have := exam1Tail_length h
        simp only [List.length_cons] at *
        omega
    · have := exam1Tail_length h
      simp only [List.length] at this
      omega

/-- Exam pattern 2, the lookahead
`(?=\b\d+[a-z]?\.\s+(?:Find|Show|Prove|Calculate|Determine|Given))`. -/
def exam2Pred (prev : Option Char) (l : Chars) : Bool :=
  !wdOpt prev &&
  (!(l.takeWhile isDigitC).isEmpty &&
   (let r := l.dropWhile isDigitC
    let r1 : Chars :=
      match r with
      | c :: rr => if isLetterC c then rr else r
      | [] => r
    (do
      let r2 ← eatChar '.' r1
      match r2 with
      | c :: r3 =>
        if isJsSpace c then
          let r4 := eatSp r3
          if (eatLower "find".data r4).isSome ||
             (eatLower "show".data r4).isSome ||
             (eatLower "prove".data r4).isSome ||
             (eatLower "calculate".data r4).isSome ||
             (eatLower "determine".data r4).isSome ||
             (eatLower "given".data r4).isSome
          then some () else none
        else none
      | [] => none).isSome))

/-- Exam pattern 3, the lookahead `(?=\(\s*[a-z]\s*\)\s*)` (`(a)`-style
markers; the `i` flag admits either case). -/
def exam3Pred (l : Chars) : Bool :=
  (do
    let r ← eatChar '(' l
    match eatSp r with
    | c :: r2 =>
      if isLetterC c then
        let _ ← eatChar ')' (eatSp r2)
        some ()
      else none
    | [] => none).isSome

/-- Exam pattern 4, the lookahead `(?=\b(?:Question|Q)\s*\d+)`. -/
def exam4Pred (prev : Option Char) (l : Chars) : Bool :=
  !wdOpt prev &&
  ((match eatLower "question".data l with
    | some r => !((eatSp r).takeWhile isDigitC).isEmpty
    | none => false) ||
   (match eatLower "q".data l with
    | some r => !((eatSp r).takeWhile isDigitC).isEmpty
    | none => false))

/-- The content-marker lookahead used for the secondary split:
`The (line|plane|point)`, `Find the`, `Show that`, `Calculate`,
`Given that`. -/
def contentMarkerPred (l : Chars) : Bool :=
  sepLitPlusHere "the".data "line".data l ||
  sepLitPlusHere "the".data "plane".data l ||
  sepLitPlusHere "the".data "point".data l ||
  sepLitPlusHere "find".data "the".data l ||
  sepLitPlusHere "show".data "that".data l ||
  (eatLower "calculate".data l).isSome ||
  sepLitPlusHere "given".data "that".data l

/-- The consuming generic pattern `\n\s*\n` (blank lines); the whitespace
run extends greedily to its last newline. -/
def blankLineHere (l : Chars) : Option (Chars × Chars) :=
  match l with
  | '\n' :: r =>
    let run := r.takeWhile isJsSpace
    let pre := (run.reverse.dropWhile (fun c => c ≠ '\n')).reverse
    if pre.isEmpty then none
    else some ('\n' :: pre, run.drop pre.length ++ r.dropWhile isJsSpace)
  | _ => none

/-- `blankLineHere` consumes at least one character. -/
theorem blankLineHere_length {l a rest : Chars}
    (h : blankLineHere l = some (a, rest)) : rest.length < l.length := by
  unfold blankLineHere at h
  split at h
  · rename_i r
    simp only at h
    split at h
    · cases h
    · rename_i hne
      simp only [Option.some.injEq, Prod.mk.injEq] at h
      obtain ⟨-, h2⟩ := h
      subst h2
      have hpre : 0 < ((r.takeWhile isJsSpace).reverse.dropWhile
          (fun c => c ≠ '\n')).reverse.length := by
        cases hq : ((r.takeWhile isJsSpace).reverse.dropWhile
            (fun c => c ≠ '\n')).reverse with
        | nil => rw [hq] at hne; simp at hne
        | cons x xs => simp [hq]
      have htw : (r.takeWhile isJsSpace).length +
          (r.dropWhile isJsSpace).length = r.length := by
        rw [← List.length_append, List.takeWhile_append_dropWhile]
      have hprele : ((r.takeWhile isJsSpace).reverse.dropWhile
          (fun c => c ≠ '\n')).reverse.length ≤
          (r.takeWhile isJsSpace).length := by
        rw [List.length_reverse]
        have := dropWhile_len_le (fun c => c ≠ '\n')
          (r.takeWhile isJsSpace).reverse
        simpa using this
      simp only [List.length_append, List.length_drop, List.length_cons]
      omega
  · cases h

/-- The consuming generic pattern `;\s*`. -/
def semiHere (l : Chars) : Option (Chars × Chars) :=
  match l with
  | ';' :: r => some (';' :: r.takeWhile isJsSpace, r.dropWhile isJsSpace)
  | _ => none

/-- `semiHere` consumes at least one character. -/
theorem semiHere_length {l a rest : Chars}
    (h : semiHere l = some (a, rest)) : rest.length < l.length := by
  unfold semiHere at h
  split at h
  · rename_i r
    simp only [Option.some.injEq, Prod.mk.injEq] at h
    obtain ⟨-, h2⟩ := h
    subst h2
    have := dropWhile_len_le isJsSpace r
    simp only [List.length_cons]
    omega
  · cases h

/-- The zero-width generic pattern `(?=\d+\)\s*[A-Z])` (case-sensitive). -/
def digitParenCapPred (l : Chars) : Bool :=
  !(l.takeWhile isDigitC).isEmpty &&
  (match eatChar ')' (l.dropWhile isDigitC) with
   | some r =>
     (match eatSp r with
      | c :: _ => isUpperAZ c
      | [] => false)
   | none => false)

/-- The zero-width generic pattern `(?=\d+\.\s*[A-Z])` (case-sensitive). -/
def digitDotCapPred (l : Chars) : Bool :=
  !(l.takeWhile isDigitC).isEmpty &&
  (match eatChar '.' (l.dropWhile isDigitC) with
   | some r =>
     (match eatSp r with
      | c :: _ => isUpperAZ c
      | [] => false)
   | none => false)

/-- The zero-width generic pattern `(?=[a-z]\)\s*[A-Z])` with the `i` flag
(both classes admit either case). -/
def letterParenCapPred (l : Chars) : Bool :=
  match l with
  | c :: r =>
    isLetterC c &&
    (match eatChar ')' r with
     | some r2 =>
       (match eatSp r2 with
        | d :: _ => isLetterC d
        | [] => false)
     | none => false)
  | [] => false

/-- Lift a split on character lists to strings. -/
def splitToStrings (f : Chars → List Chars) (s : String) : List String :=
  (f s.data).map (fun l => (⟨l⟩ : String))

/-- The five generic splitters of the cascade, in source order. -/
def genericSplitters : List (String → List String) :=
  [splitToStrings (splitConsume false blankLineHere),
   splitToStrings (splitZWAux (fun _ l => digitParenCapPred l) none []),
   splitToStrings (splitZWAux (fun _ l => digitDotCapPred l) none []),
   splitToStrings (splitZWAux (fun _ l => letterParenCapPred l) none []),
   splitToStrings (splitConsume false semiHere)]

/-- One iteration step of the generic-separator cascade: stop once more
than ten fragments exist; otherwise split every fragment, keep the pieces
with nonblank trims, and adopt the result only when it strictly increases
the fragment count. -/
def genericCascade : List (String → List String) → List String → List String
  | [], ps => ps
  | f :: rest, ps =>
    if ps.length > 10 then ps
    else
      let newProblems := ps.flatMap
        (fun p => (f p).filter (fun q => !(jsTrim q).isEmpty))
      genericCascade rest
        (if newProblems.length > ps.length then newProblems else ps)

/-- The exam-split survivor filter: trimmed, longer than 15 characters,
containing a letter and a digit. -/
def examFilter (ps : List String) : List String :=
  (ps.map jsTrim).filter
    (fun p => p.length > 15 && p.data.any isLetterC && p.data.any isDigitC)

/-- The final content filter's character class
`[\d\+\-\*\/\=xyz\[\]\(\)]`. -/
def isMathContentChar (c : Char) : Bool :=
  isDigitC c || c = '+' || c = '-' || c = '*' || c = '/' || c = '=' ||
  c = 'x' || c = 'y' || c = 'z' || c = '[' || c = ']' || c = '(' || c = ')'

/-- `MathSolver.extractProblems`: first the exam-style patterns, then the
content markers, then the generic separator cascade with the final math-
content filter.  There is no whole-input fallback: when nothing survives
the final filter the result is the empty list. -/
def extractProblems (input : String) : List String :=
  let t := input.data
  let tryExam (test : Bool) (parts : List String) : Option (List String) :=
    if test then
      let problems := examFilter parts
      if problems.length > 1 then some problems else none
    else none
  match tryExam (anySuffix (fun l => (exam1Here l).isSome) t)
      (splitToStrings (splitConsume true exam1Here) input) with
  | some ps => ps
  | none =>
  match tryExam (anySuffixPrev exam2Pred none t)
      (splitToStrings (splitZWAux exam2Pred none []) input) with
  | some ps => ps
  | none =>
  match tryExam (anySuffix exam3Pred t)
      (splitToStrings (splitZWAux (fun _ l => exam3Pred l) none []) input) with
  | some ps => ps
  | none =>
  match tryExam (anySuffixPrev exam4Pred none t)
      (splitToStrings (splitZWAux exam4Pred none []) input) with
  | some ps => ps
  | none =>
  let contentSplit := splitToStrings
    (splitZWAux (fun _ l => contentMarkerPred l) none []) input
  let contentResult : Option (List String) :=
    if contentSplit.length > 1 then
      let filtered := contentSplit.filter (fun p => (jsTrim p).length > 20)
      if filtered.length > 1 then some filtered else none
    else none
  match contentResult with
  | some ps => ps
  | none =>
    let problems := genericCascade genericSplitters [input]
    problems.filter (fun p =>
      let tr := jsTrim p
      tr.length > 5 && tr.data.any isMathContentChar)

/-! ## Top-level entry (`MathSolver.solve`) -/

/-- The per-problem guarded dispatch inside `MathSolver.solve`: the
`try`/`catch` around `solveProblem` that falls back to `universalFallback`
when the selected solver throws.  (The fire-and-forget Firebase write is
external I/O and is not part of the value semantics.) -/
def solveOne (env : Env) (problem : String) (number : Nat) :
    SolutionRecord :=
  match solveProblem env problem number with
  | .ok result => result
  | .error e => universalFallback env problem number e

/-- `MathSolver.solve` itself: map the guarded dispatcher over the
extracted problems, numbering from 1. -/
def solve (env : Env) (input : String) : List SolutionRecord :=
  let cleanedInput := cleanInput input
  let problems := extractProblems cleanedInput
  problems.enum.map (fun p => solveOne env p.2 (p.1 + 1))

/-! ## Rendering and parsing facts for integer values

These connect `qToJsString` with `jsParseFloatL` on integers: the embedded
round trips below hinge on an integer coefficient printing as an optional
minus sign followed by decimal digits and parsing back to itself. -/

/-- The ten digit characters. -/
def digitCharsList : Chars :=
  ['0', '1', '2', '3', '4', '5', '6', '7', '8', '9']

theorem digitChar_mem {d : Nat} (h : d < 10) : digitChar d ∈ digitCharsList := by
  interval_cases d <;> decide

theorem digitChar_val {d : Nat} (h : d < 10) :
    (digitChar d).toNat - '0'.toNat = d := by
  interval_cases d <;> decide

theorem mem_digitChars_isDigit {c : Char} (h : c ∈ digitCharsList) :
    isDigitC c = true := by
  simp only [digitCharsList, List.mem_cons, List.not_mem_nil, or_false] at h
  rcases h with rfl | rfl | rfl | rfl | rfl | rfl | rfl | rfl | rfl | rfl <;>
    decide

theorem mem_digitChars_notSpace {c : Char} (h : c ∈ digitCharsList) :
    isJsSpace c = false := by
  simp only [digitCharsList, List.mem_cons, List.not_mem_nil, or_false] at h
  rcases h with rfl | rfl | rfl | rfl | rfl | rfl | rfl | rfl | rfl | rfl <;>
    decide

theorem digitsVal_from (a : Nat) (l : Chars) :
    l.foldl (fun a c => a * 10 + (c.toNat - '0'.toNat)) a =
      a * 10 ^ l.length + digitsVal l := by
  induction l generalizing a with
  | nil => simp [digitsVal]
  | cons c r ih =>
    simp only [List.foldl_cons, digitsVal, List.length_cons] at *
    rw [ih, ih (0 * 10 + (c.toNat - '0'.toNat))]
    ring

theorem natDigitsGo_val {fuel n : Nat} (acc : Chars) (hf : n ≤ fuel) :
    digitsVal (natDigitsGo fuel n acc) = n * 10 ^ acc.length + digitsVal acc := by
  induction fuel generalizing n acc with
  | zero =>
    have : n = 0 := Nat.le_zero.mp hf
    subst this
    simp [natDigitsGo]
  | succ fuel ih =>
    unfold natDigitsGo
    split
    · simp_all
    · rename_i hn
      rw [ih (digitChar (n % 10) :: acc)
        (by
          have h1 : n / 10 < n := Nat.div_lt_self (Nat.pos_of_ne_zero hn) (by omega)
          omega)]
      have hv : digitsVal (digitChar (n % 10) :: acc) =
          (n % 10) * 10 ^ acc.length + digitsVal acc := by
        simp only [digitsVal, List.foldl_cons]
        rw [digitsVal_from]
        rw [digitChar_val (Nat.mod_lt _ (by omega))]
        ring_nf
        rw [digitsVal]
      rw [hv, List.length_cons]
      have hqr := Nat.div_add_mod n 10
      have hfold : n / 10 * 10 ^ (acc.length + 1) + n % 10 * 10 ^ acc.length =
          (10 * (n / 10) + n % 10) * 10 ^ acc.length := by
        rw [pow_succ]
        ring
      rw [hqr] at hfold
      linarith [hfold]

theorem natDigits_val (n : Nat) : digitsVal (natDigits n) = n := by
  unfold natDigits
  split
  · simp_all [digitsVal]
  · rw [natDigitsGo_val [] (le_refl n)]
    simp [digitsVal]

theorem natDigitsGo_mem {fuel n : Nat} {acc : Chars} {c : Char}
    (h : c ∈ natDigitsGo fuel n acc) : c ∈ digitCharsList ∨ c ∈ acc := by
  induction fuel generalizing n acc with
  | zero => exact Or.inr h
  | succ fuel ih =>
    unfold natDigitsGo at h
    split at h
    · exact Or.inr h
    · rcases ih h with hd | hacc
      · exact Or.inl hd
      · rcases List.mem_cons.mp hacc with rfl | hmem
        · exact Or.inl (digitChar_mem (Nat.mod_lt _ (by omega)))
        · exact Or.inr hmem

theorem natDigits_mem {n : Nat} {c : Char} (h : c ∈ natDigits n) :
    c ∈ digitCharsList := by
  unfold natDigits at h
  split at h
  · rcases List.mem_cons.mp h with rfl | hmem
    · decide
    · cases hmem
  · rcases natDigitsGo_mem h with hd | hacc
    · exact hd
    · cases hacc

theorem natDigitsGo_length (fuel n : Nat) (acc : Chars) :
    acc.length ≤ (natDigitsGo fuel n acc).length := by
  induction fuel generalizing n acc with
  | zero => exact le_refl _
  | succ fuel ih =>
    unfold natDigitsGo
    split
    · exact le_refl _
    · have := ih (n / 10) (digitChar (n % 10) :: acc)
      simp only [List.length_cons] at this
      omega

theorem natDigits_ne_nil (n : Nat) : natDigits n ≠ [] := by
  unfold natDigits
  split
  · simp
  · rename_i hn
    intro hcon
    match hm : n, hn with
    | m + 1, _ =>
      rw [show natDigitsGo (m + 1) (m + 1) [] =
          natDigitsGo m ((m + 1) / 10) [digitChar ((m + 1) % 10)] from by
        conv_lhs => rw [natDigitsGo]
        simp] at hcon
      have := natDigitsGo_length m ((m + 1) / 10) [digitChar ((m + 1) % 10)]
      rw [hcon] at this
      simp at this

theorem takeWhile_all {p : Char → Bool} {l : Chars}
    (h : ∀ c ∈ l, p c = true) : l.takeWhile p = l := by
  induction l with
  | nil => rfl
  | cons c r ih =>
    rw [List.takeWhile_cons, h c (List.mem_cons_self c r), if_pos rfl,
      ih (fun d hd => h d (List.mem_cons_of_mem c hd))]

theorem dropWhile_all {p : Char → Bool} {l : Chars}
    (h : ∀ c ∈ l, p c = true) : l.dropWhile p = [] := by
  induction l with
  | nil => rfl
  | cons c r ih =>
    rw [List.dropWhile_cons, h c (List.mem_cons_self c r), if_pos rfl]
    exact ih (fun d hd => h d (List.mem_cons_of_mem c hd))

theorem decExp_one : decExp 1 = some 0 := by decide

theorem qToJsString_int (k : ℤ) :
    qToJsString (k : ℚ) = (if k < 0 then "-" else "") ++ natRepr k.natAbs := by
  unfold qToJsString
  simp only [Rat.num_intCast, Rat.den_intCast, decExp_one, pow_zero,
    Nat.div_one, Nat.mul_one, Nat.mod_one, Int.cast_lt_zero]
  by_cases hk : k < 0 <;> simp [hk]

theorem startsWith_infinity_false {ds : Chars}
    (hd : ∀ c ∈ ds, c ∈ digitCharsList) (hne : ds ≠ []) :
    startsWithL "Infinity".data ds = false := by
  cases ds with
  | nil => cases hne rfl
  | cons c r =>
    have hc := hd c (List.mem_cons_self c r)
    simp only [digitCharsList, List.mem_cons, List.not_mem_nil, or_false] at hc
    rcases hc with rfl | rfl | rfl | rfl | rfl | rfl | rfl | rfl | rfl | rfl <;>
      · rw [show ("Infinity".data) = 'I' :: "nfinity".data from rfl]
        simp [startsWithL]

/-- `splitSign` is the identity on digit-headed lists. -/
theorem splitSign_not_sign {c₁ : Nat}
    (hdig : ∀ c ∈ natDigits c₁, c ∈ digitCharsList)
    (hne : natDigits c₁ ≠ []) :
    splitSign (natDigits c₁) = (false, natDigits c₁) := by
  cases hnd : natDigits c₁ with
  | nil => cases hne hnd
  | cons c r =>
    have hc := hdig c (by rw [hnd]; exact List.mem_cons_self c r)
    simp only [digitCharsList, List.mem_cons, List.not_mem_nil,
      or_false] at hc
    unfold splitSign
    rcases hc with rfl | rfl | rfl | rfl | rfl | rfl | rfl | rfl | rfl |
      rfl <;> rfl

/-- Parsing the rendering of an integer gives back the integer. -/
theorem jsParseFloat_int (k : ℤ) :
    jsParseFloatL (qToJsString (k : ℚ)).data = some ((k : ℤ) : ℚ) := by
  rw [qToJsString_int]
  have hdig : ∀ c ∈ natDigits k.natAbs, c ∈ digitCharsList :=
    fun c h => natDigits_mem h
  have hdigit : ∀ c ∈ natDigits k.natAbs, isDigitC c = true :=
    fun c h => mem_digitChars_isDigit (hdig c h)
  have hnosp : ∀ c ∈ natDigits k.natAbs, isJsSpace c = false :=
    fun c h => mem_digitChars_notSpace (hdig c h)
  have hne := natDigits_ne_nil k.natAbs
  have hspan : (natDigits k.natAbs).takeWhile isDigitC = natDigits k.natAbs :=
    takeWhile_all hdigit
  have hdrop : (natDigits k.natAbs).dropWhile isDigitC = [] :=
    dropWhile_all hdigit
  have hdropsp : (natDigits k.natAbs).dropWhile isJsSpace =
      natDigits k.natAbs := by
    cases hnd : natDigits k.natAbs with
    | nil => rfl
    | cons c r =>
      rw [List.dropWhile_cons]
      have := hnosp c (by rw [hnd]; exact List.mem_cons_self c r)
      simp [this]
  have hmant : decimalVal (natDigits k.natAbs) [] = (k.natAbs : ℚ) := by
    unfold decimalVal
    rw [natDigits_val]
    norm_num [digitsVal]
  have hempty : ((natDigits k.natAbs).isEmpty) = false := by
    cases hnd : natDigits k.natAbs with
    | nil => cases hne hnd
    | cons c r => rfl
  by_cases hk : k < 0
  · simp only [if_pos hk]
    show jsParseFloatL ('-' :: (natDigits k.natAbs)) = _
    unfold jsParseFloatL
    rw [show ('-' :: natDigits k.natAbs).dropWhile isJsSpace =
        '-' :: natDigits k.natAbs from by
      rw [List.dropWhile_cons, if_neg (by decide)]]
    have hss : splitSign ('-' :: natDigits k.natAbs) =
        (true, natDigits k.natAbs) := rfl
    simp only [hss]
    rw [startsWith_infinity_false hdig hne]
    simp only [spanDigits, hspan, hdrop, Bool.false_eq_true, if_false]
    rw [hempty]
    simp only [Bool.false_and, Bool.and_false, List.isEmpty_nil]
    rw [show parseExpPart [] = none from rfl]
    simp only [hmant, zpow_zero, mul_one]
    have hcast : ((k.natAbs : ℚ)) = -(k : ℚ) := by
      rw [Int.cast_natAbs]
      push_cast
      exact abs_of_neg (by exact_mod_cast hk)
    rw [hcast]
    norm_num
  · simp only [if_neg hk]
    show jsParseFloatL (natDigits k.natAbs) = _
    unfold jsParseFloatL
    rw [hdropsp]
    have hss : splitSign (natDigits k.natAbs) =
        (false, natDigits k.natAbs) := splitSign_not_sign hdig hne
    simp only [hss]
    rw [startsWith_infinity_false hdig hne]
    simp only [spanDigits, hspan, hdrop, Bool.false_eq_true, if_false]
    rw [hempty]
    simp only [Bool.false_and, Bool.and_false, List.isEmpty_nil]
    rw [show parseExpPart [] = none from rfl]
    simp only [hmant, zpow_zero, mul_one]
    have hcast : ((k.natAbs : ℚ)) = (k : ℚ) := by
      rw [Int.cast_natAbs]
      push_cast
      exact abs_of_nonneg (by exact_mod_cast not_lt.mp hk)
    rw [hcast]
    norm_num

/-! ## Claim C3: the area/perimeter exclusion -/

/-- C3 (amended): the area/perimeter exclusion rule holds for the dispatch
predicate `isTrigonometry` — any problem containing `"area"` is never
detected as trigonometry there, whatever other trig keywords it contains. -/
theorem C3_isTrigonometry_area_exclusion (s : String)
    (h : containsLowerSub s.data "area".data = true) :
    isTrigonometry s = false := by
  unfold isTrigonometry
  simp [h]

/-- Witness for C3: a concrete problem containing `"area"` and `"sin"` is
rejected by `isTrigonometry`. -/
theorem C3_isTrigonometry_area_exclusion_witness :
    containsLowerSub "find sin of the area".data "area".data = true ∧
    isTrigonometry "find sin of the area" = false :=
  ⟨by decide, C3_isTrigonometry_area_exclusion "find sin of the area"
    (by decide)⟩

/-- Counterexample for C3 as stated: the classifier `classifyProblem` does
return `"Trigonometry"` for a string containing both `"area"` and `"sin"` —
the exclusion lives only in the dispatch predicate, not in classification. -/
theorem C3_classifyProblem_area_sin_counterexample :
    containsSub "the area sin" "area" = true ∧
    containsSub "the area sin" "sin" = true ∧
    classifyProblem "the area sin" = "Trigonometry" := by
  refine ⟨by decide, by decide, by decide⟩

/-! ## Claim C9: zero leading cubic coefficient delegates to the quadratic
solver -/

/-- C9: on the manual path (nerdamer unavailable), whenever the parsed
leading coefficient of the cubic is zero, `solveCubic` returns exactly
`solveQuadratic` on the same problem — the depressed-cubic divisions by
`a` are never reached. -/
theorem C9_solveCubic_zero_leading_delegates (env : Env) (problem : String)
    (number : Nat) (hna : env.nerdamerAvailable = false)
    (ha : jeq (parseCubicCoefficients problem).1 (some 0) = true) :
    solveCubic env problem number = solveQuadratic env problem number := by
  unfold solveCubic
  simp only [hna, Bool.false_eq_true, if_false, ha, if_true]

/-- Witness for C9: a quadratic input parses with zero `x³` coefficient and
the cubic solver hands it to the quadratic solver unchanged. -/
theorem C9_solveCubic_zero_leading_delegates_witness :
    noCasEnv.nerdamerAvailable = false ∧
    jeq (parseCubicCoefficients "x^2 - 5x + 6 = 0").1 (some 0) = true ∧
    solveCubic noCasEnv "x^2 - 5x + 6 = 0" 1 =
      solveQuadratic noCasEnv "x^2 - 5x + 6 = 0" 1 :=
  ⟨rfl, by decide,
   C9_solveCubic_zero_leading_delegates noCasEnv "x^2 - 5x + 6 = 0" 1 rfl
     (by decide)⟩

/-! ## Claim C7: the universal fallback takes the first acceptable strategy -/

/-- Does one strategy outcome pass the fallback loop's acceptance test
(`result && result !== 'undefined' && result !== 'NaN'`, a thrown strategy
never passing)? -/
def ufAccepts (p : String × Except Unit JsVal) : Bool :=
  match p.2 with
  | .ok v => acceptResult v
  | .error _ => false

/-- When every strategy is rejected, the loop yields nothing. -/
theorem ufLoop_all_rejected {problem : String} {number : Nat}
    {steps : List Step} {l : List (String × Except Unit JsVal)}
    (h : ∀ p ∈ l, ufAccepts p = false) :
    ufLoop problem number steps l = none := by
  induction l with
  | nil => rfl
  | cons p rest ih =>
    obtain ⟨name, res⟩ := p
    have hp := h _ (List.mem_cons_self _ _)
    have hrest := ih (fun q hq => h q (List.mem_cons_of_mem _ hq))
    cases res with
    | error e => simpa [ufLoop] using hrest
    | ok v =>
      have hv : acceptResult v = false := by simpa [ufAccepts] using hp
      simp [ufLoop, hv, hrest]

/-- The loop returns the success record of the first accepted strategy. -/
theorem ufLoop_found {problem : String} {number : Nat} {steps : List Step}
    {l : List (String × Except Unit JsVal)} {name : String} {v : JsVal}
    (h : l.find? ufAccepts = some (name, Except.ok v)) :
    ufLoop problem number steps l =
      some { number, original := problem, type := classifyProblem problem,
             steps := steps ++ [⟨"Solved using " ++ name, jsValToString v⟩],
             answer := jsValToString v } := by
  induction l with
  | nil => cases h
  | cons p rest ih =>
    obtain ⟨nm, res⟩ := p
    by_cases hacc : ufAccepts (nm, res) = true
    · rw [List.find?_cons_of_pos _ hacc] at h
      obtain ⟨rfl, rfl⟩ : nm = name ∧ res = Except.ok v := by
        have := Option.some.inj h
        exact ⟨congrArg Prod.fst this, congrArg Prod.snd this⟩
      have hv : acceptResult v = true := by simpa [ufAccepts] using hacc
      simp [ufLoop, hv]
    · rw [List.find?_cons_of_neg _ hacc] at h
      have hrest := ih h
      cases res with
      | error e => simpa [ufLoop] using hrest
      | ok w =>
        have hw : acceptResult w = false := by
          simpa [ufAccepts] using hacc
        simpa [ufLoop, hw] using hrest

/-- C7: `universalFallback` is total and returns the result of the first
strategy accepted by the `null`/`"undefined"`/`"NaN"` screen; when every
strategy fails it returns the diagnostic record that carries the original
error message and the variables/operators breakdown. -/
theorem C7_universalFallback_first_accepted :
    (∀ (env : Env) (problem : String) (number : Nat) (err : String),
      (∀ p ∈ fallbackStrategies env problem, ufAccepts p = false) →
      universalFallback env problem number err =
        { number, original := problem, type := classifyProblem problem,
          steps := [⟨"Problem Analysis", (⟨problem.data.take 150⟩ : String)⟩,
                    ⟨"Analysis", analyzeProblem problem⟩],
          answer := "Problem requires manual analysis - see breakdown above",
          error := some err }) ∧
    (∀ (env : Env) (problem : String) (number : Nat) (err : String)
      (name : String) (v : JsVal),
      (fallbackStrategies env problem).find? ufAccepts =
        some (name, Except.ok v) →
      universalFallback env problem number err =
        { number, original := problem, type := classifyProblem problem,
          steps := [⟨"Problem Analysis", (⟨problem.data.take 150⟩ : String)⟩,
                    ⟨"Solved using " ++ name, jsValToString v⟩],
          answer := jsValToString v }) := by
  constructor
  · intro env problem number err h
    simp only [universalFallback]
    rw [ufLoop_all_rejected h]
    rfl
  · intro env problem number err name v h
    simp only [universalFallback]
    rw [ufLoop_found h]
    rfl

/-- Witness for C7: with no engine available, every strategy is rejected on
`"???"` and the diagnostic record with the original error comes back. -/
theorem C7_universalFallback_first_accepted_witness :
    (∀ p ∈ fallbackStrategies noCasEnv "???", ufAccepts p = false) ∧
    universalFallback noCasEnv "???" 1 "boom" =
      { number := 1, original := "???", type := classifyProblem "???",
        steps := [⟨"Problem Analysis", (⟨"???".data.take 150⟩ : String)⟩,
                  ⟨"Analysis", analyzeProblem "???"⟩],
        answer := "Problem requires manual analysis - see breakdown above",
        error := some "boom" } :=
  ⟨by decide,
   C7_universalFallback_first_accepted.1 noCasEnv "???" 1 "boom" (by decide)⟩

/-! ## Claim C8: the linear solver fails exactly on a zero coefficient and
the dispatch layer routes the failure to the fallback -/

/-- C8: `solveLinearManually` raises an error exactly when the variable
coefficient accumulated from both sides is zero, the error is always the
zero-coefficient message, and any solver error is caught by the dispatch
wrapper and routed to `universalFallback` with that message. -/
theorem C8_linear_zero_coefficient_error :
    (∀ (left right : String) (varC : Char) (steps : List Step),
      (∃ e, solveLinearManually left right varC steps = Except.error e) ↔
      jeq (jsub (parseLinearExpression left varC).1
        (parseLinearExpression right varC).1) (some 0) = true) ∧
    (∀ (left right : String) (varC : Char) (steps : List Step) (e : String),
      solveLinearManually left right varC steps = Except.error e →
      e = "No variable found or coefficient is zero") ∧
    (∀ (env : Env) (problem : String) (number : Nat) (e : String),
      solveProblem env problem number = Except.error e →
      solveOne env problem number = universalFallback env problem number e) := by
  refine ⟨?_, ?_, ?_⟩
  · intro left right varC steps
    by_cases hc : jeq (jsub (parseLinearExpression left varC).1
        (parseLinearExpression right varC).1) (some 0) = true
    · simp [solveLinearManually, hc]
    · simp [solveLinearManually, hc]
  · intro left right varC steps e h
    by_cases hc : jeq (jsub (parseLinearExpression left varC).1
        (parseLinearExpression right varC).1) (some 0) = true
    · simp only [solveLinearManually, hc, if_true,
        Except.error.injEq] at h
      exact h.symm
    · simp only [solveLinearManually, hc, if_false, Bool.false_eq_true,
        reduceCtorEq] at h
  · intro env problem number e h
    unfold solveOne
    rw [h]

unseal Rat.add Rat.sub Rat.mul Rat.inv in
/-- Witness for C8: `"x - x = 3"` has zero net `x` coefficient, the linear
solver errors with the zero-coefficient message, and the dispatcher turns
that error into the universal fallback. -/
theorem C8_linear_zero_coefficient_error_witness :
    solveProblem noCasEnv "x - x = 3" 1 = Except.error
      "Could not solve linear equation: No variable found or coefficient is zero" ∧
    solveOne noCasEnv "x - x = 3" 1 = universalFallback noCasEnv "x - x = 3" 1
      "Could not solve linear equation: No variable found or coefficient is zero" :=
  ⟨by decide,
   C8_linear_zero_coefficient_error.2.2 noCasEnv "x - x = 3" 1
     "Could not solve linear equation: No variable found or coefficient is zero"
     (by decide)⟩

/-! ## Claim C10: unmatched terms pass through differentiation unchanged -/

/-- C10: a term containing `x` that matches no differentiation rule —
no trig call, no exponential, no logarithm, no square root, and no anchored
coefficient-power pattern — is returned by `differentiateTerm` verbatim,
with no step recorded. -/
theorem C10_differentiateTerm_passthrough (term : String) (steps : List Step)
    (hx : containsCharL term.data (Char.ofNat 120) = true)
    (hsin : testFnCall "sin".data term.data = false)
    (hcos : testFnCall "cos".data term.data = false)
    (htan : testFnCall "tan".data term.data = false)
    (hexp : anySuffix expTermHere term.data = false)
    (hln : testFnCall "ln".data term.data = false)
    (hlog : testFnCall "log".data term.data = false)
    (hsqrt : anySuffix sqrtTermHere term.data = false)
    (hpow : powerMatch term.data = none) :
    differentiateTerm term steps = (term, steps) := by
  unfold differentiateTerm
  have hx' : containsCharL term.data 'x' = true := hx
  simp only [hx', Bool.not_true, Bool.false_eq_true, if_false, hsin, hcos,
    htan, hexp, hln, hlog, hsqrt, Bool.or_self, hpow]

/-- Witness for C10: `"(x)"` contains `x`, matches no rule (the power
pattern is anchored at the start, and `'('` is not a coefficient
character), and passes through unchanged. -/
theorem C10_differentiateTerm_passthrough_witness :
    powerMatch "(x)".data = none ∧
    differentiateTerm "(x)" [] = ("(x)", []) :=
  ⟨by decide,
   C10_differentiateTerm_passthrough "(x)" [] (by decide) (by decide)
     (by decide) (by decide) (by decide) (by decide) (by decide) (by decide)
     (by decide)⟩

/-! ## Claim C1: totality and shape of `solve` on arbitrary input -/

/-- C1 (amended): `solve` is total and returns exactly one record per
segmented problem — its length equals the number of extracted fragments.
There is no whole-input fallback: when nothing survives the content filter
the result is the empty list, not a single whole-input record. -/
theorem C1_solve_record_per_problem (env : Env) (input : String) :
    (solve env input).length =
      (extractProblems (cleanInput input)).length := by
  simp [solve]

/-- Counterexample for C1 as stated: on the empty string nothing survives
segmentation and `solve` returns the empty list — not a non-empty list of
error records built from the whole input. -/
theorem C1_solve_empty_counterexample :
    extractProblems (cleanInput "") = [] ∧ solve noCasEnv "" = [] :=
  ⟨by decide, by decide⟩

/-! ## Power-rule terms: character-level facts

A rendered `c·x^n` term uses only digits, `'-'`, `'.'`, `'x'` and `'^'`.
On character lists drawn from that alphabet none of the function rules of
the term engines (trig, exponential, logarithm, square root, …) can match,
so control always reaches the shared power-rule pattern. -/

/-- The characters a rendered power-rule term may contain. -/
def goodList : Chars :=
  ['0', '1', '2', '3', '4', '5', '6', '7', '8', '9', '-', '.', 'x', '^']

/-- Every character of `l` is a power-rule term character. -/
def GoodT (l : Chars) : Prop := ∀ c ∈ l, c ∈ goodList

theorem goodT_sub {l m : Chars} (h : m ⊆ l) (hg : GoodT l) : GoodT m :=
  fun c hc => hg c (h hc)

theorem goodT_tail {c : Char} {l : Chars} (hg : GoodT (c :: l)) : GoodT l :=
  fun d hd => hg d (List.mem_cons_of_mem c hd)

theorem goodT_dropWhile {p : Char → Bool} {l : Chars} (hg : GoodT l) :
    GoodT (l.dropWhile p) :=
  goodT_sub (List.IsSuffix.subset (List.dropWhile_suffix p)) hg

theorem goodT_takeWhile {p : Char → Bool} {l : Chars} (hg : GoodT l) :
    GoodT (l.takeWhile p) :=
  goodT_sub (List.IsPrefix.subset (List.takeWhile_prefix p)) hg

theorem goodT_eatOpt {ch : Char} {l : Chars} (hg : GoodT l) :
    GoodT (eatOpt ch l) := by
  cases l with
  | nil => exact hg
  | cons c r =>
    show GoodT (if c = ch then r else c :: r)
    split
    · exact goodT_tail hg
    · exact hg

/-- Power-rule term characters are fixed by `toLowerCase`. -/
theorem good_lower_self {c : Char} (h : c ∈ goodList) : jsLowerChar c = c := by
  simp only [goodList, List.mem_cons, List.not_mem_nil, or_false] at h
  rcases h with rfl | rfl | rfl | rfl | rfl | rfl | rfl | rfl | rfl | rfl |
    rfl | rfl | rfl | rfl <;> decide

/-- A case-insensitive literal whose first character is outside the term
alphabet never matches a term-alphabet list. -/
theorem eatLower_none_bad1 {n : Char} {ns l : Chars} (hn : n ∉ goodList)
    (hg : GoodT l) : eatLower (n :: ns) l = none := by
  cases l with
  | nil => rfl
  | cons c r =>
    unfold eatLower
    rw [if_neg]
    intro hEq
    have hc := hg c (List.mem_cons_self c r)
    rw [good_lower_self hc] at hEq
    exact hn (hEq ▸ hc)

/-- Likewise when the literal's second character is outside the alphabet. -/
theorem eatLower_none_bad2 {n1 n2 : Char} {ns l : Chars}
    (hn : n2 ∉ goodList) (hg : GoodT l) :
    eatLower (n1 :: n2 :: ns) l = none := by
  cases l with
  | nil => rfl
  | cons c r =>
    unfold eatLower
    split
    · exact eatLower_none_bad1 hn (goodT_tail hg)
    · rfl

theorem eatCharCI_none_bad {ch : Char} {l : Chars} (hch : ch ∉ goodList)
    (hg : GoodT l) : eatCharCI ch l = none := by
  cases l with
  | nil => rfl
  | cons c r =>
    show (if jsLowerChar c = ch then some r else none) = none
    rw [if_neg]
    intro hEq
    have hc := hg c (List.mem_cons_self c r)
    rw [good_lower_self hc] at hEq
    exact hch (hEq ▸ hc)

theorem startsWithL_false_bad {n : Char} {ns l : Chars} (hn : n ∉ goodList)
    (hg : GoodT l) : startsWithL (n :: ns) l = false := by
  cases l with
  | nil => rfl
  | cons c r =>
    unfold startsWithL
    have hc : n ≠ c := by
      intro hEq
      exact hn (hEq ▸ hg c (List.mem_cons_self c r))
    simp [hc]

theorem anySuffix_false_good {p : Chars → Bool} {l : Chars} (hg : GoodT l)
    (hp : ∀ r, GoodT r → p r = false) : anySuffix p l = false := by
  induction l with
  | nil => exact hp [] hg
  | cons c r ih =>
    unfold anySuffix
    rw [hp _ hg, ih (goodT_tail hg)]
    rfl

theorem findFirst_none_good {α : Type} {p : Chars → Option α} {l : Chars}
    (hg : GoodT l) (hp : ∀ r, GoodT r → p r = none) :
    findFirst p l = none := by
  induction l with
  | nil => exact hp [] hg
  | cons c r ih =>
    unfold findFirst
    rw [hp _ hg]
    exact ih (goodT_tail hg)

/-! ### The function-rule matchers all fail on term-alphabet lists -/

theorem fnCallHere_false_bad {n : Char} {ns l : Chars} (hn : n ∉ goodList)
    (hg : GoodT l) : fnCallHere (n :: ns) l = false := by
  unfold fnCallHere
  rw [eatLower_none_bad1 hn hg]
  rfl

theorem testFnCall_false_bad {n : Char} {ns l : Chars} (hn : n ∉ goodList)
    (hg : GoodT l) : testFnCall (n :: ns) l = false := by
  unfold testFnCall
  exact anySuffix_false_good hg (fun r hr => fnCallHere_false_bad hn hr)

theorem expTermHere_false_good {l : Chars} (hg : GoodT l) :
    expTermHere l = false := by
  unfold expTermHere
  rw [eatCharCI_none_bad (show ('e') ∉ goodList by decide) hg]
  have h2 : fnCallHere "exp".data l = false :=
    fnCallHere_false_bad (show ('e') ∉ goodList by decide) hg
  rw [h2]
  rfl

theorem sqrtTermHere_false_good {l : Chars} (hg : GoodT l) :
    sqrtTermHere l = false := by
  unfold sqrtTermHere
  have h1 : fnCallHere "sqrt".data l = false :=
    fnCallHere_false_bad (show ('s') ∉ goodList by decide) hg
  have h2 : eatLower "√x".data l = none :=
    eatLower_none_bad1 (show ('√') ∉ goodList by decide) hg
  rw [h1, h2]
  rfl

theorem anchoredTrigInt_false_bad {n : Char} {ns l : Chars}
    (hn : n ∉ goodList) (hg : GoodT l) :
    anchoredTrigInt (n :: ns) l = false := by
  have hg3 : GoodT (eatOpt '*' ((eatOpt '-' l).dropWhile isDigitC)) :=
    goodT_eatOpt (goodT_dropWhile (goodT_eatOpt hg))
  simp only [anchoredTrigInt, eatLower_none_bad1 hn hg3]

theorem secStyleHere_false_bad {n : Char} {ns l : Chars}
    (hn : n ∉ goodList) (hg : GoodT l) :
    secStyleHere (n :: ns) l = false := by
  unfold secStyleHere
  rw [eatLower_none_bad1 hn hg]

theorem fnXOptParens_none_bad {n : Char} {ns l : Chars}
    (hn : n ∉ goodList) (hg : GoodT l) :
    fnXOptParens (n :: ns) l = none := by
  unfold fnXOptParens
  rw [eatLower_none_bad1 hn hg]
  rfl

theorem secTanHere_false_good {l : Chars} (hg : GoodT l) :
    secTanHere l = false := by
  unfold secTanHere
  have h1 : fnXOptParens "sec".data l = none :=
    fnXOptParens_none_bad (show ('s') ∉ goodList by decide) hg
  rw [h1]
  rfl

theorem cscCotHere_false_good {l : Chars} (hg : GoodT l) :
    cscCotHere l = false := by
  unfold cscCotHere
  have h1 : fnXOptParens "csc".data l = none :=
    fnXOptParens_none_bad (show ('c') ∉ goodList by decide) hg
  rw [h1]
  rfl

theorem anchoredExpInt_false_good {l : Chars} (hg : GoodT l) :
    anchoredExpInt l = false := by
  have hg3 : GoodT (eatOpt '*' ((eatOpt '-' l).dropWhile isDigitC)) :=
    goodT_eatOpt (goodT_dropWhile (goodT_eatOpt hg))
  simp only [anchoredExpInt, eatCharCI_none_bad
    (show ('e') ∉ goodList by decide) hg3]
  rfl

theorem eAxHere_none_good {l : Chars} (hg : GoodT l) : eAxHere l = none := by
  unfold eAxHere
  rw [eatCharCI_none_bad (show ('e') ∉ goodList by decide) hg]
  rfl

theorem anchoredLnInt_false_good {l : Chars} (hg : GoodT l) :
    anchoredLnInt l = false := by
  unfold anchoredLnInt
  have h1 : eatLower "ln".data l = none :=
    eatLower_none_bad1 (show ('l') ∉ goodList by decide) hg
  rw [h1]
  rfl

theorem arctanHere_false_good {l : Chars} (hg : GoodT l) :
    arctanHere l = false := by
  unfold arctanHere
  have h1 : eatLower "1/(1+x".data l = none :=
    eatLower_none_bad2 (show ('/') ∉ goodList by decide) hg
  have h2 : eatLower "1/(1".data l = none :=
    eatLower_none_bad2 (show ('/') ∉ goodList by decide) hg
  rw [h1, h2]
  rfl

theorem arcsinHere_false_good {l : Chars} (hg : GoodT l) :
    arcsinHere l = false := by
  unfold arcsinHere
  have h1 : eatLower "1/sqrt(1-x".data l = none :=
    eatLower_none_bad2 (show ('/') ∉ goodList by decide) hg
  have h2 : eatLower "1/√(1-x".data l = none :=
    eatLower_none_bad2 (show ('/') ∉ goodList by decide) hg
  rw [h1, h2]
  rfl

/-! ### The rendered integer term and the shared power-rule pattern -/

theorem takeWhile_append_all {p : Char → Bool} {l1 : Chars} {c : Char}
    {l2 : Chars} (h1 : ∀ a ∈ l1, p a = true) (hc : p c = false) :
    (l1 ++ c :: l2).takeWhile p = l1 := by
  induction l1 with
  | nil => simp [List.takeWhile_cons, hc]
  | cons a r ih =>
    simp only [List.cons_append, List.takeWhile_cons,
      h1 a (List.mem_cons_self a r), if_true]
    rw [ih (fun b hb => h1 b (List.mem_cons_of_mem a hb))]

theorem dropWhile_append_all {p : Char → Bool} {l1 : Chars} {c : Char}
    {l2 : Chars} (h1 : ∀ a ∈ l1, p a = true) (hc : p c = false) :
    (l1 ++ c :: l2).dropWhile p = c :: l2 := by
  induction l1 with
  | nil => simp [List.dropWhile_cons, hc]
  | cons a r ih =>
    simp only [List.cons_append, List.dropWhile_cons,
      h1 a (List.mem_cons_self a r), if_true]
    exact ih (fun b hb => h1 b (List.mem_cons_of_mem a hb))

/-- Characters of a rendered integer: decimal digits, possibly after a
leading minus sign. -/
theorem intRender_chars {k : ℤ} {ch : Char}
    (h : ch ∈ (qToJsString (k : ℚ)).data) :
    ch ∈ digitCharsList ∨ ch = '-' := by
  rw [qToJsString_int] at h
  by_cases hk : k < 0
  · rw [if_pos hk] at h
    rcases List.mem_append.mp h with hs | hd
    · right
      simpa using hs
    · left
      exact natDigits_mem hd
  · rw [if_neg hk] at h
    rcases List.mem_append.mp h with hs | hd
    · simp at hs
    · left
      exact natDigits_mem hd

theorem digitChars_good {ch : Char} (h : ch ∈ digitCharsList) :
    ch ∈ goodList := by
  simp only [digitCharsList, List.mem_cons, List.not_mem_nil, or_false] at h
  rcases h with rfl | rfl | rfl | rfl | rfl | rfl | rfl | rfl | rfl | rfl <;>
    decide

theorem intRender_good {k : ℤ} : GoodT (qToJsString (k : ℚ)).data := by
  intro ch h
  rcases intRender_chars h with hd | rfl
  · exact digitChars_good hd
  · decide

theorem intRender_coefC {k : ℤ} {ch : Char}
    (h : ch ∈ (qToJsString (k : ℚ)).data) : isCoefC ch = true := by
  rcases intRender_chars h with hd | rfl
  · have := mem_digitChars_isDigit hd
    simp [isCoefC, this]
  · decide

theorem intRender_ne_nil {k : ℤ} : (qToJsString (k : ℚ)).data ≠ [] := by
  rw [qToJsString_int]
  by_cases hk : k < 0
  · rw [if_pos hk]
    simp
  · rw [if_neg hk]
    simpa using natDigits_ne_nil k.natAbs

theorem intRender_ne_minus {k : ℤ} : (qToJsString (k : ℚ)).data ≠ ['-'] := by
  rw [qToJsString_int]
  by_cases hk : k < 0
  · rw [if_pos hk]
    intro h
    rw [String.data_append] at h
    rw [show ("-".data) = ['-'] from rfl] at h
    rw [show (natRepr k.natAbs).data = natDigits k.natAbs from rfl] at h
    simp only [List.cons_append, List.nil_append] at h
    exact natDigits_ne_nil _ (List.cons.inj h).2
  · rw [if_neg hk]
    intro h
    rw [String.data_append] at h
    rw [show ("".data) = ([] : Chars) from rfl] at h
    rw [show (natRepr k.natAbs).data = natDigits k.natAbs from rfl] at h
    rw [List.nil_append] at h
    have hmem : ('-') ∈ natDigits k.natAbs := by
      rw [h]
      exact List.mem_cons_self _ _
    have hd := natDigits_mem hmem
    simp [digitCharsList] at hd

/-- The head of a rendered integer is a digit or a minus sign — never
`'x'`. -/
theorem intRender_head_ne_x {k : ℤ} {r : Chars}
    (h : (qToJsString (k : ℚ)).data = ('x') :: r) : False := by
  have hx : ('x') ∈ (qToJsString (k : ℚ)).data := by
    rw [h]
    exact List.mem_cons_self _ _
  rcases intRender_chars hx with hd | hm
  · simp [digitCharsList] at hd
  · cases hm

/-- The canonical rendering of the monomial `c·x^n` the way the term
engines print it: the rendered coefficient, `x`, and — except for exponent
1 — a caret and the rendered exponent. -/
def intTermStr (c n : ℤ) : String :=
  ⟨(qToJsString (c : ℚ)).data ++
    ('x') :: (if n = 1 then [] else ('^') :: (qToJsString (n : ℚ)).data)⟩

theorem good_notSpace {c : Char} (h : c ∈ goodList) : isJsSpace c = false := by
  simp only [goodList, List.mem_cons, List.not_mem_nil, or_false] at h
  rcases h with rfl | rfl | rfl | rfl | rfl | rfl | rfl | rfl | rfl | rfl |
    rfl | rfl | rfl | rfl <;> decide

theorem dropWhile_none {p : Char → Bool} {l : Chars}
    (h : ∀ c ∈ l, p c = false) : l.dropWhile p = l := by
  cases l with
  | nil => rfl
  | cons c r =>
    rw [List.dropWhile_cons, h c (List.mem_cons_self c r)]
    simp

theorem intTermStr_good {c n : ℤ} : GoodT (intTermStr c n).data := by
  intro ch h
  rw [show (intTermStr c n).data = (qToJsString (c : ℚ)).data ++
    ('x') :: (if n = 1 then [] else ('^') :: (qToJsString (n : ℚ)).data)
    from rfl] at h
  rcases List.mem_append.mp h with hc | hr
  · exact intRender_good ch hc
  · rcases List.mem_cons.mp hr with rfl | hr2
    · decide
    · split at hr2
      · cases hr2
      · rcases List.mem_cons.mp hr2 with rfl | hr3
        · decide
        · exact intRender_good ch hr3

theorem jsTrim_good {s : String} (hg : GoodT s.data) : jsTrim s = s := by
  unfold jsTrim
  have h1 : s.data.dropWhile isJsSpace = s.data :=
    dropWhile_none (fun c hc => good_notSpace (hg c hc))
  rw [h1]
  have h2 : s.data.reverse.dropWhile isJsSpace = s.data.reverse :=
    dropWhile_none (fun c hc =>
      good_notSpace (hg c (List.mem_reverse.mp hc)))
  rw [h2, List.reverse_reverse]

theorem map_id_of_fix {f : Char → Char} {l : Chars}
    (h : ∀ c ∈ l, f c = c) : l.map f = l := by
  induction l with
  | nil => rfl
  | cons c r ih =>
    rw [List.map_cons, h c (List.mem_cons_self c r),
      ih (fun d hd => h d (List.mem_cons_of_mem c hd))]

theorem jsLower_good {s : String} (hg : GoodT s.data) : jsLower s = s := by
  unfold jsLower
  rw [map_id_of_fix (fun c hc => good_lower_self (hg c hc))]

theorem containsCharL_of_mem {l : Chars} {c : Char} (h : c ∈ l) :
    containsCharL l c = true := by
  unfold containsCharL
  exact List.any_eq_true.2 ⟨c, h, by simp⟩

/-- The shared power-rule pattern on the canonical monomial string: the two
captured groups are the rendered coefficient and the rendered exponent
(empty for exponent 1). -/
theorem powerMatch_intTermStr {c n : ℤ} :
    powerMatch (intTermStr c n).data =
      some ((qToJsString (c : ℚ)).data,
        if n = 1 then [] else (qToJsString (n : ℚ)).data) := by
  have ht : (intTermStr c n).data = (qToJsString (c : ℚ)).data ++
      ('x') :: (if n = 1 then []
        else ('^') :: (qToJsString (n : ℚ)).data) := rfl
  unfold powerMatch
  rw [ht]
  rw [takeWhile_append_all (fun a ha => intRender_coefC ha) (by decide)]
  rw [dropWhile_append_all (fun a ha => intRender_coefC ha) (by decide)]
  by_cases hn : n = 1
  · subst hn
    rfl
  · rw [if_neg hn, if_neg hn]
    show some ((qToJsString (c : ℚ)).data,
      (eatOpt '^' (('^') :: (qToJsString (n : ℚ)).data)).takeWhile isCoefC) =
      _
    rw [show eatOpt '^' (('^') :: (qToJsString (n : ℚ)).data) =
      (qToJsString (n : ℚ)).data from rfl]
    rw [takeWhile_all (fun a ha => intRender_coefC ha)]

theorem powCoef_intRender {k : ℤ} :
    powCoef (qToJsString (k : ℚ)).data = some (k : ℚ) := by
  unfold powCoef
  rw [if_neg, if_neg]
  · exact jsParseFloat_int k
  · exact intRender_ne_minus
  · simp only [List.isEmpty_iff]
    exact intRender_ne_nil

theorem powExp_intRender {k : ℤ} :
    powExp (qToJsString (k : ℚ)).data = some (k : ℚ) := by
  unfold powExp
  rw [if_neg]
  · exact jsParseFloat_int k
  · simp only [List.isEmpty_iff]
    exact intRender_ne_nil

theorem powExp_intTermStr {n : ℤ} :
    powExp (if n = 1 then []
      else (qToJsString (n : ℚ)).data) = some ((n : ℚ)) := by
  by_cases hn : n = 1
  · subst hn
    simp [powExp]
  · rw [if_neg hn]
    exact powExp_intRender

/-- On the canonical monomial `c·x^n` with `n ∉ {0, -1}`, `integrateTerm`
reaches the power rule and produces `(c/(n+1))·x^(n+1)` with its power-rule
step, consulting no external engine. -/
theorem integrateTerm_power (env : Env) (steps : List Step) (c n : ℤ)
    (hn0 : n ≠ 0) (hn1 : n ≠ -1) :
    integrateTerm env (intTermStr c n) steps =
      (formatNumber (some ((c : ℚ) / ((n : ℚ) + 1))) ++ "x^" ++
         qToJsString ((n : ℚ) + 1),
       steps ++ [⟨"Power rule: ∫" ++ intTermStr c n ++ " dx = " ++
           qToJsString (c : ℚ) ++ " × x^(" ++ qToJsString (n : ℚ) ++
           "+1)/(" ++ qToJsString (n : ℚ) ++ "+1)",
         "= " ++ formatNumber (some ((c : ℚ) / ((n : ℚ) + 1))) ++ "x^" ++
           qToJsString ((n : ℚ) + 1)⟩]) := by
  have hg : GoodT (intTermStr c n).data := intTermStr_good
  have htrim : jsTrim (intTermStr c n) = intTermStr c n := jsTrim_good hg
  have hx : containsCharL (intTermStr c n).data ('x') = true := by
    apply containsCharL_of_mem
    exact List.mem_append.2 (Or.inr (List.mem_cons_self _ _))
  have h2 : anchoredTrigInt "sin".data (intTermStr c n).data = false :=
    anchoredTrigInt_false_bad (by decide) hg
  have h3 : anchoredTrigInt "cos".data (intTermStr c n).data = false :=
    anchoredTrigInt_false_bad (by decide) hg
  have h4 : anySuffix (secStyleHere "sec".data) (intTermStr c n).data =
      false :=
    anySuffix_false_good hg (fun r hr => secStyleHere_false_bad (by decide) hr)
  have h5 : anySuffix (secStyleHere "csc".data) (intTermStr c n).data =
      false :=
    anySuffix_false_good hg (fun r hr => secStyleHere_false_bad (by decide) hr)
  have h6 : anySuffix secTanHere (intTermStr c n).data = false :=
    anySuffix_false_good hg (fun r hr => secTanHere_false_good hr)
  have h7 : anySuffix cscCotHere (intTermStr c n).data = false :=
    anySuffix_false_good hg (fun r hr => cscCotHere_false_good hr)
  have h8 : anchoredExpInt (intTermStr c n).data = false :=
    anchoredExpInt_false_good hg
  have h9 : findFirst eAxHere (intTermStr c n).data = none :=
    findFirst_none_good hg (fun r hr => eAxHere_none_good hr)
  have h10 : anchoredLnInt (intTermStr c n).data = false :=
    anchoredLnInt_false_good hg
  have h11 : anySuffix arctanHere (intTermStr c n).data = false :=
    anySuffix_false_good hg (fun r hr => arctanHere_false_good hr)
  have h12 : anySuffix arcsinHere (intTermStr c n).data = false :=
    anySuffix_false_good hg (fun r hr => arcsinHere_false_good hr)
  have hlow : jsLower (intTermStr c n) = intTermStr c n := jsLower_good hg
  have hne1 : ¬(intTermStr c n = "1/x") := by
    intro h
    have : ('/') ∈ (intTermStr c n).data := by
      rw [h]
      decide
    have := hg _ this
    simp [goodList] at this
  have hne2 : ¬(intTermStr c n = "x^-1") := by
    intro h
    have hdata : (qToJsString (c : ℚ)).data ++
        ('x') :: (if n = 1 then []
          else ('^') :: (qToJsString (n : ℚ)).data) = "x^-1".data :=
      congrArg String.data h
    cases hrc : (qToJsString (c : ℚ)).data with
    | nil => exact intRender_ne_nil hrc
    | cons a rcr =>
      rw [hrc, List.cons_append] at hdata
      have ha : a = ('x') := (List.cons.inj hdata).1
      exact intRender_head_ne_x (by rw [hrc, ha])
  have hb1 : decide (jsLower (intTermStr c n) = "1/x") = false := by
    rw [hlow]
    exact decide_eq_false hne1
  have hb2 : decide (jsLower (intTermStr c n) = "x^-1") = false := by
    rw [hlow]
    exact decide_eq_false hne2
  have hpm := powerMatch_intTermStr (c := c) (n := n)
  have hcast1 : ((n : ℚ)) ≠ -1 := by
    intro h
    exact hn1 (by exact_mod_cast h)
  have hcast0 : ((n : ℚ)) + 1 ≠ 0 := by
    intro h
    apply hn1
    have : ((n : ℚ)) = -1 := by linarith
    exact_mod_cast this
  have hcastne1 : ((n : ℚ)) + 1 ≠ 1 := by
    intro h
    apply hn0
    have : ((n : ℚ)) = 0 := by linarith
    exact_mod_cast this
  have hj1 : jeq (some ((n : ℚ))) (some (-1)) = false := by
    simp [jeq, hcast1]
  have hj2 : jeq (some ((n : ℚ) + 1)) (some 1) = false := by
    simp [jeq, hcastne1]
  have hj3 : jeq (some ((n : ℚ) + 1)) (some 0) = false := by
    simp [jeq, hcast0]
  simp only [integrateTerm, htrim, hx, Bool.not_true, Bool.false_and,
    if_false, h2, h3, h4, h5, h6, h7, h8, h9, Option.isSome_none,
    Bool.false_eq_true, h10, h11, h12, hb1, hb2, Bool.or_self, hpm,
    powCoef_intRender, powExp_intTermStr, hj1, hj2, hj3, jadd, jdiv,
    jsNumToString, hcast0, if_true, ite_false, ite_true]

theorem formatNumber_int (k : ℤ) :
    formatNumber (some ((k : ℚ))) = qToJsString ((k : ℚ)) := by
  have hden : ((k : ℚ)).den = 1 := Rat.den_intCast k
  simp [formatNumber, hden]

theorem intTermStr_one (k : ℤ) :
    intTermStr k 1 = qToJsString (k : ℚ) ++ "x" := by
  apply congrArg String.mk
  show (qToJsString (k : ℚ)).data ++ ('x') :: [] =
    ((qToJsString (k : ℚ)) ++ "x").data
  rw [String.data_append]

theorem intTermStr_ne_one (k m : ℤ) (h : m ≠ 1) :
    intTermStr k m = qToJsString (k : ℚ) ++ "x^" ++ qToJsString (m : ℚ) := by
  apply congrArg String.mk
  show (qToJsString (k : ℚ)).data ++
      ('x') :: (if m = 1 then [] else ('^') :: (qToJsString (m : ℚ)).data) =
    ((qToJsString (k : ℚ) ++ "x^") ++ qToJsString (m : ℚ)).data
  rw [if_neg h, String.data_append, String.data_append]
  rw [show ("x^".data) = ['x', '^'] from rfl]
  simp

/-- On the canonical monomial `a·x^m` with `m ∉ {0, 1}`, `differentiateTerm`
reaches the power rule and produces `(a·m)·x^(m-1)` with its power-rule
step. -/
theorem differentiateTerm_power (steps : List Step) (a m : ℤ)
    (hm0 : m ≠ 0) (hm1 : m ≠ 1) :
    differentiateTerm (intTermStr a m) steps =
      (intTermStr (a * m) (m - 1),
       steps ++ [⟨"Power rule: d/dx[" ++ intTermStr a m ++ "] = " ++
           qToJsString (a : ℚ) ++ " × " ++ qToJsString (m : ℚ) ++
           " × x^(" ++ qToJsString (m : ℚ) ++ "-1)",
         "= " ++ qToJsString ((a : ℚ) * (m : ℚ)) ++ "x^" ++
           qToJsString ((m : ℚ) - 1)⟩]) := by
  have hg : GoodT (intTermStr a m).data := intTermStr_good
  have hx : containsCharL (intTermStr a m).data ('x') = true := by
    apply containsCharL_of_mem
    exact List.mem_append.2 (Or.inr (List.mem_cons_self _ _))
  have h2 : testFnCall "sin".data (intTermStr a m).data = false :=
    testFnCall_false_bad (by decide) hg
  have h3 : testFnCall "cos".data (intTermStr a m).data = false :=
    testFnCall_false_bad (by decide) hg
  have h4 : testFnCall "tan".data (intTermStr a m).data = false :=
    testFnCall_false_bad (by decide) hg
  have h5 : anySuffix expTermHere (intTermStr a m).data = false :=
    anySuffix_false_good hg (fun r hr => expTermHere_false_good hr)
  have h6 : testFnCall "ln".data (intTermStr a m).data = false :=
    testFnCall_false_bad (by decide) hg
  have h7 : testFnCall "log".data (intTermStr a m).data = false :=
    testFnCall_false_bad (by decide) hg
  have h8 : anySuffix sqrtTermHere (intTermStr a m).data = false :=
    anySuffix_false_good hg (fun r hr => sqrtTermHere_false_good hr)
  have hpm := powerMatch_intTermStr (c := a) (n := m)
  have hc0 : ((m : ℚ)) - 1 ≠ -1 := by
    intro h
    apply hm0
    have : ((m : ℚ)) = 0 := by linarith
    exact_mod_cast this
  have hc1 : ((m : ℚ)) - 1 ≠ 0 := by
    intro h
    apply hm1
    have : ((m : ℚ)) = 1 := by linarith
    exact_mod_cast this
  have hchalf : ((m : ℚ)) - 1 ≠ 1 / 2 := by
    intro h
    have h2m : ((2 * m : ℤ) : ℚ) = ((3 : ℤ) : ℚ) := by
      push_cast
      linarith
    have : (2 * m : ℤ) = 3 := by exact_mod_cast h2m
    omega
  have hj0 : jeq (some ((m : ℚ) - 1)) (some 0) = false := by
    simp [jeq, hc1]
  have hjm1 : jeq (some ((m : ℚ) - 1)) (some (-1)) = false := by
    simp [jeq, hc0]
  have hjhalf : jeq (some ((m : ℚ) - 1)) (some (1 / 2)) = false := by
    rw [show jeq (some ((m : ℚ) - 1)) (some (1 / 2)) =
      decide ((m : ℚ) - 1 = 1 / 2) from rfl]
    exact decide_eq_false hchalf
  by_cases hm2 : m = 2
  · subst hm2
    have hj1 : jeq (some (((2 : ℤ) : ℚ) - 1)) (some 1) = true := by
      norm_num [jeq]
    simp only [differentiateTerm, hx, Bool.not_true, Bool.false_eq_true,
      if_false, h2, h3, h4, h5, h6, h7, h8, hpm, powCoef_intRender,
      powExp_intTermStr, jmul, jsub, jsNumToString, hj0, hj1, if_true,
      ite_true, ite_false, Bool.or_self, Bool.or_false, Bool.false_or,
      Bool.false_eq_true, if_false]
    have hcoef : ((a : ℚ)) * (((2 : ℤ)) : ℚ) = (((a * 2 : ℤ)) : ℚ) := by
      push_cast
      ring
    rw [show ((2 : ℤ) - 1) = (1 : ℤ) from rfl, intTermStr_one, hcoef]
  · have hj1 : jeq (some ((m : ℚ) - 1)) (some 1) = false := by
      have : ((m : ℚ)) - 1 ≠ 1 := by
        intro h
        apply hm2
        have : ((m : ℚ)) = 2 := by linarith
        exact_mod_cast this
      simp [jeq, this]
    simp only [differentiateTerm, hx, Bool.not_true, Bool.false_eq_true,
      if_false, h2, h3, h4, h5, h6, h7, h8, hpm, powCoef_intRender,
      powExp_intTermStr, jmul, jsub, jsNumToString, hj0, hj1, hjm1, hjhalf,
      if_true, ite_true, ite_false, Bool.or_self, Bool.or_false,
      Bool.false_or, Bool.false_eq_true, if_false]
    have hcoef : ((a : ℚ)) * ((m : ℚ)) = (((a * m : ℤ)) : ℚ) := by
      push_cast
      ring
    have hexp : ((m : ℚ)) - 1 = (((m - 1 : ℤ)) : ℚ) := by
      push_cast
      ring
    rw [intTermStr_ne_one _ _ (by omega : m - 1 ≠ 1), hcoef, hexp]

/-! ## Claim C2: the integrate/differentiate round trip -/

/-- C2 (amended): for integer monomials `c·x^n` with `n ∉ {0, -1}` whose
integrated coefficient is exact (`(n+1) ∣ c`, so the four-decimal rounding
and fraction snapping of `formatNumber` do not distort it), differentiating
the integral returns the original term verbatim; the constant of
integration is never part of `integrateTerm`'s term output. -/
theorem C2_integrate_differentiate_roundtrip (env : Env)
    (steps1 steps2 : List Step) (c n : ℤ) (hn0 : n ≠ 0) (hn1 : n ≠ -1)
    (hdvd : (n + 1) ∣ c) :
    (differentiateTerm (integrateTerm env (intTermStr c n) steps1).1
      steps2).1 = intTermStr c n := by
  obtain ⟨k, hk⟩ := hdvd
  have hne : ((n : ℚ)) + 1 ≠ 0 := by
    intro h
    apply hn1
    have : ((n : ℚ)) = -1 := by linarith
    exact_mod_cast this
  have hq : ((c : ℚ)) / ((n : ℚ) + 1) = ((k : ℚ)) := by
    field_simp
    push_cast [hk]
    ring
  rw [integrateTerm_power env steps1 c n hn0 hn1]
  show (differentiateTerm (formatNumber (some ((c : ℚ) / ((n : ℚ) + 1))) ++
    "x^" ++ qToJsString ((n : ℚ) + 1)) steps2).1 = intTermStr c n
  have hout : formatNumber (some ((c : ℚ) / ((n : ℚ) + 1))) ++ "x^" ++
      qToJsString ((n : ℚ) + 1) = intTermStr k (n + 1) := by
    rw [hq, formatNumber_int k]
    have hexp : ((n : ℚ)) + 1 = (((n + 1 : ℤ)) : ℚ) := by
      push_cast
      ring
    rw [hexp, intTermStr_ne_one k (n + 1) (by omega)]
  rw [hout]
  rw [differentiateTerm_power steps2 k (n + 1) (by omega) (by omega)]
  show intTermStr (k * (n + 1)) (n + 1 - 1) = intTermStr c n
  have hkc : k * (n + 1) = c := by
    rw [hk]
    ring
  rw [hkc, show n + 1 - 1 = n from by ring]

unseal Rat.add Rat.sub Rat.mul Rat.inv in
/-- Counterexample for C2 as stated: for `x^2` the integrated coefficient
1/3 is snapped to the literal string `"1/3"` by `formatNumber`, which the
differentiation power-rule pattern cannot parse, so the derivative of the
integral is `"1/3x^3"` itself, not `"x^2"`. -/
theorem C2_roundtrip_counterexample :
    (integrateTerm noCasEnv "x^2" []).1 = "1/3x^3" ∧
    (differentiateTerm "1/3x^3" []).1 = "1/3x^3" ∧
    (differentiateTerm (integrateTerm noCasEnv "x^2" []).1 []).1 ≠ "x^2" :=
  ⟨by decide, by decide, by decide⟩

unseal Rat.add Rat.sub Rat.mul Rat.inv in
/-- Witness for C2: the round trip holds exactly at `6x^2`. -/
theorem C2_integrate_differentiate_roundtrip_witness :
    (2 : ℤ) ≠ 0 ∧ (2 : ℤ) ≠ -1 ∧ ((2 : ℤ) + 1) ∣ (6 : ℤ) ∧
    intTermStr 6 2 = "6x^2" ∧
    (differentiateTerm (integrateTerm noCasEnv (intTermStr 6 2) []).1
      []).1 = intTermStr 6 2 :=
  ⟨by decide, by decide, by decide, by decide,
   C2_integrate_differentiate_roundtrip noCasEnv [] [] 6 2 (by decide)
     (by decide) (by decide)⟩

/-! ## Claim C5: exponent −1 is routed to the logarithm, not the power
rule -/

/-- C5: every power-rule term whose parsed exponent is exactly −1 — the
literal forms `"x^-1"` and `"1/x"`, and `c·x^-1` for every integer
coefficient — integrates to `coef·ln|x|`; the power-rule division by
`n + 1 = 0` is never taken. -/
theorem C5_integrateTerm_negOne_ln :
    (∀ (env : Env) (steps : List Step),
      (integrateTerm env "x^-1" steps).1 = "ln|x|" ∧
      (integrateTerm env "1/x" steps).1 = "ln|x|") ∧
    (∀ (env : Env) (steps : List Step) (c : ℤ),
      (integrateTerm env (intTermStr c (-1)) steps).1 =
        (if (c : ℚ) = 1 then "ln|x|"
         else qToJsString (c : ℚ) ++ "ln|x|")) := by
  constructor
  · intro env steps
    exact ⟨rfl, rfl⟩
  · intro env steps c
    have hg : GoodT (intTermStr c (-1)).data := intTermStr_good
    have htrim : jsTrim (intTermStr c (-1)) = intTermStr c (-1) :=
      jsTrim_good hg
    have hx : containsCharL (intTermStr c (-1)).data ('x') = true := by
      apply containsCharL_of_mem
      exact List.mem_append.2 (Or.inr (List.mem_cons_self _ _))
    have h2 : anchoredTrigInt "sin".data (intTermStr c (-1)).data = false :=
      anchoredTrigInt_false_bad (by decide) hg
    have h3 : anchoredTrigInt "cos".data (intTermStr c (-1)).data = false :=
      anchoredTrigInt_false_bad (by decide) hg
    have h4 : anySuffix (secStyleHere "sec".data)
        (intTermStr c (-1)).data = false :=
      anySuffix_false_good hg
        (fun r hr => secStyleHere_false_bad (by decide) hr)
    have h5 : anySuffix (secStyleHere "csc".data)
        (intTermStr c (-1)).data = false :=
      anySuffix_false_good hg
        (fun r hr => secStyleHere_false_bad (by decide) hr)
    have h6 : anySuffix secTanHere (intTermStr c (-1)).data = false :=
      anySuffix_false_good hg (fun r hr => secTanHere_false_good hr)
    have h7 : anySuffix cscCotHere (intTermStr c (-1)).data = false :=
      anySuffix_false_good hg (fun r hr => cscCotHere_false_good hr)
    have h8 : anchoredExpInt (intTermStr c (-1)).data = false :=
      anchoredExpInt_false_good hg
    have h9 : findFirst eAxHere (intTermStr c (-1)).data = none :=
      findFirst_none_good hg (fun r hr => eAxHere_none_good hr)
    have h10 : anchoredLnInt (intTermStr c (-1)).data = false :=
      anchoredLnInt_false_good hg
    have h11 : anySuffix arctanHere (intTermStr c (-1)).data = false :=
      anySuffix_false_good hg (fun r hr => arctanHere_false_good hr)
    have h12 : anySuffix arcsinHere (intTermStr c (-1)).data = false :=
      anySuffix_false_good hg (fun r hr => arcsinHere_false_good hr)
    have hlow : jsLower (intTermStr c (-1)) = intTermStr c (-1) :=
      jsLower_good hg
    have hne1 : ¬(intTermStr c (-1) = "1/x") := by
      intro h
      have : ('/') ∈ (intTermStr c (-1)).data := by
        rw [h]
        decide
      have := hg _ this
      simp [goodList] at this
    have hne2 : ¬(intTermStr c (-1) = "x^-1") := by
      intro h
      have hdata : (qToJsString (c : ℚ)).data ++
          ('x') :: (if (-1 : ℤ) = 1 then []
            else ('^') :: (qToJsString ((-1 : ℤ) : ℚ)).data) =
          "x^-1".data := congrArg String.data h
      cases hrc : (qToJsString (c : ℚ)).data with
      | nil => exact intRender_ne_nil hrc
      | cons a rcr =>
        rw [hrc, List.cons_append] at hdata
        have ha : a = ('x') := (List.cons.inj hdata).1
        exact intRender_head_ne_x (by rw [hrc, ha])
    have hb1 : decide (jsLower (intTermStr c (-1)) = "1/x") = false := by
      rw [hlow]
      exact decide_eq_false hne1
    have hb2 : decide (jsLower (intTermStr c (-1)) = "x^-1") = false := by
      rw [hlow]
      exact decide_eq_false hne2
    have hpm := powerMatch_intTermStr (c := c) (n := (-1 : ℤ))
    have hj : jeq (some (((-1 : ℤ)) : ℚ)) (some (-1)) = true := by
      norm_num [jeq]
    simp only [integrateTerm, htrim, hx, Bool.not_true, Bool.false_and,
      if_false, h2, h3, h4, h5, h6, h7, h8, h9, Option.isSome_none,
      Bool.false_eq_true, h10, h11, h12, hb1, hb2, Bool.or_self, hpm,
      powCoef_intRender, powExp_intTermStr, hj, if_true, ite_true,
      ite_false]
    by_cases hc : ((c : ℚ)) = 1
    · simp [jeq, hc]
    · simp [jeq, hc, jsNumToString]

/-! ## Claim C4: the quadratic discriminant branches -/

/-- The parsed `(a, b, c)` of the quadratic solver's manual path (the
source's `parseQuadraticCoefficients` call on the normalised equation). -/
def quadCoeffs (problem : String) : JsNum × JsNum × JsNum :=
  let equation := removeSpaces ⟨replCharL '²' "^2".data problem.data⟩
  let varC := (firstLetter equation.data).getD 'x'
  let parts := jsSplitOnChar '=' equation
  parseQuadraticCoefficients (parts.headD "") (parts.get? 1) varC

/-- The solver's variable letter (first letter of the equation, `x` by
default). -/
def quadVarC (problem : String) : Char :=
  (firstLetter (removeSpaces
    ⟨replCharL '²' "^2".data problem.data⟩).data).getD 'x'

/-- The discriminant `b² - 4ac` of the parsed coefficients. -/
def quadDisc (problem : String) : JsNum :=
  jsub (jmul (quadCoeffs problem).2.1 (quadCoeffs problem).2.1)
    (jmul (jmul (some 4) (quadCoeffs problem).1) (quadCoeffs problem).2.2)

/-- The solver's discriminant-computation step. -/
def quadDiscStep (problem : String) : Step :=
  ⟨"Calculate discriminant: b² - 4ac",
   "Δ = (" ++ jsNumToString (quadCoeffs problem).2.1 ++ ")² - 4(" ++
     jsNumToString (quadCoeffs problem).1 ++ ")(" ++
     jsNumToString (quadCoeffs problem).2.2 ++ ") = " ++
     jsNumToString (jmul (quadCoeffs problem).2.1
       (quadCoeffs problem).2.1) ++ " - " ++
     jsNumToString (jmul (jmul (some 4) (quadCoeffs problem).1)
       (quadCoeffs problem).2.2) ++ " = " ++
     jsNumToString (quadDisc problem)⟩

set_option maxHeartbeats 2000000 in
unseal Rat.add Rat.sub Rat.mul Rat.inv in
/-- C4: the quadratic solver computes `Δ = b² − 4ac`, records the
discriminant step, and branches on the sign of `Δ`: two real roots
`(−b ± √Δ)/2a` when `Δ > 0`, the repeated root `−b/2a` when `Δ = 0`, and
the conjugate pair `(−b/2a) ± (√(−Δ)/2a)i` when `Δ < 0`; concretely,
`"x^2 - 5x + 6 = 0"` on the manual path has discriminant 1 and roots
3 and 2. -/
theorem C4_quadratic_discriminant_branches :
    ((solveQuadratic noCasEnv "x^2 - 5x + 6 = 0" 1).answer =
        "x₁ = 3, x₂ = 2" ∧
      quadDisc "x^2 - 5x + 6 = 0" = some 1 ∧
      quadDiscStep "x^2 - 5x + 6 = 0" ∈
        (solveQuadratic noCasEnv "x^2 - 5x + 6 = 0" 1).steps) ∧
    (∀ (env : Env) (problem : String) (number : Nat),
      env.nerdamerAvailable = false →
      jlt (some 0) (quadDisc problem) = true →
      (solveQuadratic env problem number).answer =
        (⟨[quadVarC problem]⟩ : String) ++ "₁ = " ++
          formatNumber (jdiv (jadd (jneg (quadCoeffs problem).2.1)
              (jsqrtE env (quadDisc problem)))
            (jmul (some 2) (quadCoeffs problem).1)) ++ ", " ++
          (⟨[quadVarC problem]⟩ : String) ++ "₂ = " ++
          formatNumber (jdiv (jsub (jneg (quadCoeffs problem).2.1)
              (jsqrtE env (quadDisc problem)))
            (jmul (some 2) (quadCoeffs problem).1)) ∧
      quadDiscStep problem ∈ (solveQuadratic env problem number).steps) ∧
    (∀ (env : Env) (problem : String) (number : Nat),
      env.nerdamerAvailable = false →
      jeq (quadDisc problem) (some 0) = true →
      jlt (some 0) (quadDisc problem) = false →
      (solveQuadratic env problem number).answer =
        (⟨[quadVarC problem]⟩ : String) ++ " = " ++
          formatNumber (jdiv (jneg (quadCoeffs problem).2.1)
            (jmul (some 2) (quadCoeffs problem).1)) ∧
      quadDiscStep problem ∈ (solveQuadratic env problem number).steps) ∧
    (∀ (env : Env) (problem : String) (number : Nat),
      env.nerdamerAvailable = false →
      jlt (some 0) (quadDisc problem) = false →
      jeq (quadDisc problem) (some 0) = false →
      (solveQuadratic env problem number).answer =
        (⟨[quadVarC problem]⟩ : String) ++ " = " ++
          formatNumber (jdiv (jneg (quadCoeffs problem).2.1)
            (jmul (some 2) (quadCoeffs problem).1)) ++ " ± " ++
          formatNumber (jdiv (jsqrtE env (jneg (quadDisc problem)))
            (jmul (some 2) (quadCoeffs problem).1)) ++ "i" ∧
      quadDiscStep problem ∈ (solveQuadratic env problem number).steps) := by
  refine ⟨⟨by decide, by decide, by decide⟩, ?_, ?_, ?_⟩
  · intro env problem number hna hpos
    simp only [quadDisc, quadCoeffs] at hpos
    simp only [solveQuadratic, hna, Bool.false_eq_true, if_false,
      quadDiscStep, quadDisc, quadCoeffs, quadVarC, hpos, if_true]
    refine ⟨trivial, ?_⟩
    simp [List.mem_append]
  · intro env problem number hna heq hpos
    simp only [quadDisc, quadCoeffs] at heq hpos
    simp only [solveQuadratic, hna, Bool.false_eq_true, if_false,
      quadDiscStep, quadDisc, quadCoeffs, quadVarC, hpos, heq, if_true]
    refine ⟨trivial, ?_⟩
    simp [List.mem_append]
  · intro env problem number hna hpos heq
    simp only [quadDisc, quadCoeffs] at heq hpos
    simp only [solveQuadratic, hna, Bool.false_eq_true, if_false,
      quadDiscStep, quadDisc, quadCoeffs, quadVarC, hpos, heq, if_true]
    refine ⟨trivial, ?_⟩
    simp [List.mem_append]

unseal Rat.add Rat.sub Rat.mul Rat.inv in
/-- Witness for C4: the positive-discriminant branch at
`"x^2 - 5x + 6 = 0"`. -/
theorem C4_quadratic_discriminant_branches_witness :
    noCasEnv.nerdamerAvailable = false ∧
    jlt (some 0) (quadDisc "x^2 - 5x + 6 = 0") = true ∧
    ((solveQuadratic noCasEnv "x^2 - 5x + 6 = 0" 1).answer =
        (⟨[quadVarC "x^2 - 5x + 6 = 0"]⟩ : String) ++ "₁ = " ++
          formatNumber (jdiv (jadd (jneg
              (quadCoeffs "x^2 - 5x + 6 = 0").2.1)
              (jsqrtE noCasEnv (quadDisc "x^2 - 5x + 6 = 0")))
            (jmul (some 2) (quadCoeffs "x^2 - 5x + 6 = 0").1)) ++ ", " ++
          (⟨[quadVarC "x^2 - 5x + 6 = 0"]⟩ : String) ++ "₂ = " ++
          formatNumber (jdiv (jsub (jneg
              (quadCoeffs "x^2 - 5x + 6 = 0").2.1)
              (jsqrtE noCasEnv (quadDisc "x^2 - 5x + 6 = 0")))
            (jmul (some 2) (quadCoeffs "x^2 - 5x + 6 = 0").1)) ∧
      quadDiscStep "x^2 - 5x + 6 = 0" ∈
        (solveQuadratic noCasEnv "x^2 - 5x + 6 = 0" 1).steps) :=
  ⟨rfl, by decide,
   C4_quadratic_discriminant_branches.2.1 noCasEnv "x^2 - 5x + 6 = 0" 1 rfl
     (by decide)⟩

/-! ## Claim C6: idempotence of the input normaliser

The proof goes through a normal-form characterisation: one decidable
predicate per substitution stage stating that the stage's pattern occurs
nowhere.  Every stage is the identity on strings normal for it, the
pipeline's output is normal for every stage (each stage establishes its own
normality and every later stage preserves it), hence `cleanInput` is
idempotent. -/

/-- No glyph-canonicalisation rule rewrites `c`. -/
def glyphFix (c : Char) : Bool :=
  glyph1 c = c && glyph2 c = c && glyph3 c = c && glyph4 c = c && glyph5 c = c

/-- Stage 1–5 normality: no glyph rule matches anywhere. -/
def NGlyph (l : Chars) : Bool := l.all glyphFix

/-- OCR-fix normality for target `tgt`: no boundary-plus-lookahead match
anywhere (the scan carries the previous character). -/
def NOcr (tgt : Char) : Option Char → Chars → Bool
  | _, [] => true
  | prev, c :: r => !(c = tgt && !wdOpt prev && lookOp r) && NOcr tgt (some c) r

/-- Whitespace normality: every whitespace character is a plain blank and
no two are adjacent (the flag tells whether the previous character was
whitespace). -/
def NWs : Bool → Chars → Bool
  | _, [] => true
  | prevSp, c :: r =>
    if isJsSpace c then (c = ' ' && !prevSp) && NWs true r
    else NWs false r

/-- Stage 9 normality: no digit is followed (over spaces) by `(`. -/
def NS9 : Chars → Bool
  | [] => true
  | c :: r => !(isDigitC c && (parenAfterSp r).isSome) && NS9 r

/-- Stage 10 normality: no `)` is followed (over spaces) by a digit. -/
def NS10 : Chars → Bool
  | [] => true
  | c :: r => !(c = ')' && (digitAfterSp r).isSome) && NS10 r

/-- Stage 11 normality: no `)` is followed (over spaces) by `(`. -/
def NS11 : Chars → Bool
  | [] => true
  | c :: r => !(c = ')' && (parenAfterSp r).isSome) && NS11 r

/-- Stage 12 normality: no coordinate-triple pattern matches. -/
def NS12 : Chars → Bool
  | [] => true
  | c :: r => !(c = '(' && (coord3Body r).isSome) && NS12 r

/-- Stage 13 normality: no coordinate-pair pattern matches. -/
def NS13 : Chars → Bool
  | [] => true
  | c :: r => !(c = '(' && (coord2Body r).isSome) && NS13 r

/-- Trim normality: no leading or trailing whitespace. -/
def NTrim (l : Chars) : Bool :=
  !(l.head?.elim false isJsSpace) && !(l.reverse.head?.elim false isJsSpace)

/-- Full normal form: no substitution rule of `cleanInput` matches. -/
def NF (l : Chars) : Bool :=
  NGlyph l && NOcr 'l' none l && NOcr 'O' none l && NWs false l &&
  NS9 l && NS10 l && NS11 l && NS12 l && NS13 l && NTrim l

/-! ### Each stage is the identity on its normal strings -/

theorem bnot_true {b : Bool} (h : (!b) = true) : b = false := by
  cases b
  · rfl
  · cases h

theorem ocrFix_id {tgt rep : Char} {prev : Option Char} {l : Chars}
    (h : NOcr tgt prev l = true) : ocrFix tgt rep prev l = l := by
  induction l generalizing prev with
  | nil => rfl
  | cons c r ih =>
    unfold NOcr at h
    rw [Bool.and_eq_true] at h
    have hcond : (decide (c = tgt) && !wdOpt prev && lookOp r) = false :=
      bnot_true h.1
    unfold ocrFix
    rw [hcond]
    simp only [Bool.false_eq_true, if_false]
    rw [ih h.2]

theorem collapseWs_id {b : Bool} {l : Chars} (h : NWs b l = true) :
    collapseWs b l = l := by
  induction l generalizing b with
  | nil => rfl
  | cons c r ih =>
    unfold NWs at h
    unfold collapseWs
    by_cases hsp : isJsSpace c = true
    · rw [if_pos hsp] at h
      rw [Bool.and_eq_true, Bool.and_eq_true] at h
      obtain ⟨⟨hc, hb⟩, hr⟩ := h
      rw [if_pos hsp]
      rw [Bool.not_eq_true'] at hb
      subst hb
      rw [if_neg (by simp)]
      rw [decide_eq_true_eq] at hc
      rw [← hc, ih hr]
    · rw [Bool.not_eq_true] at hsp
      rw [hsp] at h
      simp only [Bool.false_eq_true, if_false] at h
      rw [hsp]
      simp only [Bool.false_eq_true, if_false]
      rw [ih h]

theorem stage9Go_id {fuel : Nat} {l : Chars} (hf : l.length ≤ fuel)
    (h : NS9 l = true) : stage9Go fuel l = l := by
  induction fuel generalizing l with
  | zero =>
    cases l with
    | nil => rfl
    | cons c r => simp at hf
  | succ f ih =>
    cases l with
    | nil => rfl
    | cons c r =>
      unfold NS9 at h
      rw [Bool.and_eq_true] at h
      unfold stage9Go
      simp only [List.length_cons] at hf
      by_cases hd : isDigitC c = true
      · rw [if_pos hd]
        have hnone : parenAfterSp r = none := by
          rcases hps : parenAfterSp r with _ | t
          · rfl
          · exfalso
            have h1 := bnot_true h.1
            rw [hd, hps] at h1
            simp at h1
        rw [hnone]
        rw [ih (by omega) h.2]
      · rw [if_neg hd, ih (by omega) h.2]

theorem stage10Go_id {fuel : Nat} {l : Chars} (hf : l.length ≤ fuel)
    (h : NS10 l = true) : stage10Go fuel l = l := by
  induction fuel generalizing l with
  | zero =>
    cases l with
    | nil => rfl
    | cons c r => simp at hf
  | succ f ih =>
    cases l with
    | nil => rfl
    | cons c r =>
      unfold NS10 at h
      rw [Bool.and_eq_true] at h
      unfold stage10Go
      simp only [List.length_cons] at hf
      by_cases hd : c = ')'
      · rw [if_pos hd]
        have hnone : digitAfterSp r = none := by
          rcases hps : digitAfterSp r with _ | t
          · rfl
          · exfalso
            have h1 := bnot_true h.1
            rw [hps] at h1
            simp [hd] at h1
        rw [hnone]
        rw [hd, ih (by omega) h.2]
      · rw [if_neg hd, ih (by omega) h.2]

theorem stage11Go_id {fuel : Nat} {l : Chars} (hf : l.length ≤ fuel)
    (h : NS11 l = true) : stage11Go fuel l = l := by
  induction fuel generalizing l with
  | zero =>
    cases l with
    | nil => rfl
    | cons c r => simp at hf
  | succ f ih =>
    cases l with
    | nil => rfl
    | cons c r =>
      unfold NS11 at h
      rw [Bool.and_eq_true] at h
      unfold stage11Go
      simp only [List.length_cons] at hf
      by_cases hd : c = ')'
      · rw [if_pos hd]
        have hnone : parenAfterSp r = none := by
          rcases hps : parenAfterSp r with _ | t
          · rfl
          · exfalso
            have h1 := bnot_true h.1
            rw [hps] at h1
            simp [hd] at h1
        rw [hnone]
        rw [hd, ih (by omega) h.2]
      · rw [if_neg hd, ih (by omega) h.2]

theorem stage12Go_id {fuel : Nat} {l : Chars} (hf : l.length ≤ fuel)
    (h : NS12 l = true) : stage12Go fuel l = l := by
  induction fuel generalizing l with
  | zero =>
    cases l with
    | nil => rfl
    | cons c r => simp at hf
  | succ f ih =>
    cases l with
    | nil => rfl
    | cons c r =>
      unfold NS12 at h
      rw [Bool.and_eq_true] at h
      unfold stage12Go
      simp only [List.length_cons] at hf
      by_cases hd : c = '('
      · rw [if_pos hd]
        have hnone : coord3Body r = none := by
          rcases hps : coord3Body r with _ | t
          · rfl
          · exfalso
            have h1 := bnot_true h.1
            rw [hps] at h1
            simp [hd] at h1
        rw [hnone]
        rw [hd, ih (by omega) h.2]
      · rw [if_neg hd, ih (by omega) h.2]

theorem stage13Go_id {fuel : Nat} {l : Chars} (hf : l.length ≤ fuel)
    (h : NS13 l = true) : stage13Go fuel l = l := by
  induction fuel generalizing l with
  | zero =>
    cases l with
    | nil => rfl
    | cons c r => simp at hf
  | succ f ih =>
    cases l with
    | nil => rfl
    | cons c r =>
      unfold NS13 at h
      rw [Bool.and_eq_true] at h
      unfold stage13Go
      simp only [List.length_cons] at hf
      by_cases hd : c = '('
      · rw [if_pos hd]
        have hnone : coord2Body r = none := by
          rcases hps : coord2Body r with _ | t
          · rfl
          · exfalso
            have h1 := bnot_true h.1
            rw [hps] at h1
            simp [hd] at h1
        rw [hnone]
        rw [hd, ih (by omega) h.2]
      · rw [if_neg hd, ih (by omega) h.2]

theorem dropWhile_head_not {p : Char → Bool} {l : Chars}
    (h : (l.head?.elim false p) = false) : l.dropWhile p = l := by
  cases l with
  | nil => rfl
  | cons c r =>
    simp only [List.head?_cons, Option.elim_some] at h
    rw [List.dropWhile_cons, h]
    simp

theorem trimL_id {l : Chars} (h : NTrim l = true) : trimL l = l := by
  unfold NTrim at h
  rw [Bool.and_eq_true] at h
  unfold trimL
  rw [show l.dropWhile isJsSpace = l from dropWhile_head_not (bnot_true h.1)]
  rw [show l.reverse.dropWhile isJsSpace = l.reverse from
    dropWhile_head_not (bnot_true h.2)]
  exact List.reverse_reverse l

theorem cleanList_id {l : Chars} (h : NF l = true) : cleanList l = l := by
  unfold NF at h
  simp only [Bool.and_eq_true] at h
  obtain ⟨⟨⟨⟨⟨⟨⟨⟨⟨hG, hL⟩, hO⟩, hW⟩, h9⟩, h10⟩, h11⟩, h12⟩, h13⟩, hT⟩ := h
  have hfix : ∀ c ∈ l, glyphFix c = true := List.all_eq_true.mp hG
  have hg1 : l.map glyph1 = l := map_id_of_fix (fun c hc => by
    have := hfix c hc
    simp only [glyphFix, Bool.and_eq_true, decide_eq_true_eq] at this
    exact this.1.1.1.1)
  have hg2 : l.map glyph2 = l := map_id_of_fix (fun c hc => by
    have := hfix c hc
    simp only [glyphFix, Bool.and_eq_true, decide_eq_true_eq] at this
    exact this.1.1.1.2)
  have hg3 : l.map glyph3 = l := map_id_of_fix (fun c hc => by
    have := hfix c hc
    simp only [glyphFix, Bool.and_eq_true, decide_eq_true_eq] at this
    exact this.1.1.2)
  have hg4 : l.map glyph4 = l := map_id_of_fix (fun c hc => by
    have := hfix c hc
    simp only [glyphFix, Bool.and_eq_true, decide_eq_true_eq] at this
    exact this.1.2)
  have hg5 : l.map glyph5 = l := map_id_of_fix (fun c hc => by
    have := hfix c hc
    simp only [glyphFix, Bool.and_eq_true, decide_eq_true_eq] at this
    exact this.2)
  unfold cleanList
  rw [hg1, hg2, hg3, hg4, hg5, ocrFix_id hL, ocrFix_id hO, collapseWs_id hW]
  unfold stage9 stage10 stage11 stage12 stage13
  rw [stage9Go_id (le_refl _) h9, stage10Go_id (le_refl _) h10,
    stage11Go_id (le_refl _) h11, stage12Go_id (le_refl _) h12,
    stage13Go_id (le_refl _) h13, trimL_id hT]

/-! ### Character facts used by the normality arguments -/

theorem space_val {c : Char} (h : isJsSpace c = true) :
    c.val.toNat = 32 ∨ c.val.toNat = 9 ∨ c.val.toNat = 10 ∨
    c.val.toNat = 13 ∨ c.val.toNat = 11 ∨ c.val.toNat = 12 ∨
    c.val.toNat = 160 ∨ c.val.toNat = 5760 ∨
    (8192 ≤ c.val.toNat ∧ c.val.toNat ≤ 8202) ∨ c.val.toNat = 8232 ∨
    c.val.toNat = 8233 ∨ c.val.toNat = 8239 ∨ c.val.toNat = 8287 ∨
    c.val.toNat = 12288 ∨ c.val.toNat = 65279 := by
  simp only [isJsSpace, Bool.or_eq_true, Bool.and_eq_true,
    decide_eq_true_eq] at h
  rcases h with ((((((((((((((hsv) | hsv) | hsv) | hsv) | hsv) | hsv) | hsv) | hsv) | hsv) | hsv) | hsv) | hsv) | hsv) | hsv) | hsv
  all_goals first
    | (subst hsv
       simp)
    | (obtain ⟨ha, hb⟩ := hsv
       have ha2 : (8192 : Nat) ≤ c.val.toNat := by exact_mod_cast ha
       have hb2 : c.val.toNat ≤ (8202 : Nat) := by exact_mod_cast hb
       tauto)

theorem digit_not_space {c : Char} (h : isDigitC c = true) :
    isJsSpace c = false := by
  simp only [isDigitC, Bool.and_eq_true, decide_eq_true_eq] at h
  obtain ⟨h1, h2⟩ := h
  have hn1 : (48 : Nat) ≤ c.val.toNat := by exact_mod_cast h1
  have hn2 : c.val.toNat ≤ (57 : Nat) := by exact_mod_cast h2
  by_contra hsp
  rw [Bool.not_eq_false] at hsp
  rcases space_val hsp with hv | hv | hv | hv | hv | hv | hv | hv |
    ⟨hv1, hv2⟩ | hv | hv | hv | hv | hv | hv <;> omega

/-! ### The scanners depend only on the first non-blank character

`lookOp`, `parenAfterSp` and `digitAfterSp` branch on the first non-blank
character; the normaliser stages after whitespace collapse never change it,
which drives every preservation argument below. -/

/-- Is `c` one of the OCR-lookahead operators `[=+\-*/]`? -/
def opC (c : Char) : Bool :=
  c = '=' || c = '+' || c = '-' || c = '*' || c = '/'

/-- First non-blank character of a list. -/
def headNS (l : Chars) : Option Char :=
  (l.dropWhile isJsSpace).head?

theorem headNS_cons_space {c : Char} {r : Chars} (h : isJsSpace c = true) :
    headNS (c :: r) = headNS r := by
  unfold headNS
  rw [List.dropWhile_cons, h]
  simp

theorem headNS_cons_nonspace {c : Char} {r : Chars}
    (h : isJsSpace c = false) : headNS (c :: r) = some c := by
  unfold headNS
  rw [List.dropWhile_cons, h]
  simp

theorem lookOp_eq_headNS (l : Chars) :
    lookOp l = (match headNS l with | some c => opC c | none => false) := by
  induction l with
  | nil => rfl
  | cons c r ih =>
    by_cases hsp : isJsSpace c = true
    · rw [headNS_cons_space hsp]
      unfold lookOp
      rw [hsp]
      simp only [if_true]
      exact ih
    · rw [Bool.not_eq_true] at hsp
      rw [headNS_cons_nonspace hsp]
      unfold lookOp
      rw [hsp]
      simp only [Bool.false_eq_true, if_false]
      rfl

theorem parenSome_eq_headNS (l : Chars) :
    (parenAfterSp l).isSome = (headNS l == some '(') := by
  induction l with
  | nil => rfl
  | cons c r ih =>
    by_cases hsp : isJsSpace c = true
    · rw [headNS_cons_space hsp]
      unfold parenAfterSp
      rw [if_pos hsp]
      exact ih
    · rw [Bool.not_eq_true] at hsp
      rw [headNS_cons_nonspace hsp]
      unfold parenAfterSp
      rw [hsp]
      simp only [Bool.false_eq_true, if_false]
      by_cases hp : c = '('
      · subst hp
        simp
      · rw [if_neg hp]
        simp [hp]

theorem digitSome_eq_headNS (l : Chars) :
    (digitAfterSp l).isSome =
      (match headNS l with | some c => isDigitC c | none => false) := by
  induction l with
  | nil => rfl
  | cons c r ih =>
    by_cases hsp : isJsSpace c = true
    · rw [headNS_cons_space hsp]
      unfold digitAfterSp
      rw [if_pos hsp]
      exact ih
    · rw [Bool.not_eq_true] at hsp
      rw [headNS_cons_nonspace hsp]
      unfold digitAfterSp
      rw [hsp]
      simp only [Bool.false_eq_true, if_false]
      by_cases hd : isDigitC c = true
      · rw [hd, if_pos rfl]
        rfl
      · rw [Bool.not_eq_true] at hd
        rw [hd]
        simp

theorem headNS_stage9Go (fuel : Nat) (l : Chars) :
    headNS (stage9Go fuel l) = headNS l := by
  induction fuel generalizing l with
  | zero =>
    cases l with
    | nil => rfl
    | cons c r => rfl
  | succ f ih =>
    cases l with
    | nil => rfl
    | cons c r =>
      by_cases hsp : isJsSpace c = true
      · have hcond : ¬(isDigitC c = true) := fun hcon => by
          rw [digit_not_space hcon] at hsp
          cases hsp
        unfold stage9Go
        rw [if_neg hcond]
        rw [headNS_cons_space hsp, headNS_cons_space hsp, ih]
      · rw [Bool.not_eq_true] at hsp
        by_cases hcond : isDigitC c = true
        · rcases hps : parenAfterSp r with _ | t
          · rw [show stage9Go (f + 1) (c :: r) = c :: stage9Go f r from by
              simp only [stage9Go]
              rw [if_pos hcond]
              simp only [hps]]
            rw [headNS_cons_nonspace hsp, headNS_cons_nonspace hsp]
          · rw [show stage9Go (f + 1) (c :: r) =
                c :: '*' :: '(' :: stage9Go f t from by
              simp only [stage9Go]
              rw [if_pos hcond]
              simp only [hps]]
            rw [headNS_cons_nonspace hsp, headNS_cons_nonspace hsp]
        · rw [show stage9Go (f + 1) (c :: r) = c :: stage9Go f r from by
            simp only [stage9Go]
            rw [if_neg hcond]]
          rw [headNS_cons_nonspace hsp, headNS_cons_nonspace hsp]

theorem headNS_stage10Go (fuel : Nat) (l : Chars) :
    headNS (stage10Go fuel l) = headNS l := by
  induction fuel generalizing l with
  | zero =>
    cases l with
    | nil => rfl
    | cons c r => rfl
  | succ f ih =>
    cases l with
    | nil => rfl
    | cons c r =>
      by_cases hsp : isJsSpace c = true
      · have hcond : ¬(c = ')') := fun hcon => by
          rw [hcon] at hsp
          cases hsp
        unfold stage10Go
        rw [if_neg hcond]
        rw [headNS_cons_space hsp, headNS_cons_space hsp, ih]
      · rw [Bool.not_eq_true] at hsp
        by_cases hcond : c = ')'
        · subst hcond
          rcases hps : digitAfterSp r with _ | ⟨d, t⟩
          · rw [show stage10Go (f + 1) (')' :: r) = ')' :: stage10Go f r
                from by
              simp only [stage10Go]
              rw [if_pos trivial]
              simp only [hps]]
            rw [headNS_cons_nonspace hsp, headNS_cons_nonspace hsp]
          · rw [show stage10Go (f + 1) (')' :: r) =
                ')' :: '*' :: d :: stage10Go f t from by
              simp only [stage10Go]
              rw [if_pos trivial]
              simp only [hps]]
            rw [headNS_cons_nonspace hsp, headNS_cons_nonspace hsp]
        · rw [show stage10Go (f + 1) (c :: r) = c :: stage10Go f r from by
            simp only [stage10Go]
            rw [if_neg hcond]]
          rw [headNS_cons_nonspace hsp, headNS_cons_nonspace hsp]

theorem headNS_stage11Go (fuel : Nat) (l : Chars) :
    headNS (stage11Go fuel l) = headNS l := by
  induction fuel generalizing l with
  | zero =>
    cases l with
    | nil => rfl
    | cons c r => rfl
  | succ f ih =>
    cases l with
    | nil => rfl
    | cons c r =>
      by_cases hsp : isJsSpace c = true
      · have hcond : ¬(c = ')') := fun hcon => by
          rw [hcon] at hsp
          cases hsp
        unfold stage11Go
        rw [if_neg hcond]
        rw [headNS_cons_space hsp, headNS_cons_space hsp, ih]
      · rw [Bool.not_eq_true] at hsp
        by_cases hcond : c = ')'
        · subst hcond
          rcases hps : parenAfterSp r with _ | t
          · rw [show stage11Go (f + 1) (')' :: r) = ')' :: stage11Go f r
                from by
              simp only [stage11Go]
              rw [if_pos trivial]
              simp only [hps]]
            rw [headNS_cons_nonspace hsp, headNS_cons_nonspace hsp]
          · rw [show stage11Go (f + 1) (')' :: r) =
                ')' :: '*' :: '(' :: stage11Go f t from by
              simp only [stage11Go]
              rw [if_pos trivial]
              simp only [hps]]
            rw [headNS_cons_nonspace hsp, headNS_cons_nonspace hsp]
        · rw [show stage11Go (f + 1) (c :: r) = c :: stage11Go f r from by
            simp only [stage11Go]
            rw [if_neg hcond]]
          rw [headNS_cons_nonspace hsp, headNS_cons_nonspace hsp]

theorem headNS_stage12Go (fuel : Nat) (l : Chars) :
    headNS (stage12Go fuel l) = headNS l := by
  induction fuel generalizing l with
  | zero =>
    cases l with
    | nil => rfl
    | cons c r => rfl
  | succ f ih =>
    cases l with
    | nil => rfl
    | cons c r =>
      by_cases hsp : isJsSpace c = true
      · have hcond : ¬(c = '(') := fun hcon => by
          rw [hcon] at hsp
          cases hsp
        unfold stage12Go
        rw [if_neg hcond]
        rw [headNS_cons_space hsp, headNS_cons_space hsp, ih]
      · rw [Bool.not_eq_true] at hsp
        by_cases hcond : c = '('
        · subst hcond
          rcases hps : coord3Body r with _ | ⟨n1, n2, n3, rest⟩
          · rw [show stage12Go (f + 1) ('(' :: r) = '(' :: stage12Go f r
                from by
              simp only [stage12Go]
              rw [if_pos trivial]
              simp only [hps]]
            rw [headNS_cons_nonspace hsp, headNS_cons_nonspace hsp]
          · rw [show stage12Go (f + 1) ('(' :: r) =
                '(' :: n1 ++ ',' :: ' ' :: n2 ++ ',' :: ' ' :: n3 ++ ')' ::
                  stage12Go f rest from by
              simp only [stage12Go]
              rw [if_pos trivial]
              simp only [hps]]
            rw [headNS_cons_nonspace hsp]
            rw [show ('(' :: n1 ++ ',' :: ' ' :: n2 ++ ',' :: ' ' :: n3 ++
              ')' :: stage12Go f rest) = '(' :: (n1 ++ ',' :: ' ' :: n2 ++
              ',' :: ' ' :: n3 ++ ')' :: stage12Go f rest) from rfl]
            rw [headNS_cons_nonspace hsp]
        · rw [show stage12Go (f + 1) (c :: r) = c :: stage12Go f r from by
            simp only [stage12Go]
            rw [if_neg hcond]]
          rw [headNS_cons_nonspace hsp, headNS_cons_nonspace hsp]

theorem headNS_stage13Go (fuel : Nat) (l : Chars) :
    headNS (stage13Go fuel l) = headNS l := by
  induction fuel generalizing l with
  | zero =>
    cases l with
    | nil => rfl
    | cons c r => rfl
  | succ f ih =>
    cases l with
    | nil => rfl
    | cons c r =>
      by_cases hsp : isJsSpace c = true
      · have hcond : ¬(c = '(') := fun hcon => by
          rw [hcon] at hsp
          cases hsp
        unfold stage13Go
        rw [if_neg hcond]
        rw [headNS_cons_space hsp, headNS_cons_space hsp, ih]
      · rw [Bool.not_eq_true] at hsp
        by_cases hcond : c = '('
        · subst hcond
          rcases hps : coord2Body r with _ | ⟨n1, n2, rest⟩
          · rw [show stage13Go (f + 1) ('(' :: r) = '(' :: stage13Go f r
                from by
              simp only [stage13Go]
              rw [if_pos trivial]
              simp only [hps]]
            rw [headNS_cons_nonspace hsp, headNS_cons_nonspace hsp]
          · rw [show stage13Go (f + 1) ('(' :: r) =
                '(' :: n1 ++ ',' :: ' ' :: n2 ++ ')' :: stage13Go f rest
                from by
              simp only [stage13Go]
              rw [if_pos trivial]
              simp only [hps]]
            rw [headNS_cons_nonspace hsp]
            rw [show ('(' :: n1 ++ ',' :: ' ' :: n2 ++ ')' ::
              stage13Go f rest) = '(' :: (n1 ++ ',' :: ' ' :: n2 ++ ')' ::
              stage13Go f rest) from rfl]
            rw [headNS_cons_nonspace hsp]
        · rw [show stage13Go (f + 1) (c :: r) = c :: stage13Go f r from by
            simp only [stage13Go]
            rw [if_neg hcond]]
          rw [headNS_cons_nonspace hsp, headNS_cons_nonspace hsp]

theorem headNS_collapseWs (b : Bool) (l : Chars) :
    headNS (collapseWs b l) = headNS l := by
  induction l generalizing b with
  | nil => rfl
  | cons c r ih =>
    by_cases hsp : isJsSpace c = true
    · unfold collapseWs
      rw [if_pos hsp]
      by_cases hb : b = true
      · rw [if_pos hb, headNS_cons_space hsp, ih]
      · rw [if_neg hb]
        rw [headNS_cons_space (show isJsSpace ' ' = true from rfl)]
        rw [headNS_cons_space hsp, ih]
    · rw [Bool.not_eq_true] at hsp
      unfold collapseWs
      rw [hsp]
      simp only [Bool.false_eq_true, if_false]
      rw [headNS_cons_nonspace hsp, headNS_cons_nonspace hsp]

/-! ### Utilities for the normal-form establishment and preservation -/

/-- The head of a list, if present, fails `p`. -/
def noHead (p : Char → Bool) : Chars → Bool
  | [] => true
  | c :: _ => !p c

theorem space_not_digit {c : Char} (h : isJsSpace c = true) :
    isDigitC c = false := by
  cases hd : isDigitC c
  · rfl
  · rw [digit_not_space hd] at h
    cases h

theorem space_not_word {c : Char} (h : isJsSpace c = true) :
    isWordC c = false := by
  have h48 : c.val.toNat < 48 ∨ 122 < c.val.toNat := by
    rcases space_val h with hv | hv | hv | hv | hv | hv | hv | hv |
      ⟨hv1, hv2⟩ | hv | hv | hv | hv | hv | hv <;> omega
  simp only [isWordC, isLetterC, isLowerAZ, isUpperAZ, isDigitC,
    Bool.or_eq_false_iff, Bool.and_eq_false_iff, decide_eq_false_iff_not]
  refine ⟨⟨⟨?_, ?_⟩, ?_⟩, ?_⟩
  · rcases h48 with h48 | h48
    · left
      intro hle
      have : (97 : Nat) ≤ c.val.toNat := by exact_mod_cast hle
      omega
    · right
      intro hle
      have : c.val.toNat ≤ (122 : Nat) := by exact_mod_cast hle
      omega
  · rcases h48 with h48 | h48
    · left
      intro hle
      have : (65 : Nat) ≤ c.val.toNat := by exact_mod_cast hle
      omega
    · right
      intro hle
      have : c.val.toNat ≤ (90 : Nat) := by exact_mod_cast hle
      omega
  · rcases h48 with h48 | h48
    · left
      intro hle
      have : (48 : Nat) ≤ c.val.toNat := by exact_mod_cast hle
      omega
    · right
      intro hle
      have : c.val.toNat ≤ (57 : Nat) := by exact_mod_cast hle
      omega
  · intro heq
    rw [heq] at h48
    revert h48
    decide

theorem headNS_append {l : Chars} {c : Char} (m : Chars)
    (h : headNS l = some c) : headNS (l ++ m) = some c := by
  induction l with
  | nil => cases h
  | cons a r ih =>
    by_cases hsp : isJsSpace a = true
    · rw [headNS_cons_space hsp] at h
      rw [List.cons_append, headNS_cons_space hsp]
      exact ih h
    · rw [Bool.not_eq_true] at hsp
      rw [headNS_cons_nonspace hsp] at h
      rw [List.cons_append, headNS_cons_nonspace hsp]
      exact h

theorem lookOp_append_true {l : Chars} (m : Chars) (h : lookOp l = true) :
    lookOp (l ++ m) = true := by
  rw [lookOp_eq_headNS] at h ⊢
  rcases hh : headNS l with _ | c
  · rw [hh] at h
    cases h
  · rw [hh] at h
    rw [headNS_append m hh]
    exact h

theorem lookOp_cons_nonspace {c : Char} {r : Chars}
    (h : isJsSpace c = false) : lookOp (c :: r) = opC c := by
  unfold lookOp
  rw [h]
  simp only [Bool.false_eq_true, if_false]
  rfl

theorem takeWhile_append_nh {p : Char → Bool} {l1 v : Chars}
    (h1 : ∀ a ∈ l1, p a = true) (hv : noHead p v = true) :
    (l1 ++ v).takeWhile p = l1 := by
  cases v with
  | nil => rw [List.append_nil, takeWhile_all h1]
  | cons c r =>
    simp only [noHead] at hv
    exact takeWhile_append_all h1 (bnot_true hv)

theorem dropWhile_append_nh {p : Char → Bool} {l1 v : Chars}
    (h1 : ∀ a ∈ l1, p a = true) (hv : noHead p v = true) :
    (l1 ++ v).dropWhile p = v := by
  cases v with
  | nil => rw [List.append_nil, dropWhile_all h1]
  | cons c r =>
    simp only [noHead] at hv
    exact dropWhile_append_all h1 (bnot_true hv)

theorem dropWhile_head_false (p : Char → Bool) (l : Chars) :
    noHead p (l.dropWhile p) = true := by
  induction l with
  | nil => rfl
  | cons c r ih =>
    rw [List.dropWhile_cons]
    by_cases hp : p c = true
    · rw [hp]
      simp only [if_true]
      exact ih
    · rw [Bool.not_eq_true] at hp
      rw [hp]
      simp only [Bool.false_eq_true, if_false, noHead, hp]
      rfl

theorem eatSp_append_sp {a : Chars} (m : Chars)
    (h : ∀ c ∈ a, isJsSpace c = true) : eatSp (a ++ m) = eatSp m := by
  induction a with
  | nil => rfl
  | cons c r ih =>
    simp only [eatSp, List.cons_append, List.dropWhile_cons,
      h c (List.mem_cons_self c r), if_true]
    exact ih (fun b hb => h b (List.mem_cons_of_mem c hb))

theorem eatSp_nh {m : Chars} (h : noHead isJsSpace m = true) :
    eatSp m = m := by
  cases m with
  | nil => rfl
  | cons c r =>
    simp only [noHead] at h
    simp only [eatSp, List.dropWhile_cons, bnot_true h]
    simp

theorem parenAfterSp_decomp {l t : Chars} (h : parenAfterSp l = some t) :
    ∃ a, (∀ c ∈ a, isJsSpace c = true) ∧ l = a ++ '(' :: t := by
  induction l with
  | nil => cases h
  | cons c r ih =>
    unfold parenAfterSp at h
    by_cases hsp : isJsSpace c = true
    · rw [if_pos hsp] at h
      obtain ⟨a, ha, heq⟩ := ih h
      refine ⟨c :: a, ?_, by rw [heq]; rfl⟩
      intro b hb
      rcases List.mem_cons.mp hb with hb | hb
      · rw [hb]; exact hsp
      · exact ha b hb
    · rw [Bool.not_eq_true] at hsp
      rw [hsp] at h
      simp only [Bool.false_eq_true, if_false] at h
      by_cases hp : c = '('
      · rw [if_pos hp] at h
        cases h
        refine ⟨[], ?_, ?_⟩
        · intro b hb
          cases hb
        · rw [hp]
          rfl
      · rw [if_neg hp] at h
        cases h

theorem digitAfterSp_decomp {l : Chars} {d : Char} {t : Chars}
    (h : digitAfterSp l = some (d, t)) :
    ∃ a, (∀ c ∈ a, isJsSpace c = true) ∧ isDigitC d = true ∧
      l = a ++ d :: t := by
  induction l with
  | nil => cases h
  | cons c r ih =>
    unfold digitAfterSp at h
    by_cases hsp : isJsSpace c = true
    · rw [if_pos hsp] at h
      obtain ⟨a, ha, hd, heq⟩ := ih h
      refine ⟨c :: a, ?_, hd, by rw [heq]; rfl⟩
      intro b hb
      rcases List.mem_cons.mp hb with hb | hb
      · rw [hb]; exact hsp
      · exact ha b hb
    · rw [Bool.not_eq_true] at hsp
      rw [hsp] at h
      simp only [Bool.false_eq_true, if_false] at h
      by_cases hd : isDigitC c = true
      · rw [if_pos hd] at h
        simp only [Option.some.injEq, Prod.mk.injEq] at h
        obtain ⟨h1, h2⟩ := h
        subst h1
        subst h2
        refine ⟨[], ?_, hd, rfl⟩
        intro b hb
        cases hb
      · rw [if_neg hd] at h
        cases h

theorem parenAfterSp_eval {a t : Chars}
    (h : ∀ c ∈ a, isJsSpace c = true) :
    parenAfterSp (a ++ '(' :: t) = some t := by
  induction a with
  | nil =>
    simp only [List.nil_append]
    unfold parenAfterSp
    rw [if_neg (by simp [isJsSpace]), if_pos rfl]
  | cons c r ih =>
    simp only [List.cons_append]
    unfold parenAfterSp
    rw [if_pos (h c (List.mem_cons_self c r))]
    exact ih (fun b hb => h b (List.mem_cons_of_mem c hb))

theorem digitAfterSp_eval {a : Chars} {d : Char} {t : Chars}
    (h : ∀ c ∈ a, isJsSpace c = true) (hd : isDigitC d = true) :
    digitAfterSp (a ++ d :: t) = some (d, t) := by
  induction a with
  | nil =>
    simp only [List.nil_append]
    unfold digitAfterSp
    rw [if_neg (by rw [digit_not_space hd]; simp), if_pos hd]
  | cons c r ih =>
    simp only [List.cons_append]
    unfold digitAfterSp
    rw [if_pos (h c (List.mem_cons_self c r))]
    exact ih (fun b hb => h b (List.mem_cons_of_mem c hb))

theorem parenAfterSp_cons_none {c : Char} {r : Chars}
    (hsp : isJsSpace c = false) (hp : c ≠ '(') :
    parenAfterSp (c :: r) = none := by
  unfold parenAfterSp
  rw [if_neg (by rw [hsp]; simp), if_neg hp]

theorem digitAfterSp_cons_none {c : Char} {r : Chars}
    (hsp : isJsSpace c = false) (hd : isDigitC c = false) :
    digitAfterSp (c :: r) = none := by
  unfold digitAfterSp
  rw [if_neg (by rw [hsp]; simp), if_neg (by rw [hd]; simp)]

/-! ### Suffix and prefix closure of the normality predicates -/

theorem NS9_append {a m : Chars} (h : NS9 (a ++ m) = true) : NS9 m = true := by
  induction a with
  | nil => exact h
  | cons c r ih =>
    simp only [List.cons_append, List.append_eq, NS9, Bool.and_eq_true] at h
    exact ih h.2

theorem NS10_append {a m : Chars} (h : NS10 (a ++ m) = true) :
    NS10 m = true := by
  induction a with
  | nil => exact h
  | cons c r ih =>
    simp only [List.cons_append, List.append_eq, NS10, Bool.and_eq_true] at h
    exact ih h.2

theorem NS11_append {a m : Chars} (h : NS11 (a ++ m) = true) :
    NS11 m = true := by
  induction a with
  | nil => exact h
  | cons c r ih =>
    simp only [List.cons_append, List.append_eq, NS11, Bool.and_eq_true] at h
    exact ih h.2

theorem NS12_append {a m : Chars} (h : NS12 (a ++ m) = true) :
    NS12 m = true := by
  induction a with
  | nil => exact h
  | cons c r ih =>
    simp only [List.cons_append, List.append_eq, NS12, Bool.and_eq_true] at h
    exact ih h.2

theorem NS13_append {a m : Chars} (h : NS13 (a ++ m) = true) :
    NS13 m = true := by
  induction a with
  | nil => exact h
  | cons c r ih =>
    simp only [List.cons_append, List.append_eq, NS13, Bool.and_eq_true] at h
    exact ih h.2

theorem NOcr_mono {tgt : Char} {p q : Option Char} {l : Chars}
    (himp : wdOpt q = true → wdOpt p = true) (h : NOcr tgt q l = true) :
    NOcr tgt p l = true := by
  cases l with
  | nil => rfl
  | cons c r =>
    simp only [List.cons_append, List.append_eq, NOcr, Bool.and_eq_true] at h
    simp only [NOcr, Bool.and_eq_true]
    refine ⟨?_, h.2⟩
    have h1 := h.1
    by_cases hwp : wdOpt p = true
    · simp [hwp]
    · have hwq : wdOpt q = false := by
        cases hq : wdOpt q
        · rfl
        · exact absurd (himp hq) hwp
      rw [Bool.not_eq_true] at hwp
      rw [hwq] at h1
      rw [hwp]
      exact h1

theorem NOcr_append {tgt : Char} {p : Option Char} {a : Chars} {x : Char}
    {m : Chars} (h : NOcr tgt p (a ++ x :: m) = true) :
    NOcr tgt (some x) m = true := by
  induction a generalizing p with
  | nil =>
    simp only [List.nil_append, List.append_eq, NOcr, Bool.and_eq_true] at h
    exact h.2
  | cons c r ih =>
    simp only [List.cons_append, List.append_eq, NOcr, Bool.and_eq_true] at h
    exact ih h.2

theorem NOcr_dropSp {tgt : Char} {q : Option Char} {a m : Chars}
    (ha : ∀ c ∈ a, isJsSpace c = true) (h : NOcr tgt q (a ++ m) = true) :
    NOcr tgt q m = true := by
  induction a generalizing q with
  | nil => exact h
  | cons c r ih =>
    simp only [List.cons_append, List.append_eq, NOcr, Bool.and_eq_true] at h
    have h2 := ih (fun b hb => ha b (List.mem_cons_of_mem c hb)) h.2
    refine NOcr_mono (fun hw => ?_) h2
    exfalso
    simp only [wdOpt] at hw
    rw [space_not_word (ha c (List.mem_cons_self c r))] at hw
    cases hw

theorem NWs_append {b : Bool} {a : Chars} {x : Char} {m : Chars}
    (h : NWs b (a ++ x :: m) = true) : NWs (isJsSpace x) m = true := by
  induction a generalizing b with
  | nil =>
    simp only [List.nil_append, List.append_eq, NWs] at h
    by_cases hx : isJsSpace x = true
    · rw [if_pos hx] at h
      rw [Bool.and_eq_true] at h
      rw [hx]
      exact h.2
    · rw [Bool.not_eq_true] at hx
      rw [hx] at h
      simp only [Bool.false_eq_true, if_false] at h
      rw [hx]
      exact h
  | cons c r ih =>
    simp only [List.cons_append, List.append_eq, NWs] at h
    by_cases hc : isJsSpace c = true
    · rw [if_pos hc] at h
      rw [Bool.and_eq_true] at h
      exact ih h.2
    · rw [Bool.not_eq_true] at hc
      rw [hc] at h
      simp only [Bool.false_eq_true, if_false] at h
      exact ih h

theorem NWs_true_to_false {l : Chars} (h : NWs true l = true) :
    NWs false l = true := by
  cases l with
  | nil => rfl
  | cons c r =>
    simp only [List.cons_append, List.append_eq, NWs] at h
    simp only [NWs]
    by_cases hc : isJsSpace c = true
    · rw [if_pos hc] at h
      simp at h
    · rw [Bool.not_eq_true] at hc
      rw [hc] at h ⊢
      simp only [Bool.false_eq_true, if_false] at h ⊢
      exact h

theorem NWs_prefix {b : Bool} {l s : Chars} (h : NWs b (l ++ s) = true) :
    NWs b l = true := by
  induction l generalizing b with
  | nil => rfl
  | cons c r ih =>
    simp only [List.cons_append, List.append_eq, NWs] at h
    simp only [NWs]
    by_cases hc : isJsSpace c = true
    · rw [if_pos hc] at h ⊢
      rw [Bool.and_eq_true] at h ⊢
      exact ⟨h.1, ih h.2⟩
    · rw [Bool.not_eq_true] at hc
      rw [hc] at h ⊢
      simp only [Bool.false_eq_true, if_false] at h ⊢
      exact ih h

theorem NS9_prefix {l s : Chars} (h : NS9 (l ++ s) = true) :
    NS9 l = true := by
  induction l with
  | nil => rfl
  | cons c r ih =>
    simp only [List.cons_append, List.append_eq, NS9, Bool.and_eq_true] at h
    simp only [NS9, Bool.and_eq_true]
    refine ⟨?_, ih h.2⟩
    by_cases hd : isDigitC c = true
    · rcases hp : parenAfterSp r with _ | t
      · simp [hp]
      · exfalso
        obtain ⟨a, ha, heq⟩ := parenAfterSp_decomp hp
        have hps : parenAfterSp (r ++ s) = some (t ++ s) := by
          rw [heq, List.append_assoc, List.cons_append]
          exact parenAfterSp_eval ha
        have h1 := h.1
        rw [hd, hps] at h1
        simp at h1
    · rw [Bool.not_eq_true] at hd
      rw [hd]
      simp

theorem NS10_prefix {l s : Chars} (h : NS10 (l ++ s) = true) :
    NS10 l = true := by
  induction l with
  | nil => rfl
  | cons c r ih =>
    simp only [List.cons_append, List.append_eq, NS10, Bool.and_eq_true] at h
    simp only [NS10, Bool.and_eq_true]
    refine ⟨?_, ih h.2⟩
    by_cases hc : c = ')'
    · rcases hp : digitAfterSp r with _ | ⟨d, t⟩
      · simp [hp]
      · exfalso
        obtain ⟨a, ha, hd, heq⟩ := digitAfterSp_decomp hp
        have hps : digitAfterSp (r ++ s) = some (d, t ++ s) := by
          rw [heq, List.append_assoc, List.cons_append]
          exact digitAfterSp_eval ha hd
        have h1 := h.1
        rw [hc, hps] at h1
        simp at h1
    · simp [hc]

theorem NS11_prefix {l s : Chars} (h : NS11 (l ++ s) = true) :
    NS11 l = true := by
  induction l with
  | nil => rfl
  | cons c r ih =>
    simp only [List.cons_append, List.append_eq, NS11, Bool.and_eq_true] at h
    simp only [NS11, Bool.and_eq_true]
    refine ⟨?_, ih h.2⟩
    by_cases hc : c = ')'
    · rcases hp : parenAfterSp r with _ | t
      · simp [hp]
      · exfalso
        obtain ⟨a, ha, heq⟩ := parenAfterSp_decomp hp
        have hps : parenAfterSp (r ++ s) = some (t ++ s) := by
          rw [heq, List.append_assoc, List.cons_append]
          exact parenAfterSp_eval ha
        have h1 := h.1
        rw [hc, hps] at h1
        simp at h1
    · simp [hc]

theorem NOcr_prefix {tgt : Char} {p : Option Char} {l s : Chars}
    (h : NOcr tgt p (l ++ s) = true) : NOcr tgt p l = true := by
  induction l generalizing p with
  | nil => rfl
  | cons c r ih =>
    simp only [List.cons_append, List.append_eq, NOcr, Bool.and_eq_true] at h
    simp only [NOcr, Bool.and_eq_true]
    refine ⟨?_, ih h.2⟩
    by_cases hlo : lookOp r = true
    · have h1 := h.1
      rw [lookOp_append_true s hlo] at h1
      rw [hlo]
      exact h1
    · rw [Bool.not_eq_true] at hlo
      rw [hlo]
      simp

/-! ### Walking a normality predicate over emitted segments -/

theorem NS10_chain {a X : Chars} (ha : ∀ c ∈ a, c ≠ ')')
    (h : NS10 X = true) : NS10 (a ++ X) = true := by
  induction a with
  | nil => exact h
  | cons c r ih =>
    simp only [List.cons_append, List.append_eq, NS10, Bool.and_eq_true]
    refine ⟨?_, ih (fun b hb => ha b (List.mem_cons_of_mem c hb))⟩
    rw [decide_eq_false (ha c (List.mem_cons_self c r))]
    simp

theorem NS11_chain {a X : Chars} (ha : ∀ c ∈ a, c ≠ ')')
    (h : NS11 X = true) : NS11 (a ++ X) = true := by
  induction a with
  | nil => exact h
  | cons c r ih =>
    simp only [List.cons_append, List.append_eq, NS11, Bool.and_eq_true]
    refine ⟨?_, ih (fun b hb => ha b (List.mem_cons_of_mem c hb))⟩
    rw [decide_eq_false (ha c (List.mem_cons_self c r))]
    simp

theorem NS12_chain {a X : Chars} (ha : ∀ c ∈ a, c ≠ '(')
    (h : NS12 X = true) : NS12 (a ++ X) = true := by
  induction a with
  | nil => exact h
  | cons c r ih =>
    simp only [List.cons_append, List.append_eq, NS12, Bool.and_eq_true]
    refine ⟨?_, ih (fun b hb => ha b (List.mem_cons_of_mem c hb))⟩
    rw [decide_eq_false (ha c (List.mem_cons_self c r))]
    simp

theorem NS13_chain {a X : Chars} (ha : ∀ c ∈ a, c ≠ '(')
    (h : NS13 X = true) : NS13 (a ++ X) = true := by
  induction a with
  | nil => exact h
  | cons c r ih =>
    simp only [List.cons_append, List.append_eq, NS13, Bool.and_eq_true]
    refine ⟨?_, ih (fun b hb => ha b (List.mem_cons_of_mem c hb))⟩
    rw [decide_eq_false (ha c (List.mem_cons_self c r))]
    simp

theorem NOcr_chain {tgt y : Char} {p : Option Char} {a X : Chars}
    (ha : ∀ c ∈ a, c ≠ tgt) (hy : y ≠ tgt)
    (h : NOcr tgt (some y) X = true) : NOcr tgt p (a ++ y :: X) = true := by
  induction a generalizing p with
  | nil =>
    simp only [List.nil_append, List.append_eq, NOcr, Bool.and_eq_true]
    refine ⟨?_, h⟩
    rw [decide_eq_false hy]
    simp
  | cons c r ih =>
    simp only [List.cons_append, List.append_eq, NOcr, Bool.and_eq_true]
    refine ⟨?_, ih (fun b hb => ha b (List.mem_cons_of_mem c hb))⟩
    rw [decide_eq_false (ha c (List.mem_cons_self c r))]
    simp

theorem NS9_tok {n X : Chars}
    (hn : ∀ c ∈ n, isJsSpace c = false ∧ c ≠ '(')
    (hX : parenAfterSp X = none) (h : NS9 X = true) :
    NS9 (n ++ X) = true := by
  induction n with
  | nil => exact h
  | cons c r ih =>
    simp only [List.cons_append, List.append_eq, NS9, Bool.and_eq_true]
    refine ⟨?_, ih (fun b hb => hn b (List.mem_cons_of_mem c hb))⟩
    have hnone : parenAfterSp (r ++ X) = none := by
      cases r with
      | nil => exact hX
      | cons c2 r2 =>
        obtain ⟨hs2, hp2⟩ := hn c2 (List.mem_cons_of_mem c
          (List.mem_cons_self c2 r2))
        exact parenAfterSp_cons_none hs2 hp2
    rw [hnone]
    simp

theorem NWs_nonsp_chain {n X : Chars}
    (hn : ∀ c ∈ n, isJsSpace c = false) (hne : n ≠ [])
    (h : NWs false X = true) : ∀ b, NWs b (n ++ X) = true := by
  induction n with
  | nil => exact absurd rfl hne
  | cons c r ih =>
    intro b
    simp only [List.cons_append, List.append_eq, NWs]
    rw [hn c (List.mem_cons_self c r)]
    simp only [Bool.false_eq_true, if_false]
    cases r with
    | nil => exact h
    | cons c2 r2 =>
      exact ih (fun b hb => hn b (List.mem_cons_of_mem c hb))
        (by simp) false

/-! ### Dissection and replay of the coordinate matchers -/

theorem digitsTok_decomp {sgn r n rest : Chars}
    (h : digitsTok sgn r = some (n, rest)) :
    n = sgn ++ r.takeWhile isDigitC ∧ rest = r.dropWhile isDigitC ∧
    r.takeWhile isDigitC ≠ [] := by
  unfold digitsTok at h
  split at h
  · cases h
  · rename_i hne
    simp only [Option.some.injEq, Prod.mk.injEq] at h
    refine ⟨h.1.symm, h.2.symm, ?_⟩
    intro hcon
    rw [hcon] at hne
    exact hne rfl

/-- A well-formed signed-integer token: nonempty, sign/digit characters
only, and the scan re-accepts it in front of any continuation that does
not begin with a digit. -/
def tokOk (n : Chars) : Prop :=
  n ≠ [] ∧ (∀ c ∈ n, c = '+' ∨ c = '-' ∨ isDigitC c = true) ∧
  ∀ v, noHead isDigitC v = true → signedIntHere (n ++ v) = some (n, v)

theorem tok_char_nonspace {c : Char}
    (h : c = '+' ∨ c = '-' ∨ isDigitC c = true) : isJsSpace c = false := by
  rcases h with h | h | h
  · rw [h]
    decide
  · rw [h]
    decide
  · exact digit_not_space h

theorem digitsTok_replay {sgn w : Chars}
    (hsgn : sgn = [] ∨ sgn = ['+'] ∨ sgn = ['-'])
    (hw : ∀ c ∈ w, isDigitC c = true) (hne : w ≠ [])
    (v : Chars) (hv : noHead isDigitC v = true) :
    digitsTok sgn (w ++ v) = some (sgn ++ w, v) := by
  unfold digitsTok
  rw [takeWhile_append_nh hw hv, dropWhile_append_nh hw hv]
  rw [if_neg (by simpa using hne)]

theorem signedIntHere_decomp {l n r : Chars}
    (h : signedIntHere l = some (n, r)) :
    tokOk n ∧ l = n ++ r ∧ noHead isDigitC r = true := by
  unfold signedIntHere at h
  split at h
  · rename_i r0
    obtain ⟨hn, hrest, htw⟩ := digitsTok_decomp h
    have hdig : ∀ c ∈ r0.takeWhile isDigitC, isDigitC c = true :=
      fun c hc => List.mem_takeWhile_imp hc
    subst hn
    subst hrest
    refine ⟨⟨by simp, ?_, ?_⟩, ?_, ?_⟩
    · intro c hc
      rcases List.mem_append.mp hc with hc | hc
      · left
        simpa using hc
      · right
        right
        exact hdig c hc
    · intro v hv
      rw [List.append_assoc]
      simp only [List.singleton_append, List.cons_append, signedIntHere]
      exact digitsTok_replay (Or.inr (Or.inl rfl)) hdig htw v hv
    · simp only [List.singleton_append, List.cons_append]
      rw [← List.takeWhile_append_dropWhile isDigitC r0]
      simp
    · exact dropWhile_head_false isDigitC r0
  · rename_i r0
    obtain ⟨hn, hrest, htw⟩ := digitsTok_decomp h
    have hdig : ∀ c ∈ r0.takeWhile isDigitC, isDigitC c = true :=
      fun c hc => List.mem_takeWhile_imp hc
    subst hn
    subst hrest
    refine ⟨⟨by simp, ?_, ?_⟩, ?_, ?_⟩
    · intro c hc
      rcases List.mem_append.mp hc with hc | hc
      · right
        left
        simpa using hc
      · right
        right
        exact hdig c hc
    · intro v hv
      rw [List.append_assoc]
      simp only [List.singleton_append, List.cons_append, signedIntHere]
      exact digitsTok_replay (Or.inr (Or.inr rfl)) hdig htw v hv
    · simp only [List.singleton_append, List.cons_append]
      rw [← List.takeWhile_append_dropWhile isDigitC r0]
      simp
    · exact dropWhile_head_false isDigitC r0
  · obtain ⟨hn, hrest, htw⟩ := digitsTok_decomp h
    rw [List.nil_append] at hn
    have hdig : ∀ c ∈ n, isDigitC c = true := by
      rw [hn]
      exact fun c hc => List.mem_takeWhile_imp hc
    have hne : n ≠ [] := by
      rw [hn]
      exact htw
    refine ⟨⟨hne, fun c hc => Or.inr (Or.inr (hdig c hc)), ?_⟩, ?_, ?_⟩
    · intro v hv
      obtain ⟨hh, tl, hcons⟩ : ∃ hh tl, n = hh :: tl := by
        cases hx : n with
        | nil => exact absurd hx hne
        | cons a b => exact ⟨a, b, rfl⟩
      have hhd : isDigitC hh = true := by
        refine hdig hh ?_
        rw [hcons]
        exact List.mem_cons_self hh tl
      have hw : ∀ c ∈ hh :: tl, isDigitC c = true :=
        fun c hc => hdig c (by rw [hcons]; exact hc)
      rw [hcons, List.cons_append]
      unfold signedIntHere
      split
      · rename_i r' heq
        rw [List.cons.injEq] at heq
        rw [heq.1] at hhd
        exact absurd hhd (by decide)
      · rename_i r' heq
        rw [List.cons.injEq] at heq
        rw [heq.1] at hhd
        exact absurd hhd (by decide)
      · rw [← List.cons_append]
        simpa using digitsTok_replay (Or.inl rfl) hw (by simp) v hv
    · rw [hn, hrest]
      rw [List.takeWhile_append_dropWhile]
    · rw [hrest]
      exact dropWhile_head_false isDigitC l

theorem tok_head_nonspace {n v : Chars} (ht : tokOk n) :
    noHead isJsSpace (n ++ v) = true := by
  obtain ⟨hne, hmem, -⟩ := ht
  cases hx : n with
  | nil => exact absurd hx hne
  | cons a b =>
    simp only [List.cons_append, noHead]
    rw [tok_char_nonspace (hmem a (by rw [hx]; exact List.mem_cons_self a b))]
    rfl

theorem eatSp_tok {n v : Chars} (ht : tokOk n) :
    eatSp (n ++ v) = n ++ v :=
  eatSp_nh (tok_head_nonspace ht)

theorem eatChar_some {ch : Char} {l r : Chars} (h : eatChar ch l = some r) :
    l = ch :: r := by
  cases l with
  | nil => cases h
  | cons c cs =>
    simp only [eatChar] at h
    split at h
    · rename_i hc
      cases h
      rw [hc]
    · cases h

theorem noHead_sp_cons {s : Chars} {x : Char} {u : Chars}
    (hs : ∀ c ∈ s, isJsSpace c = true) (hx : isDigitC x = false) :
    noHead isDigitC (s ++ x :: u) = true := by
  cases s with
  | nil =>
    simp only [List.nil_append, noHead]
    rw [hx]
    rfl
  | cons a b =>
    simp only [List.cons_append, noHead]
    rw [space_not_digit (hs a (List.mem_cons_self a b))]
    rfl

theorem coord3Body_decomp {l n1 n2 n3 rest : Chars}
    (h : coord3Body l = some (n1, n2, n3, rest)) :
    ∃ w, l = w ++ ')' :: rest ∧
      (∀ c ∈ w, isJsSpace c = true ∨ c = '+' ∨ c = '-' ∨
        isDigitC c = true) ∧
      tokOk n1 ∧ tokOk n2 ∧ tokOk n3 ∧
      ∀ u, coord3Body (w ++ ')' :: u) = some (n1, n2, n3, u) := by
  unfold coord3Body at h
  split at h
  · cases h
  · rename_i n1' r heq1
    split at h
    · cases h
    · rename_i c r2
      split at h
      · rename_i hc
        split at h
        · cases h
        · rename_i n2' r3 heq2
          split at h
          · cases h
          · rename_i d r4
            split at h
            · rename_i hd
              split at h
              · cases h
              · rename_i n3' r5 heq3
                split at h
                · cases h
                · rename_i r6 heq4
                  simp only [Option.some.injEq, Prod.mk.injEq] at h
                  obtain ⟨e1, e2, e3, e4⟩ := h
                  subst n1'
                  subst n2'
                  subst n3'
                  subst r6
                  obtain ⟨ht1, heqL1, hnb1⟩ := signedIntHere_decomp heq1
                  obtain ⟨ht2, heqL2, hnb2⟩ := signedIntHere_decomp heq2
                  obtain ⟨ht3, heqL3, hnb3⟩ := signedIntHere_decomp heq3
                  simp only [eatSp] at heqL1 heqL2 heqL3
                  have hp5 : eatSp r5 = ')' :: rest := eatChar_some heq4
                  simp only [eatSp] at hp5
                  have hs0 : ∀ x ∈ l.takeWhile isJsSpace,
                      isJsSpace x = true :=
                    fun x hx => List.mem_takeWhile_imp hx
                  have hs1 : ∀ x ∈ r2.takeWhile isJsSpace,
                      isJsSpace x = true :=
                    fun x hx => List.mem_takeWhile_imp hx
                  have hs2 : ∀ x ∈ r4.takeWhile isJsSpace,
                      isJsSpace x = true :=
                    fun x hx => List.mem_takeWhile_imp hx
                  have hs3 : ∀ x ∈ r5.takeWhile isJsSpace,
                      isJsSpace x = true :=
                    fun x hx => List.mem_takeWhile_imp hx
                  have hL : l = l.takeWhile isJsSpace ++ (n1 ++ c :: r2) := by
                    conv_lhs =>
                      rw [← List.takeWhile_append_dropWhile isJsSpace l]
                    rw [heqL1]
                  have hR2 : r2 =
                      r2.takeWhile isJsSpace ++ (n2 ++ d :: r4) := by
                    conv_lhs =>
                      rw [← List.takeWhile_append_dropWhile isJsSpace r2]
                    rw [heqL2]
                  have hR4 : r4 =
                      r4.takeWhile isJsSpace ++ (n3 ++ r5) := by
                    conv_lhs =>
                      rw [← List.takeWhile_append_dropWhile isJsSpace r4]
                    rw [heqL3]
                  have hR5 : r5 =
                      r5.takeWhile isJsSpace ++ ')' :: rest := by
                    conv_lhs =>
                      rw [← List.takeWhile_append_dropWhile isJsSpace r5]
                    rw [hp5]
                  refine ⟨l.takeWhile isJsSpace ++ (n1 ++ (c ::
                    (r2.takeWhile isJsSpace ++ (n2 ++ (d ::
                    (r4.takeWhile isJsSpace ++ (n3 ++
                    r5.takeWhile isJsSpace))))))), ?_, ?_, ht1, ht2, ht3,
                    ?_⟩
                  · conv_lhs => rw [hL, hR2, hR4, hR5]
                    simp [List.append_assoc]
                  · intro x hx
                    simp only [List.mem_append, List.mem_cons] at hx
                    rcases hx with hx | hx | hx | hx | hx | hx | hx | hx |
                      hx
                    · exact Or.inl (hs0 x hx)
                    · exact Or.inr (ht1.2.1 x hx)
                    · rw [hx]
                      exact Or.inl hc
                    · exact Or.inl (hs1 x hx)
                    · exact Or.inr (ht2.2.1 x hx)
                    · rw [hx]
                      exact Or.inl hd
                    · exact Or.inl (hs2 x hx)
                    · exact Or.inr (ht3.2.1 x hx)
                    · exact Or.inl (hs3 x hx)
                  · intro u
                    have hform : (l.takeWhile isJsSpace ++ (n1 ++ (c ::
                        (r2.takeWhile isJsSpace ++ (n2 ++ (d ::
                        (r4.takeWhile isJsSpace ++ (n3 ++
                        r5.takeWhile isJsSpace)))))))) ++ ')' :: u =
                        l.takeWhile isJsSpace ++ (n1 ++ (c ::
                        (r2.takeWhile isJsSpace ++ (n2 ++ (d ::
                        (r4.takeWhile isJsSpace ++ (n3 ++
                        (r5.takeWhile isJsSpace ++ ')' :: u)))))))) := by
                      simp [List.append_assoc]
                    rw [hform]
                    unfold coord3Body
                    have ev1 : signedIntHere (eatSp
                        (l.takeWhile isJsSpace ++ (n1 ++ (c ::
                        (r2.takeWhile isJsSpace ++ (n2 ++ (d ::
                        (r4.takeWhile isJsSpace ++ (n3 ++
                        (r5.takeWhile isJsSpace ++ ')' :: u)))))))))) =
                        some (n1, c :: (r2.takeWhile isJsSpace ++ (n2 ++
                        (d :: (r4.takeWhile isJsSpace ++ (n3 ++
                        (r5.takeWhile isJsSpace ++ ')' :: u))))))) := by
                      rw [eatSp_append_sp _ hs0, eatSp_tok ht1]
                      refine ht1.2.2 _ ?_
                      simp only [noHead]
                      rw [space_not_digit hc]
                      rfl
                    simp only [ev1]
                    rw [if_pos hc]
                    have ev2 : signedIntHere (eatSp
                        (r2.takeWhile isJsSpace ++ (n2 ++ (d ::
                        (r4.takeWhile isJsSpace ++ (n3 ++
                        (r5.takeWhile isJsSpace ++ ')' :: u))))))) =
                        some (n2, d :: (r4.takeWhile isJsSpace ++ (n3 ++
                        (r5.takeWhile isJsSpace ++ ')' :: u)))) := by
                      rw [eatSp_append_sp _ hs1, eatSp_tok ht2]
                      refine ht2.2.2 _ ?_
                      simp only [noHead]
                      rw [space_not_digit hd]
                      rfl
                    simp only [ev2]
                    rw [if_pos hd]
                    have ev3 : signedIntHere (eatSp
                        (r4.takeWhile isJsSpace ++ (n3 ++
                        (r5.takeWhile isJsSpace ++ ')' :: u)))) =
                        some (n3, r5.takeWhile isJsSpace ++ ')' :: u) := by
                      rw [eatSp_append_sp _ hs2, eatSp_tok ht3]
                      refine ht3.2.2 _ ?_
                      exact noHead_sp_cons hs3 (by decide)
                    simp only [ev3]
                    have ev4 : eatChar ')'
                        (eatSp (r5.takeWhile isJsSpace ++ ')' :: u)) =
                        some u := by
                      rw [show eatSp (r5.takeWhile isJsSpace ++ ')' :: u) =
                        ')' :: u from dropWhile_append_all hs3 (by decide)]
                      rfl
                    simp only [ev4]
            · cases h
      · cases h

theorem coord2Body_decomp {l n1 n2 rest : Chars}
    (h : coord2Body l = some (n1, n2, rest)) :
    ∃ w, l = w ++ ')' :: rest ∧
      (∀ c ∈ w, isJsSpace c = true ∨ c = '+' ∨ c = '-' ∨
        isDigitC c = true) ∧
      tokOk n1 ∧ tokOk n2 ∧
      ∀ u, coord2Body (w ++ ')' :: u) = some (n1, n2, u) := by
  unfold coord2Body at h
  split at h
  · cases h
  · rename_i n1' r heq1
    split at h
    · cases h
    · rename_i c r2
      split at h
      · rename_i hc
        split at h
        · cases h
        · rename_i n2' r3 heq2
          split at h
          · cases h
          · rename_i r4 heq3
            simp only [Option.some.injEq, Prod.mk.injEq] at h
            obtain ⟨e1, e2, e3⟩ := h
            subst n1'
            subst n2'
            subst r4
            obtain ⟨ht1, heqL1, hnb1⟩ := signedIntHere_decomp heq1
            obtain ⟨ht2, heqL2, hnb2⟩ := signedIntHere_decomp heq2
            simp only [eatSp] at heqL1 heqL2
            have hp3 : eatSp r3 = ')' :: rest := eatChar_some heq3
            simp only [eatSp] at hp3
            have hs0 : ∀ x ∈ l.takeWhile isJsSpace, isJsSpace x = true :=
              fun x hx => List.mem_takeWhile_imp hx
            have hs1 : ∀ x ∈ r2.takeWhile isJsSpace, isJsSpace x = true :=
              fun x hx => List.mem_takeWhile_imp hx
            have hs3 : ∀ x ∈ r3.takeWhile isJsSpace, isJsSpace x = true :=
              fun x hx => List.mem_takeWhile_imp hx
            have hL : l = l.takeWhile isJsSpace ++ (n1 ++ c :: r2) := by
              conv_lhs =>
                rw [← List.takeWhile_append_dropWhile isJsSpace l]
              rw [heqL1]
            have hR2 : r2 = r2.takeWhile isJsSpace ++ (n2 ++ r3) := by
              conv_lhs =>
                rw [← List.takeWhile_append_dropWhile isJsSpace r2]
              rw [heqL2]
            have hR3 : r3 = r3.takeWhile isJsSpace ++ ')' :: rest := by
              conv_lhs =>
                rw [← List.takeWhile_append_dropWhile isJsSpace r3]
              rw [hp3]
            refine ⟨l.takeWhile isJsSpace ++ (n1 ++ (c ::
              (r2.takeWhile isJsSpace ++ (n2 ++
              r3.takeWhile isJsSpace)))), ?_, ?_, ht1, ht2, ?_⟩
            · conv_lhs => rw [hL, hR2, hR3]
              simp [List.append_assoc]
            · intro x hx
              simp only [List.mem_append, List.mem_cons] at hx
              rcases hx with hx | hx | hx | hx | hx | hx
              · exact Or.inl (hs0 x hx)
              · exact Or.inr (ht1.2.1 x hx)
              · rw [hx]
                exact Or.inl hc
              · exact Or.inl (hs1 x hx)
              · exact Or.inr (ht2.2.1 x hx)
              · exact Or.inl (hs3 x hx)
            · intro u
              have hform : (l.takeWhile isJsSpace ++ (n1 ++ (c ::
                  (r2.takeWhile isJsSpace ++ (n2 ++
                  r3.takeWhile isJsSpace))))) ++ ')' :: u =
                  l.takeWhile isJsSpace ++ (n1 ++ (c ::
                  (r2.takeWhile isJsSpace ++ (n2 ++
                  (r3.takeWhile isJsSpace ++ ')' :: u))))) := by
                simp [List.append_assoc]
              rw [hform]
              unfold coord2Body
              have ev1 : signedIntHere (eatSp
                  (l.takeWhile isJsSpace ++ (n1 ++ (c ::
                  (r2.takeWhile isJsSpace ++ (n2 ++
                  (r3.takeWhile isJsSpace ++ ')' :: u))))))) =
                  some (n1, c :: (r2.takeWhile isJsSpace ++ (n2 ++
                  (r3.takeWhile isJsSpace ++ ')' :: u)))) := by
                rw [eatSp_append_sp _ hs0, eatSp_tok ht1]
                refine ht1.2.2 _ ?_
                simp only [noHead]
                rw [space_not_digit hc]
                rfl
              simp only [ev1]
              rw [if_pos hc]
              have ev2 : signedIntHere (eatSp
                  (r2.takeWhile isJsSpace ++ (n2 ++
                  (r3.takeWhile isJsSpace ++ ')' :: u)))) =
                  some (n2, r3.takeWhile isJsSpace ++ ')' :: u) := by
                rw [eatSp_append_sp _ hs1, eatSp_tok ht2]
                refine ht2.2.2 _ ?_
                exact noHead_sp_cons hs3 (by decide)
              simp only [ev2]
              have ev3 : eatChar ')'
                  (eatSp (r3.takeWhile isJsSpace ++ ')' :: u)) =
                  some u := by
                rw [show eatSp (r3.takeWhile isJsSpace ++ ')' :: u) =
                  ')' :: u from dropWhile_append_all hs3 (by decide)]
                rfl
              simp only [ev3]
      · cases h

theorem coord3_tok_comma {n z : Chars} (ht : tokOk n) :
    coord3Body (n ++ ',' :: z) = none := by
  unfold coord3Body
  have ev1 : signedIntHere (eatSp (n ++ ',' :: z)) =
      some (n, ',' :: z) := by
    rw [eatSp_tok ht]
    refine ht.2.2 _ ?_
    rw [show noHead isDigitC (',' :: z) = !isDigitC ',' from rfl]
    decide
  simp only [ev1]
  rw [if_neg (by decide)]

theorem coord2_tok_comma {n z : Chars} (ht : tokOk n) :
    coord2Body (n ++ ',' :: z) = none := by
  unfold coord2Body
  have ev1 : signedIntHere (eatSp (n ++ ',' :: z)) =
      some (n, ',' :: z) := by
    rw [eatSp_tok ht]
    refine ht.2.2 _ ?_
    rw [show noHead isDigitC (',' :: z) = !isDigitC ',' from rfl]
    decide
  simp only [ev1]
  rw [if_neg (by decide)]

theorem NS12_prefix {l s : Chars} (h : NS12 (l ++ s) = true) :
    NS12 l = true := by
  induction l with
  | nil => rfl
  | cons c r ih =>
    simp only [List.cons_append, List.append_eq, NS12, Bool.and_eq_true]
      at h
    simp only [NS12, Bool.and_eq_true]
    refine ⟨?_, ih h.2⟩
    by_cases hc : c = '('
    · rcases hp : coord3Body r with _ | ⟨⟨na, nb, nc2, t⟩⟩
      · simp [hp]
      · exfalso
        obtain ⟨w, heq, -, -, -, -, hrep⟩ := coord3Body_decomp hp
        have hps : coord3Body (r ++ s) = some (na, nb, nc2, t ++ s) := by
          rw [heq, List.append_assoc, List.cons_append]
          exact hrep (t ++ s)
        have h1 := h.1
        rw [hc, hps] at h1
        simp at h1
    · simp [hc]

theorem NS13_prefix {l s : Chars} (h : NS13 (l ++ s) = true) :
    NS13 l = true := by
  induction l with
  | nil => rfl
  | cons c r ih =>
    simp only [List.cons_append, List.append_eq, NS13, Bool.and_eq_true]
      at h
    simp only [NS13, Bool.and_eq_true]
    refine ⟨?_, ih h.2⟩
    by_cases hc : c = '('
    · rcases hp : coord2Body r with _ | ⟨⟨na, nb, t⟩⟩
      · simp [hp]
      · exfalso
        obtain ⟨w, heq, -, -, -, hrep⟩ := coord2Body_decomp hp
        have hps : coord2Body (r ++ s) = some (na, nb, t ++ s) := by
          rw [heq, List.append_assoc, List.cons_append]
          exact hrep (t ++ s)
        have h1 := h.1
        rw [hc, hps] at h1
        simp at h1
    · simp [hc]

theorem stage12Go_copy {fuel : Nat} {r w rest : Chars}
    (h : stage12Go fuel r = w ++ rest) (hw : ∀ c ∈ w, c ≠ '(') :
    ∃ y, r = w ++ y := by
  induction fuel generalizing r w rest with
  | zero =>
    cases r with
    | nil =>
      have hw0 : w = [] := by
        have hx : w ++ rest = [] := h.symm.trans rfl
        rw [List.append_eq_nil] at hx
        exact hx.1
      subst hw0
      exact ⟨[], rfl⟩
    | cons c rr => exact ⟨rest, h⟩
  | succ f ih =>
    cases r with
    | nil =>
      have hw0 : w = [] := by
        have hx : w ++ rest = [] := h.symm.trans rfl
        rw [List.append_eq_nil] at hx
        exact hx.1
      subst hw0
      exact ⟨[], rfl⟩
    | cons c rr =>
      by_cases hc : c = '('
      · subst hc
        have hhead : ∃ X, stage12Go (f + 1) ('(' :: rr) = '(' :: X := by
          rcases hps : coord3Body rr with _ | ⟨⟨na, nb, nc2, t⟩⟩
          · refine ⟨stage12Go f rr, ?_⟩
            simp only [stage12Go]
            rw [if_pos trivial]
            simp only [hps]
          · refine ⟨na ++ ',' :: ' ' :: nb ++ ',' :: ' ' :: nc2 ++ ')' ::
              stage12Go f t, ?_⟩
            simp only [stage12Go]
            rw [if_pos trivial]
            simp only [hps]
            simp
        obtain ⟨X, hX⟩ := hhead
        rw [hX] at h
        cases w with
        | nil => exact ⟨'(' :: rr, rfl⟩
        | cons c2 w2 =>
          rw [List.cons_append, List.cons.injEq] at h
          exact absurd h.1.symm (hw c2 (List.mem_cons_self c2 w2))
      · have hstep : stage12Go (f + 1) (c :: rr) = c :: stage12Go f rr := by
          simp only [stage12Go]
          rw [if_neg hc]
        rw [hstep] at h
        cases w with
        | nil => exact ⟨c :: rr, rfl⟩
        | cons c2 w2 =>
          rw [List.cons_append, List.cons.injEq] at h
          obtain ⟨hc2, hrest2⟩ := h
          obtain ⟨y, hy⟩ := ih hrest2
            (fun b hb => hw b (List.mem_cons_of_mem c2 hb))
          refine ⟨y, ?_⟩
          rw [List.cons_append, hc2, hy]

theorem stage13Go_copy {fuel : Nat} {r w rest : Chars}
    (h : stage13Go fuel r = w ++ rest) (hw : ∀ c ∈ w, c ≠ '(') :
    ∃ y, r = w ++ y := by
  induction fuel generalizing r w rest with
  | zero =>
    cases r with
    | nil =>
      have hw0 : w = [] := by
        have hx : w ++ rest = [] := h.symm.trans rfl
        rw [List.append_eq_nil] at hx
        exact hx.1
      subst hw0
      exact ⟨[], rfl⟩
    | cons c rr => exact ⟨rest, h⟩
  | succ f ih =>
    cases r with
    | nil =>
      have hw0 : w = [] := by
        have hx : w ++ rest = [] := h.symm.trans rfl
        rw [List.append_eq_nil] at hx
        exact hx.1
      subst hw0
      exact ⟨[], rfl⟩
    | cons c rr =>
      by_cases hc : c = '('
      · subst hc
        have hhead : ∃ X, stage13Go (f + 1) ('(' :: rr) = '(' :: X := by
          rcases hps : coord2Body rr with _ | ⟨⟨na, nb, t⟩⟩
          · refine ⟨stage13Go f rr, ?_⟩
            simp only [stage13Go]
            rw [if_pos trivial]
            simp only [hps]
          · refine ⟨na ++ ',' :: ' ' :: nb ++ ')' :: stage13Go f t, ?_⟩
            simp only [stage13Go]
            rw [if_pos trivial]
            simp only [hps]
            simp
        obtain ⟨X, hX⟩ := hhead
        rw [hX] at h
        cases w with
        | nil => exact ⟨'(' :: rr, rfl⟩
        | cons c2 w2 =>
          rw [List.cons_append, List.cons.injEq] at h
          exact absurd h.1.symm (hw c2 (List.mem_cons_self c2 w2))
      · have hstep : stage13Go (f + 1) (c :: rr) = c :: stage13Go f rr := by
          simp only [stage13Go]
          rw [if_neg hc]
        rw [hstep] at h
        cases w with
        | nil => exact ⟨c :: rr, rfl⟩
        | cons c2 w2 =>
          rw [List.cons_append, List.cons.injEq] at h
          obtain ⟨hc2, hrest2⟩ := h
          obtain ⟨y, hy⟩ := ih hrest2
            (fun b hb => hw b (List.mem_cons_of_mem c2 hb))
          refine ⟨y, ?_⟩
          rw [List.cons_append, hc2, hy]

theorem NWs_dropSp {a m : Chars} (ha : ∀ c ∈ a, isJsSpace c = true)
    (h : NWs false (a ++ m) = true) : NWs false m = true := by
  induction a with
  | nil => exact h
  | cons c r ih =>
    simp only [List.cons_append, List.append_eq, NWs] at h
    rw [if_pos (ha c (List.mem_cons_self c r))] at h
    rw [Bool.and_eq_true] at h
    exact ih (fun b hb => ha b (List.mem_cons_of_mem c hb))
      (NWs_true_to_false h.2)

theorem trim_pres (P : Chars → Bool)
    (hsuf : ∀ a m, (∀ c ∈ a, isJsSpace c = true) → P (a ++ m) = true →
      P m = true)
    (hpre : ∀ m s, (∀ c ∈ s, isJsSpace c = true) → P (m ++ s) = true →
      P m = true)
    {l : Chars} (h : P l = true) : P (trimL l) = true := by
  have h1 : P (l.dropWhile isJsSpace) = true := by
    refine hsuf (l.takeWhile isJsSpace) _
      (fun c hc => List.mem_takeWhile_imp hc) ?_
    rw [List.takeWhile_append_dropWhile]
    exact h
  have hdl : l.dropWhile isJsSpace =
      ((l.dropWhile isJsSpace).reverse.dropWhile isJsSpace).reverse ++
      ((l.dropWhile isJsSpace).reverse.takeWhile isJsSpace).reverse := by
    conv_lhs =>
      rw [← List.reverse_reverse (l.dropWhile isJsSpace)]
      rw [← List.takeWhile_append_dropWhile isJsSpace
        (l.dropWhile isJsSpace).reverse]
    rw [List.reverse_append]
  unfold trimL
  refine hpre _ _ (fun c hc => ?_) (by rw [← hdl]; exact h1)
  exact List.mem_takeWhile_imp (List.mem_reverse.mp hc)

theorem mem_trimL {c : Char} {l : Chars} (h : c ∈ trimL l) : c ∈ l := by
  unfold trimL at h
  have h1 := List.mem_reverse.mp h
  have h2 := (List.dropWhile_suffix isJsSpace).mem h1
  have h3 := List.mem_reverse.mp h2
  exact (List.dropWhile_suffix isJsSpace).mem h3

/-! ### Establishment: each stage leaves its own pattern nowhere -/

theorem glyphFix_comp (c : Char) :
    glyphFix (glyph5 (glyph4 (glyph3 (glyph2 (glyph1 c))))) = true := by
  by_cases h1 : (c = '×' || c = '✕') = true
  · rw [show glyph1 c = '*' from by unfold glyph1; rw [if_pos h1]]
    decide
  · rw [show glyph1 c = c from by unfold glyph1; rw [if_neg h1]]
    by_cases h2 : c = '÷'
    · rw [show glyph2 c = '/' from by unfold glyph2; rw [if_pos h2]]
      decide
    · rw [show glyph2 c = c from by unfold glyph2; rw [if_neg h2]]
      by_cases h3 : (c = '−' || c = '–' || c = '—') = true
      · rw [show glyph3 c = '-' from by unfold glyph3; rw [if_pos h3]]
        decide
      · rw [show glyph3 c = c from by unfold glyph3; rw [if_neg h3]]
        by_cases h4 : (c = Char.ofNat 0x2018 || c = Char.ofNat 0x2019 ||
            c = btickC) = true
        · rw [show glyph4 c = aposC from by unfold glyph4; rw [if_pos h4]]
          decide
        · rw [show glyph4 c = c from by unfold glyph4; rw [if_neg h4]]
          by_cases h5 : (c = Char.ofNat 0x201c || c = Char.ofNat 0x201d) =
              true
          · rw [show glyph5 c = '"' from by unfold glyph5; rw [if_pos h5]]
            decide
          · rw [show glyph5 c = c from by unfold glyph5; rw [if_neg h5]]
            unfold glyphFix
            rw [show glyph1 c = c from by unfold glyph1; rw [if_neg h1]]
            rw [show glyph2 c = c from by unfold glyph2; rw [if_neg h2]]
            rw [show glyph3 c = c from by unfold glyph3; rw [if_neg h3]]
            rw [show glyph4 c = c from by unfold glyph4; rw [if_neg h4]]
            rw [show glyph5 c = c from by unfold glyph5; rw [if_neg h5]]
            simp

theorem NGlyph_maps (l : Chars) :
    NGlyph (((((l.map glyph1).map glyph2).map glyph3).map glyph4).map
      glyph5) = true := by
  unfold NGlyph
  rw [List.all_eq_true]
  intro c hc
  obtain ⟨x4, hx4, e5⟩ := List.mem_map.mp hc
  obtain ⟨x3, hx3, e4⟩ := List.mem_map.mp hx4
  obtain ⟨x2, hx2, e3⟩ := List.mem_map.mp hx3
  obtain ⟨x1, hx1, e2⟩ := List.mem_map.mp hx2
  obtain ⟨x0, hx0, e1⟩ := List.mem_map.mp hx1
  subst e5
  subst e4
  subst e3
  subst e2
  subst e1
  exact glyphFix_comp x0

theorem lookOp_ocrFix {tgt rep : Char} (hts : isJsSpace tgt = false)
    (hrs : isJsSpace rep = false) (hto : opC tgt = false)
    (hro : opC rep = false) :
    ∀ (l : Chars) (q : Option Char),
      lookOp (ocrFix tgt rep q l) = lookOp l := by
  intro l
  induction l with
  | nil =>
    intro q
    rfl
  | cons c r ih =>
    intro q
    unfold ocrFix
    by_cases hfire : (c = tgt && !wdOpt q && lookOp r) = true
    · rw [if_pos hfire]
      have hct : c = tgt := by
        simp only [Bool.and_eq_true, decide_eq_true_eq] at hfire
        exact hfire.1.1
      rw [lookOp_cons_nonspace hrs, hro, hct, lookOp_cons_nonspace hts,
        hto]
    · rw [if_neg hfire]
      by_cases hsp : isJsSpace c = true
      · simp only [lookOp]
        rw [if_pos hsp, if_pos hsp]
        exact ih (some c)
      · rw [Bool.not_eq_true] at hsp
        rw [lookOp_cons_nonspace hsp, lookOp_cons_nonspace hsp]

theorem NOcr_ocrFix_self {tgt rep : Char} (hne : rep ≠ tgt)
    (hwd : isWordC tgt = isWordC rep) (hts : isJsSpace tgt = false)
    (hrs : isJsSpace rep = false) (hto : opC tgt = false)
    (hro : opC rep = false) :
    ∀ (l : Chars) (p q : Option Char), wdOpt p = wdOpt q →
      NOcr tgt p (ocrFix tgt rep q l) = true := by
  intro l
  induction l with
  | nil =>
    intro p q hpq
    rfl
  | cons c r ih =>
    intro p q hpq
    unfold ocrFix
    by_cases hfire : (c = tgt && !wdOpt q && lookOp r) = true
    · rw [if_pos hfire]
      have hct : c = tgt := by
        simp only [Bool.and_eq_true, decide_eq_true_eq] at hfire
        exact hfire.1.1
      simp only [NOcr, Bool.and_eq_true]
      constructor
      · rw [decide_eq_false hne]
        simp
      · refine ih (some rep) (some c) ?_
        simp only [wdOpt]
        rw [hct, hwd]
    · rw [if_neg hfire]
      simp only [NOcr, Bool.and_eq_true]
      constructor
      · rw [lookOp_ocrFix hts hrs hto hro r (some c)]
        rw [Bool.not_eq_true] at hfire
        rw [hpq]
        rw [hfire]
        rfl
      · exact ih (some c) (some c) rfl

theorem NWs_collapseWs : ∀ (l : Chars) (b : Bool),
    NWs b (collapseWs b l) = true := by
  intro l
  induction l with
  | nil =>
    intro b
    rfl
  | cons c r ih =>
    intro b
    unfold collapseWs
    by_cases hsp : isJsSpace c = true
    · rw [if_pos hsp]
      cases b with
      | true =>
        rw [if_pos rfl]
        exact ih true
      | false =>
        simp only [Bool.false_eq_true, if_false]
        simp only [NWs]
        rw [if_pos (show isJsSpace ' ' = true from by decide)]
        rw [Bool.and_eq_true]
        exact ⟨by decide, ih true⟩
    · rw [Bool.not_eq_true] at hsp
      rw [hsp]
      simp only [Bool.false_eq_true, if_false]
      simp only [NWs]
      rw [if_neg (by rw [hsp]; simp)]
      exact ih false

theorem tok_char_ne {c x : Char}
    (h : c = '+' ∨ c = '-' ∨ isDigitC c = true) (hx1 : x ≠ '+')
    (hx2 : x ≠ '-') (hxd : isDigitC x = false) : c ≠ x := by
  intro heq
  subst heq
  rcases h with h | h | h
  · exact hx1 h
  · exact hx2 h
  · rw [h] at hxd
    cases hxd

theorem NS9_stage9Go : ∀ (fuel : Nat) (l : Chars), l.length ≤ fuel →
    NS9 (stage9Go fuel l) = true := by
  intro fuel
  induction fuel with
  | zero =>
    intro l hl
    cases l with
    | nil => rfl
    | cons c r => simp at hl
  | succ f ih =>
    intro l hl
    cases l with
    | nil => rfl
    | cons c r =>
      simp only [List.length_cons] at hl
      by_cases hd : isDigitC c = true
      · rcases hps : parenAfterSp r with _ | t
        · rw [show stage9Go (f + 1) (c :: r) = c :: stage9Go f r from by
            simp only [stage9Go]
            rw [if_pos hd]
            simp only [hps]]
          simp only [NS9, Bool.and_eq_true]
          refine ⟨?_, ih r (by omega)⟩
          have hnone : (parenAfterSp (stage9Go f r)).isSome = false := by
            rw [parenSome_eq_headNS, headNS_stage9Go,
              ← parenSome_eq_headNS, hps]
            rfl
          rw [hnone]
          simp
        · rw [show stage9Go (f + 1) (c :: r) =
              c :: '*' :: '(' :: stage9Go f t from by
            simp only [stage9Go]
            rw [if_pos hd]
            simp only [hps]]
          have hlt : t.length < r.length := parenAfterSp_length hps
          simp only [NS9, Bool.and_eq_true]
          refine ⟨?_, ?_, ?_, ih t (by omega)⟩
          · rw [parenAfterSp_cons_none (by decide) (by decide)]
            simp
          · rw [show isDigitC '*' = false from by decide]
            simp
          · rw [show isDigitC '(' = false from by decide]
            simp
      · rw [show stage9Go (f + 1) (c :: r) = c :: stage9Go f r from by
          simp only [stage9Go]
          rw [if_neg hd]]
        simp only [NS9, Bool.and_eq_true]
        refine ⟨?_, ih r (by omega)⟩
        rw [Bool.not_eq_true] at hd
        rw [hd]
        simp

theorem NS10_stage10Go : ∀ (fuel : Nat) (l : Chars), l.length ≤ fuel →
    NS10 (stage10Go fuel l) = true := by
  intro fuel
  induction fuel with
  | zero =>
    intro l hl
    cases l with
    | nil => rfl
    | cons c r => simp at hl
  | succ f ih =>
    intro l hl
    cases l with
    | nil => rfl
    | cons c r =>
      simp only [List.length_cons] at hl
      by_cases hc : c = ')'
      · subst hc
        rcases hps : digitAfterSp r with _ | ⟨d, t⟩
        · rw [show stage10Go (f + 1) (')' :: r) = ')' :: stage10Go f r
              from by
            simp only [stage10Go]
            rw [if_pos trivial]
            simp only [hps]]
          simp only [NS10, Bool.and_eq_true]
          refine ⟨?_, ih r (by omega)⟩
          have hnone : (digitAfterSp (stage10Go f r)).isSome = false := by
            rw [digitSome_eq_headNS, headNS_stage10Go,
              ← digitSome_eq_headNS, hps]
            rfl
          rw [hnone]
          simp
        · rw [show stage10Go (f + 1) (')' :: r) =
              ')' :: '*' :: d :: stage10Go f t from by
            simp only [stage10Go]
            rw [if_pos trivial]
            simp only [hps]]
          obtain ⟨a, ha, hdd, heq⟩ := digitAfterSp_decomp hps
          have hlt : t.length < r.length := digitAfterSp_length hps
          simp only [NS10, Bool.and_eq_true]
          refine ⟨?_, ?_, ?_, ih t (by omega)⟩
          · rw [digitAfterSp_cons_none (by decide) (by decide)]
            simp
          · rw [decide_eq_false (show '*' ≠ ')' from by decide)]
            simp
          · rw [decide_eq_false (show d ≠ ')' from fun hcon => by
              rw [hcon] at hdd
              exact absurd hdd (by decide))]
            simp
      · rw [show stage10Go (f + 1) (c :: r) = c :: stage10Go f r from by
          simp only [stage10Go]
          rw [if_neg hc]]
        simp only [NS10, Bool.and_eq_true]
        refine ⟨?_, ih r (by omega)⟩
        rw [decide_eq_false hc]
        simp

theorem NS11_stage11Go : ∀ (fuel : Nat) (l : Chars), l.length ≤ fuel →
    NS11 (stage11Go fuel l) = true := by
  intro fuel
  induction fuel with
  | zero =>
    intro l hl
    cases l with
    | nil => rfl
    | cons c r => simp at hl
  | succ f ih =>
    intro l hl
    cases l with
    | nil => rfl
    | cons c r =>
      simp only [List.length_cons] at hl
      by_cases hc : c = ')'
      · subst hc
        rcases hps : parenAfterSp r with _ | t
        · rw [show stage11Go (f + 1) (')' :: r) = ')' :: stage11Go f r
              from by
            simp only [stage11Go]
            rw [if_pos trivial]
            simp only [hps]]
          simp only [NS11, Bool.and_eq_true]
          refine ⟨?_, ih r (by omega)⟩
          have hnone : (parenAfterSp (stage11Go f r)).isSome = false := by
            rw [parenSome_eq_headNS, headNS_stage11Go,
              ← parenSome_eq_headNS, hps]
            rfl
          rw [hnone]
          simp
        · rw [show stage11Go (f + 1) (')' :: r) =
              ')' :: '*' :: '(' :: stage11Go f t from by
            simp only [stage11Go]
            rw [if_pos trivial]
            simp only [hps]]
          have hlt : t.length < r.length := parenAfterSp_length hps
          simp only [NS11, Bool.and_eq_true]
          refine ⟨?_, ?_, ?_, ih t (by omega)⟩
          · rw [parenAfterSp_cons_none (by decide) (by decide)]
            simp
          · rw [decide_eq_false (show '*' ≠ ')' from by decide)]
            simp
          · rw [decide_eq_false (show '(' ≠ ')' from by decide)]
            simp
      · rw [show stage11Go (f + 1) (c :: r) = c :: stage11Go f r from by
          simp only [stage11Go]
          rw [if_neg hc]]
        simp only [NS11, Bool.and_eq_true]
        refine ⟨?_, ih r (by omega)⟩
        rw [decide_eq_false hc]
        simp

theorem NS12_stage12Go : ∀ (fuel : Nat) (l : Chars), l.length ≤ fuel →
    NS12 (stage12Go fuel l) = true := by
  intro fuel
  induction fuel with
  | zero =>
    intro l hl
    cases l with
    | nil => rfl
    | cons c r => simp at hl
  | succ f ih =>
    intro l hl
    cases l with
    | nil => rfl
    | cons c r =>
      simp only [List.length_cons] at hl
      by_cases hc : c = '('
      · subst hc
        rcases hps : coord3Body r with _ | ⟨⟨n1, n2, n3, t⟩⟩
        · rw [show stage12Go (f + 1) ('(' :: r) = '(' :: stage12Go f r
              from by
            simp only [stage12Go]
            rw [if_pos trivial]
            simp only [hps]]
          simp only [NS12, Bool.and_eq_true]
          refine ⟨?_, ih r (by omega)⟩
          rcases hps2 : coord3Body (stage12Go f r) with _ |
            ⟨⟨na, nb, nc2, t2⟩⟩
          · simp
          · exfalso
            obtain ⟨w, heqw, hwc, -, -, -, hrep⟩ := coord3Body_decomp hps2
            have hwne : ∀ x ∈ w ++ [')'], x ≠ '(' := by
              intro x hx
              rcases List.mem_append.mp hx with hx | hx
              · rcases hwc x hx with h | h | h | h
                · intro heq
                  rw [heq] at h
                  exact absurd h (by decide)
                · intro heq
                  rw [heq] at h
                  exact absurd h (by decide)
                · intro heq
                  rw [heq] at h
                  exact absurd h (by decide)
                · intro heq
                  rw [heq] at h
                  exact absurd h (by decide)
              · simp only [List.mem_singleton] at hx
                rw [hx]
                decide
            have hsplit : stage12Go f r = (w ++ [')']) ++ t2 := by
              rw [heqw]
              simp
            obtain ⟨y, hy⟩ := stage12Go_copy hsplit hwne
            have hsome : coord3Body r = some (na, nb, nc2, y) := by
              rw [hy]
              rw [show (w ++ [')']) ++ y = w ++ ')' :: y from by simp]
              exact hrep y
            rw [hps] at hsome
            cases hsome
        · rw [show stage12Go (f + 1) ('(' :: r) =
              '(' :: (n1 ++ (',' :: ' ' :: (n2 ++ (',' :: ' ' ::
                (n3 ++ (')' :: stage12Go f t)))))) from by
            simp only [stage12Go]
            rw [if_pos trivial]
            simp only [hps]
            simp]
          obtain ⟨w, heqw, hwc, ht1, ht2, ht3, hrep⟩ :=
            coord3Body_decomp hps
          have hlt : t.length < r.length := coord3Body_length hps
          simp only [NS12, Bool.and_eq_true]
          constructor
          · rw [coord3_tok_comma ht1]
            simp
          · have hmem : ∀ x ∈ n1 ++ (',' :: ' ' :: (n2 ++ (',' :: ' ' ::
                (n3 ++ [')'])))), x ≠ '(' := by
              intro x hx
              simp only [List.mem_append, List.mem_cons,
                List.not_mem_nil, or_false] at hx
              rcases hx with hx | hx | hx | hx | hx | hx | hx | hx
              · exact tok_char_ne (ht1.2.1 x hx) (by decide) (by decide)
                  (by decide)
              · rw [hx]
                decide
              · rw [hx]
                decide
              · exact tok_char_ne (ht2.2.1 x hx) (by decide) (by decide)
                  (by decide)
              · rw [hx]
                decide
              · rw [hx]
                decide
              · exact tok_char_ne (ht3.2.1 x hx) (by decide) (by decide)
                  (by decide)
              · rw [hx]
                decide
            have hchain := NS12_chain hmem (ih t (by omega))
            rw [show (n1 ++ (',' :: ' ' :: (n2 ++ (',' :: ' ' ::
              (n3 ++ [')']))))) ++ stage12Go f t =
              n1 ++ (',' :: ' ' :: (n2 ++ (',' :: ' ' ::
              (n3 ++ (')' :: stage12Go f t))))) from by simp] at hchain
            exact hchain
      · rw [show stage12Go (f + 1) (c :: r) = c :: stage12Go f r from by
          simp only [stage12Go]
          rw [if_neg hc]]
        simp only [NS12, Bool.and_eq_true]
        refine ⟨?_, ih r (by omega)⟩
        rw [decide_eq_false hc]
        simp

theorem NS13_stage13Go : ∀ (fuel : Nat) (l : Chars), l.length ≤ fuel →
    NS13 (stage13Go fuel l) = true := by
  intro fuel
  induction fuel with
  | zero =>
    intro l hl
    cases l with
    | nil => rfl
    | cons c r => simp at hl
  | succ f ih =>
    intro l hl
    cases l with
    | nil => rfl
    | cons c r =>
      simp only [List.length_cons] at hl
      by_cases hc : c = '('
      · subst hc
        rcases hps : coord2Body r with _ | ⟨⟨n1, n2, t⟩⟩
        · rw [show stage13Go (f + 1) ('(' :: r) = '(' :: stage13Go f r
              from by
            simp only [stage13Go]
            rw [if_pos trivial]
            simp only [hps]]
          simp only [NS13, Bool.and_eq_true]
          refine ⟨?_, ih r (by omega)⟩
          rcases hps2 : coord2Body (stage13Go f r) with _ | ⟨⟨na, nb, t2⟩⟩
          · simp
          · exfalso
            obtain ⟨w, heqw, hwc, -, -, hrep⟩ := coord2Body_decomp hps2
            have hwne : ∀ x ∈ w ++ [')'], x ≠ '(' := by
              intro x hx
              rcases List.mem_append.mp hx with hx | hx
              · rcases hwc x hx with h | h | h | h
                · intro heq
                  rw [heq] at h
                  exact absurd h (by decide)
                · intro heq
                  rw [heq] at h
                  exact absurd h (by decide)
                · intro heq
                  rw [heq] at h
                  exact absurd h (by decide)
                · intro heq
                  rw [heq] at h
                  exact absurd h (by decide)
              · simp only [List.mem_singleton] at hx
                rw [hx]
                decide
            have hsplit : stage13Go f r = (w ++ [')']) ++ t2 := by
              rw [heqw]
              simp
            obtain ⟨y, hy⟩ := stage13Go_copy hsplit hwne
            have hsome : coord2Body r = some (na, nb, y) := by
              rw [hy]
              rw [show (w ++ [')']) ++ y = w ++ ')' :: y from by simp]
              exact hrep y
            rw [hps] at hsome
            cases hsome
        · rw [show stage13Go (f + 1) ('(' :: r) =
              '(' :: (n1 ++ (',' :: ' ' :: (n2 ++ (')' ::
                stage13Go f t)))) from by
            simp only [stage13Go]
            rw [if_pos trivial]
            simp only [hps]
            simp]
          obtain ⟨w, heqw, hwc, ht1, ht2, hrep⟩ := coord2Body_decomp hps
          have hlt : t.length < r.length := coord2Body_length hps
          simp only [NS13, Bool.and_eq_true]
          constructor
          · rw [coord2_tok_comma ht1]
            simp
          · have hmem : ∀ x ∈ n1 ++ (',' :: ' ' :: (n2 ++ [')'])),
                x ≠ '(' := by
              intro x hx
              simp only [List.mem_append, List.mem_cons,
                List.not_mem_nil, or_false] at hx
              rcases hx with hx | hx | hx | hx | hx
              · exact tok_char_ne (ht1.2.1 x hx) (by decide) (by decide)
                  (by decide)
              · rw [hx]
                decide
              · rw [hx]
                decide
              · exact tok_char_ne (ht2.2.1 x hx) (by decide) (by decide)
                  (by decide)
              · rw [hx]
                decide
            have hchain := NS13_chain hmem (ih t (by omega))
            rw [show (n1 ++ (',' :: ' ' :: (n2 ++ [')']))) ++
              stage13Go f t =
              n1 ++ (',' :: ' ' :: (n2 ++ (')' :: stage13Go f t)))
              from by simp] at hchain
            exact hchain
      · rw [show stage13Go (f + 1) (c :: r) = c :: stage13Go f r from by
          simp only [stage13Go]
          rw [if_neg hc]]
        simp only [NS13, Bool.and_eq_true]
        refine ⟨?_, ih r (by omega)⟩
        rw [decide_eq_false hc]
        simp

theorem noHead_elim (p : Char → Bool) (m : Chars) :
    (!(m.head?.elim false p)) = noHead p m := by
  cases m with
  | nil => rfl
  | cons c r => rfl

theorem NTrim_trimL (l : Chars) : NTrim (trimL l) = true := by
  have hA : noHead isJsSpace (l.dropWhile isJsSpace) = true :=
    dropWhile_head_false _ _
  unfold NTrim
  rw [Bool.and_eq_true]
  constructor
  · rw [noHead_elim]
    unfold trimL
    rcases hB : ((l.dropWhile isJsSpace).reverse.dropWhile
        isJsSpace).reverse with _ | ⟨x, xs⟩
    · rfl
    · have hx : ∃ z, l.dropWhile isJsSpace = x :: z := by
        have hD : (l.dropWhile isJsSpace).reverse.dropWhile isJsSpace =
            xs.reverse ++ [x] := by
          have hcong := congrArg List.reverse hB
          rw [List.reverse_reverse] at hcong
          rw [hcong]
          simp
        have h1 : (l.dropWhile isJsSpace).reverse =
            (l.dropWhile isJsSpace).reverse.takeWhile isJsSpace ++
            (xs.reverse ++ [x]) := by
          conv_lhs => rw [← List.takeWhile_append_dropWhile isJsSpace
            (l.dropWhile isJsSpace).reverse]
          rw [hD]
        refine ⟨((l.dropWhile isJsSpace).reverse.takeWhile isJsSpace ++
          xs.reverse).reverse, ?_⟩
        have hrev : (l.dropWhile isJsSpace).reverse =
            (x :: ((l.dropWhile isJsSpace).reverse.takeWhile isJsSpace ++
              xs.reverse).reverse).reverse := by
          generalize hT : (l.dropWhile isJsSpace).reverse.takeWhile
            isJsSpace = T at h1 ⊢
          rw [h1]
          simp
        have h3 := congrArg List.reverse hrev
        rw [List.reverse_reverse, List.reverse_reverse] at h3
        exact h3
      obtain ⟨z, hz⟩ := hx
      rw [hz] at hA
      simp only [noHead] at hA ⊢
      exact hA
  · rw [noHead_elim]
    unfold trimL
    rw [List.reverse_reverse]
    exact dropWhile_head_false _ _

/-! ### Preservation helpers -/

theorem glyphFix_digit {c : Char} (h : isDigitC c = true) :
    glyphFix c = true := by
  have h1 : ¬((c = '×' || c = '✕') = true) := by
    simp only [Bool.or_eq_true, decide_eq_true_eq]
    rintro (rfl | rfl) <;> exact absurd h (by decide)
  have h2 : ¬(c = '÷') := by
    rintro rfl
    exact absurd h (by decide)
  have h3 : ¬((c = '−' || c = '–' || c = '—') = true) := by
    simp only [Bool.or_eq_true, decide_eq_true_eq]
    rintro ((rfl | rfl) | rfl) <;> exact absurd h (by decide)
  have h4 : ¬((c = Char.ofNat 0x2018 || c = Char.ofNat 0x2019 ||
      c = btickC) = true) := by
    simp only [Bool.or_eq_true, decide_eq_true_eq]
    rintro ((rfl | rfl) | rfl) <;> exact absurd h (by decide)
  have h5 : ¬((c = Char.ofNat 0x201c || c = Char.ofNat 0x201d) = true) := by
    simp only [Bool.or_eq_true, decide_eq_true_eq]
    rintro (rfl | rfl) <;> exact absurd h (by decide)
  unfold glyphFix
  rw [show glyph1 c = c from by unfold glyph1; rw [if_neg h1]]
  rw [show glyph2 c = c from by unfold glyph2; rw [if_neg h2]]
  rw [show glyph3 c = c from by unfold glyph3; rw [if_neg h3]]
  rw [show glyph4 c = c from by unfold glyph4; rw [if_neg h4]]
  rw [show glyph5 c = c from by unfold glyph5; rw [if_neg h5]]
  simp

theorem NGlyph_mem {l m : Chars} (h : NGlyph l = true)
    (hsub : ∀ c ∈ m, c ∈ l ∨ glyphFix c = true) : NGlyph m = true := by
  unfold NGlyph at h ⊢
  rw [List.all_eq_true] at h ⊢
  intro c hc
  rcases hsub c hc with hin | hfix
  · exact h c hin
  · exact hfix

theorem mem_ocrFix {tgt rep c : Char} :
    ∀ (l : Chars) (q : Option Char), c ∈ ocrFix tgt rep q l →
      c ∈ l ∨ c = rep := by
  intro l
  induction l with
  | nil =>
    intro q h
    cases h
  | cons a r ih =>
    intro q h
    unfold ocrFix at h
    by_cases hfire : (a = tgt && !wdOpt q && lookOp r) = true
    · rw [if_pos hfire] at h
      rcases List.mem_cons.mp h with h | h
      · exact Or.inr h
      · rcases ih (some a) h with h | h
        · exact Or.inl (List.mem_cons_of_mem a h)
        · exact Or.inr h
    · rw [if_neg hfire] at h
      rcases List.mem_cons.mp h with h | h
      · exact Or.inl (by rw [h]; exact List.mem_cons_self a r)
      · rcases ih (some a) h with h | h
        · exact Or.inl (List.mem_cons_of_mem a h)
        · exact Or.inr h

theorem mem_collapseWs {c : Char} :
    ∀ (l : Chars) (b : Bool), c ∈ collapseWs b l → c ∈ l ∨ c = ' ' := by
  intro l
  induction l with
  | nil =>
    intro b h
    cases h
  | cons a r ih =>
    intro b h
    unfold collapseWs at h
    by_cases hsp : isJsSpace a = true
    · rw [if_pos hsp] at h
      cases b with
      | true =>
        rw [if_pos rfl] at h
        rcases ih true h with h | h
        · exact Or.inl (List.mem_cons_of_mem a h)
        · exact Or.inr h
      | false =>
        simp only [Bool.false_eq_true, if_false] at h
        rcases List.mem_cons.mp h with h | h
        · exact Or.inr h
        · rcases ih true h with h | h
          · exact Or.inl (List.mem_cons_of_mem a h)
          · exact Or.inr h
    · rw [Bool.not_eq_true] at hsp
      rw [hsp] at h
      simp only [Bool.false_eq_true, if_false] at h
      rcases List.mem_cons.mp h with h | h
      · exact Or.inl (by rw [h]; exact List.mem_cons_self a r)
      · rcases ih false h with h | h
        · exact Or.inl (List.mem_cons_of_mem a h)
        · exact Or.inr h

theorem notfire_mono {a L : Bool} {p q : Option Char}
    (himp : wdOpt q = true → wdOpt p = true)
    (h : (!(a && !wdOpt q && L)) = true) :
    (!(a && !wdOpt p && L)) = true := by
  by_cases hwp : wdOpt p = true
  · simp [hwp]
  · have hwq : wdOpt q = false := by
      cases hq : wdOpt q
      · rfl
      · exact absurd (himp hq) hwp
    rw [hwq] at h
    rw [Bool.not_eq_true] at hwp
    rw [hwp]
    exact h

theorem parenAfterSp_tok {n X : Chars} (ht : tokOk n) :
    parenAfterSp (n ++ X) = none := by
  obtain ⟨hne, hmem, -⟩ := ht
  cases hx : n with
  | nil => exact absurd hx hne
  | cons a b =>
    simp only [List.cons_append]
    have hma : a = '+' ∨ a = '-' ∨ isDigitC a = true :=
      hmem a (by rw [hx]; exact List.mem_cons_self a b)
    exact parenAfterSp_cons_none (tok_char_nonspace hma)
      (tok_char_ne hma (by decide) (by decide) (by decide))

theorem mem_stage9Go {c : Char} : ∀ (fuel : Nat) (l : Chars),
    c ∈ stage9Go fuel l → c ∈ l ∨ c = '*' ∨ c = '(' := by
  intro fuel
  induction fuel with
  | zero =>
    intro l h
    cases l with
    | nil => cases h
    | cons a r => exact Or.inl h
  | succ f ih =>
    intro l h
    cases l with
    | nil => cases h
    | cons a r =>
      by_cases hd : isDigitC a = true
      · rcases hps : parenAfterSp r with _ | t
        · rw [show stage9Go (f + 1) (a :: r) = a :: stage9Go f r from by
            simp only [stage9Go]
            rw [if_pos hd]
            simp only [hps]] at h
          rcases List.mem_cons.mp h with h | h
          · exact Or.inl (by rw [h]; exact List.mem_cons_self a r)
          · rcases ih r h with h | h
            · exact Or.inl (List.mem_cons_of_mem a h)
            · exact Or.inr h
        · rw [show stage9Go (f + 1) (a :: r) =
              a :: '*' :: '(' :: stage9Go f t from by
            simp only [stage9Go]
            rw [if_pos hd]
            simp only [hps]] at h
          obtain ⟨sp, hsp, heq⟩ := parenAfterSp_decomp hps
          rcases List.mem_cons.mp h with h | h
          · exact Or.inl (by rw [h]; exact List.mem_cons_self a r)
          · rcases List.mem_cons.mp h with h | h
            · exact Or.inr (Or.inl h)
            · rcases List.mem_cons.mp h with h | h
              · exact Or.inr (Or.inr h)
              · rcases ih t h with h | h
                · refine Or.inl (List.mem_cons_of_mem a ?_)
                  rw [heq]
                  simp [h]
                · exact Or.inr h
      · rw [show stage9Go (f + 1) (a :: r) = a :: stage9Go f r from by
          simp only [stage9Go]
          rw [if_neg hd]] at h
        rcases List.mem_cons.mp h with h | h
        · exact Or.inl (by rw [h]; exact List.mem_cons_self a r)
        · rcases ih r h with h | h
          · exact Or.inl (List.mem_cons_of_mem a h)
          · exact Or.inr h

theorem mem_stage10Go {c : Char} : ∀ (fuel : Nat) (l : Chars),
    c ∈ stage10Go fuel l → c ∈ l ∨ c = '*' := by
  intro fuel
  induction fuel with
  | zero =>
    intro l h
    cases l with
    | nil => cases h
    | cons a r => exact Or.inl h
  | succ f ih =>
    intro l h
    cases l with
    | nil => cases h
    | cons a r =>
      by_cases hc : a = ')'
      · subst hc
        rcases hps : digitAfterSp r with _ | ⟨d, t⟩
        · rw [show stage10Go (f + 1) (')' :: r) = ')' :: stage10Go f r
              from by
            simp only [stage10Go]
            rw [if_pos trivial]
            simp only [hps]] at h
          rcases List.mem_cons.mp h with h | h
          · exact Or.inl (by rw [h]; exact List.mem_cons_self ')' r)
          · rcases ih r h with h | h
            · exact Or.inl (List.mem_cons_of_mem ')' h)
            · exact Or.inr h
        · rw [show stage10Go (f + 1) (')' :: r) =
              ')' :: '*' :: d :: stage10Go f t from by
            simp only [stage10Go]
            rw [if_pos trivial]
            simp only [hps]] at h
          obtain ⟨sp, hsp, hdd, heq⟩ := digitAfterSp_decomp hps
          rcases List.mem_cons.mp h with h | h
          · exact Or.inl (by rw [h]; exact List.mem_cons_self ')' r)
          · rcases List.mem_cons.mp h with h | h
            · exact Or.inr h
            · rcases List.mem_cons.mp h with h | h
              · refine Or.inl (List.mem_cons_of_mem ')' ?_)
                rw [heq, h]
                simp
              · rcases ih t h with h | h
                · refine Or.inl (List.mem_cons_of_mem ')' ?_)
                  rw [heq]
                  simp [h]
                · exact Or.inr h
      · rw [show stage10Go (f + 1) (a :: r) = a :: stage10Go f r from by
          simp only [stage10Go]
          rw [if_neg hc]] at h
        rcases List.mem_cons.mp h with h | h
        · exact Or.inl (by rw [h]; exact List.mem_cons_self a r)
        · rcases ih r h with h | h
          · exact Or.inl (List.mem_cons_of_mem a h)
          · exact Or.inr h

theorem mem_stage11Go {c : Char} : ∀ (fuel : Nat) (l : Chars),
    c ∈ stage11Go fuel l → c ∈ l ∨ c = '*' ∨ c = '(' := by
  intro fuel
  induction fuel with
  | zero =>
    intro l h
    cases l with
    | nil => cases h
    | cons a r => exact Or.inl h
  | succ f ih =>
    intro l h
    cases l with
    | nil => cases h
    | cons a r =>
      by_cases hc : a = ')'
      · subst hc
        rcases hps : parenAfterSp r with _ | t
        · rw [show stage11Go (f + 1) (')' :: r) = ')' :: stage11Go f r
              from by
            simp only [stage11Go]
            rw [if_pos trivial]
            simp only [hps]] at h
          rcases List.mem_cons.mp h with h | h
          · exact Or.inl (by rw [h]; exact List.mem_cons_self ')' r)
          · rcases ih r h with h | h
            · exact Or.inl (List.mem_cons_of_mem ')' h)
            · exact Or.inr h
        · rw [show stage11Go (f + 1) (')' :: r) =
              ')' :: '*' :: '(' :: stage11Go f t from by
            simp only [stage11Go]
            rw [if_pos trivial]
            simp only [hps]] at h
          obtain ⟨sp, hsp, heq⟩ := parenAfterSp_decomp hps
          rcases List.mem_cons.mp h with h | h
          · exact Or.inl (by rw [h]; exact List.mem_cons_self ')' r)
          · rcases List.mem_cons.mp h with h | h
            · exact Or.inr (Or.inl h)
            · rcases List.mem_cons.mp h with h | h
              · exact Or.inr (Or.inr h)
              · rcases ih t h with h | h
                · refine Or.inl (List.mem_cons_of_mem ')' ?_)
                  rw [heq]
                  simp [h]
                · exact Or.inr h
      · rw [show stage11Go (f + 1) (a :: r) = a :: stage11Go f r from by
          simp only [stage11Go]
          rw [if_neg hc]] at h
        rcases List.mem_cons.mp h with h | h
        · exact Or.inl (by rw [h]; exact List.mem_cons_self a r)
        · rcases ih r h with h | h
          · exact Or.inl (List.mem_cons_of_mem a h)
          · exact Or.inr h

theorem mem_stage12Go {c : Char} : ∀ (fuel : Nat) (l : Chars),
    c ∈ stage12Go fuel l → c ∈ l ∨ c = '(' ∨ c = ',' ∨ c = ' ' ∨
      c = ')' ∨ c = '+' ∨ c = '-' ∨ isDigitC c = true := by
  intro fuel
  induction fuel with
  | zero =>
    intro l h
    cases l with
    | nil => cases h
    | cons a r => exact Or.inl h
  | succ f ih =>
    intro l h
    cases l with
    | nil => cases h
    | cons a r =>
      by_cases hc : a = '('
      · subst hc
        rcases hps : coord3Body r with _ | ⟨⟨n1, n2, n3, t⟩⟩
        · rw [show stage12Go (f + 1) ('(' :: r) = '(' :: stage12Go f r
              from by
            simp only [stage12Go]
            rw [if_pos trivial]
            simp only [hps]] at h
          rcases List.mem_cons.mp h with h | h
          · exact Or.inr (Or.inl h)
          · rcases ih r h with h | h
            · exact Or.inl (List.mem_cons_of_mem '(' h)
            · exact Or.inr h
        · rw [show stage12Go (f + 1) ('(' :: r) =
              '(' :: (n1 ++ (',' :: ' ' :: (n2 ++ (',' :: ' ' ::
                (n3 ++ (')' :: stage12Go f t)))))) from by
            simp only [stage12Go]
            rw [if_pos trivial]
            simp only [hps]
            simp] at h
          obtain ⟨w, heqw, hwc, ht1, ht2, ht3, hrep⟩ :=
            coord3Body_decomp hps
          simp only [List.mem_cons, List.mem_append] at h
          rcases h with h | h | h | h | h | h | h | h | h | h
          · exact Or.inr (Or.inl h)
          · rcases ht1.2.1 c h with h | h | h
            · exact Or.inr (Or.inr (Or.inr (Or.inr (Or.inr (Or.inl h)))))
            · exact Or.inr (Or.inr (Or.inr (Or.inr (Or.inr (Or.inr
                (Or.inl h))))))
            · exact Or.inr (Or.inr (Or.inr (Or.inr (Or.inr (Or.inr
                (Or.inr h))))))
          · exact Or.inr (Or.inr (Or.inl h))
          · exact Or.inr (Or.inr (Or.inr (Or.inl h)))
          · rcases ht2.2.1 c h with h | h | h
            · exact Or.inr (Or.inr (Or.inr (Or.inr (Or.inr (Or.inl h)))))
            · exact Or.inr (Or.inr (Or.inr (Or.inr (Or.inr (Or.inr
                (Or.inl h))))))
            · exact Or.inr (Or.inr (Or.inr (Or.inr (Or.inr (Or.inr
                (Or.inr h))))))
          · exact Or.inr (Or.inr (Or.inl h))
          · exact Or.inr (Or.inr (Or.inr (Or.inl h)))
          · rcases ht3.2.1 c h with h | h | h
            · exact Or.inr (Or.inr (Or.inr (Or.inr (Or.inr (Or.inl h)))))
            · exact Or.inr (Or.inr (Or.inr (Or.inr (Or.inr (Or.inr
                (Or.inl h))))))
            · exact Or.inr (Or.inr (Or.inr (Or.inr (Or.inr (Or.inr
                (Or.inr h))))))
          · exact Or.inr (Or.inr (Or.inr (Or.inr (Or.inl h))))
          · rcases ih t h with h | h
            · refine Or.inl (List.mem_cons_of_mem '(' ?_)
              rw [heqw]
              simp [h]
            · exact Or.inr h
      · rw [show stage12Go (f + 1) (a :: r) = a :: stage12Go f r from by
          simp only [stage12Go]
          rw [if_neg hc]] at h
        rcases List.mem_cons.mp h with h | h
        · exact Or.inl (by rw [h]; exact List.mem_cons_self a r)
        · rcases ih r h with h | h
          · exact Or.inl (List.mem_cons_of_mem a h)
          · exact Or.inr h

theorem mem_stage13Go {c : Char} : ∀ (fuel : Nat) (l : Chars),
    c ∈ stage13Go fuel l → c ∈ l ∨ c = '(' ∨ c = ',' ∨ c = ' ' ∨
      c = ')' ∨ c = '+' ∨ c = '-' ∨ isDigitC c = true := by
  intro fuel
  induction fuel with
  | zero =>
    intro l h
    cases l with
    | nil => cases h
    | cons a r => exact Or.inl h
  | succ f ih =>
    intro l h
    cases l with
    | nil => cases h
    | cons a r =>
      by_cases hc : a = '('
      · subst hc
        rcases hps : coord2Body r with _ | ⟨⟨n1, n2, t⟩⟩
        · rw [show stage13Go (f + 1) ('(' :: r) = '(' :: stage13Go f r
              from by
            simp only [stage13Go]
            rw [if_pos trivial]
            simp only [hps]] at h
          rcases List.mem_cons.mp h with h | h
          · exact Or.inr (Or.inl h)
          · rcases ih r h with h | h
            · exact Or.inl (List.mem_cons_of_mem '(' h)
            · exact Or.inr h
        · rw [show stage13Go (f + 1) ('(' :: r) =
              '(' :: (n1 ++ (',' :: ' ' :: (n2 ++ (')' ::
                stage13Go f t)))) from by
            simp only [stage13Go]
            rw [if_pos trivial]
            simp only [hps]
            simp] at h
          obtain ⟨w, heqw, hwc, ht1, ht2, hrep⟩ := coord2Body_decomp hps
          simp only [List.mem_cons, List.mem_append] at h
          rcases h with h | h | h | h | h | h | h
          · exact Or.inr (Or.inl h)
          · rcases ht1.2.1 c h with h | h | h
            · exact Or.inr (Or.inr (Or.inr (Or.inr (Or.inr (Or.inl h)))))
            · exact Or.inr (Or.inr (Or.inr (Or.inr (Or.inr (Or.inr
                (Or.inl h))))))
            · exact Or.inr (Or.inr (Or.inr (Or.inr (Or.inr (Or.inr
                (Or.inr h))))))
          · exact Or.inr (Or.inr (Or.inl h))
          · exact Or.inr (Or.inr (Or.inr (Or.inl h)))
          · rcases ht2.2.1 c h with h | h | h
            · exact Or.inr (Or.inr (Or.inr (Or.inr (Or.inr (Or.inl h)))))
            · exact Or.inr (Or.inr (Or.inr (Or.inr (Or.inr (Or.inr
                (Or.inl h))))))
            · exact Or.inr (Or.inr (Or.inr (Or.inr (Or.inr (Or.inr
                (Or.inr h))))))
          · exact Or.inr (Or.inr (Or.inr (Or.inr (Or.inl h))))
          · rcases ih t h with h | h
            · refine Or.inl (List.mem_cons_of_mem '(' ?_)
              rw [heqw]
              simp [h]
            · exact Or.inr h
      · rw [show stage13Go (f + 1) (a :: r) = a :: stage13Go f r from by
          simp only [stage13Go]
          rw [if_neg hc]] at h
        rcases List.mem_cons.mp h with h | h
        · exact Or.inl (by rw [h]; exact List.mem_cons_self a r)
        · rcases ih r h with h | h
          · exact Or.inl (List.mem_cons_of_mem a h)
          · exact Or.inr h

/-! ### OCR normality is preserved by the later stages -/

theorem NOcr_ocrFix_other {tgt tgt2 rep2 : Char} (hne : rep2 ≠ tgt)
    (hwd : isWordC tgt2 = isWordC rep2) (hts : isJsSpace tgt2 = false)
    (hrs : isJsSpace rep2 = false) (hto : opC tgt2 = false)
    (hro : opC rep2 = false) :
    ∀ (l : Chars) (p q q2 : Option Char),
      (wdOpt q = true → wdOpt p = true) → NOcr tgt q l = true →
      NOcr tgt p (ocrFix tgt2 rep2 q2 l) = true := by
  intro l
  induction l with
  | nil =>
    intro p q q2 himp h
    rfl
  | cons c r ih =>
    intro p q q2 himp h
    simp only [NOcr, Bool.and_eq_true] at h
    unfold ocrFix
    by_cases hfire : (c = tgt2 && !wdOpt q2 && lookOp r) = true
    · rw [if_pos hfire]
      have hct : c = tgt2 := by
        simp only [Bool.and_eq_true, decide_eq_true_eq] at hfire
        exact hfire.1.1
      simp only [NOcr, Bool.and_eq_true]
      refine ⟨?_, ?_⟩
      · rw [decide_eq_false hne]
        simp
      · refine ih (some rep2) (some c) (some c) ?_ h.2
        intro hw
        simp only [wdOpt] at hw ⊢
        rw [hct] at hw
        rw [← hwd]
        exact hw
    · rw [if_neg hfire]
      simp only [NOcr, Bool.and_eq_true]
      refine ⟨?_, ih (some c) (some c) (some c) (fun x => x) h.2⟩
      rw [lookOp_ocrFix hts hrs hto hro r (some c)]
      exact notfire_mono himp h.1

theorem NOcr_collapseWs {tgt : Char} (hts : isJsSpace tgt = false) :
    ∀ (l : Chars) (b : Bool) (p q : Option Char),
      (wdOpt q = true → wdOpt p = true) → NOcr tgt q l = true →
      NOcr tgt p (collapseWs b l) = true := by
  intro l
  induction l with
  | nil =>
    intro b p q himp h
    rfl
  | cons c r ih =>
    intro b p q himp h
    simp only [NOcr, Bool.and_eq_true] at h
    unfold collapseWs
    by_cases hsp : isJsSpace c = true
    · rw [if_pos hsp]
      cases b with
      | true =>
        rw [if_pos rfl]
        refine ih true p (some c) ?_ h.2
        intro hw
        exfalso
        simp only [wdOpt] at hw
        rw [space_not_word hsp] at hw
        cases hw
      | false =>
        simp only [Bool.false_eq_true, if_false]
        simp only [NOcr, Bool.and_eq_true]
        refine ⟨?_, ?_⟩
        · rw [decide_eq_false (show ' ' ≠ tgt from fun heq => by
            rw [← heq] at hts
            exact absurd hts (by decide))]
          simp
        · refine ih true (some ' ') (some c) ?_ h.2
          intro hw
          exfalso
          simp only [wdOpt] at hw
          rw [space_not_word hsp] at hw
          cases hw
    · rw [Bool.not_eq_true] at hsp
      rw [hsp]
      simp only [Bool.false_eq_true, if_false]
      simp only [NOcr, Bool.and_eq_true]
      refine ⟨?_, ih false (some c) (some c) (fun x => x) h.2⟩
      have hlo : lookOp (collapseWs false r) = lookOp r := by
        rw [lookOp_eq_headNS, headNS_collapseWs, ← lookOp_eq_headNS]
      rw [hlo]
      exact notfire_mono himp h.1

theorem NOcr_stage9Go {tgt : Char} (htd : isDigitC tgt = false)
    (hts : tgt ≠ '*') (htp : tgt ≠ '(') :
    ∀ (fuel : Nat) (l : Chars) (p q : Option Char),
      (wdOpt q = true → wdOpt p = true) → NOcr tgt q l = true →
      NOcr tgt p (stage9Go fuel l) = true := by
  intro fuel
  induction fuel with
  | zero =>
    intro l p q himp h
    cases l with
    | nil => rfl
    | cons c r => exact NOcr_mono himp h
  | succ f ih =>
    intro l p q himp h
    cases l with
    | nil => rfl
    | cons c r =>
      simp only [NOcr, Bool.and_eq_true] at h
      by_cases hd : isDigitC c = true
      · rcases hps : parenAfterSp r with _ | t
        · rw [show stage9Go (f + 1) (c :: r) = c :: stage9Go f r from by
            simp only [stage9Go]
            rw [if_pos hd]
            simp only [hps]]
          simp only [NOcr, Bool.and_eq_true]
          refine ⟨?_, ih r (some c) (some c) (fun x => x) h.2⟩
          have hlo : lookOp (stage9Go f r) = lookOp r := by
            rw [lookOp_eq_headNS, headNS_stage9Go, ← lookOp_eq_headNS]
          rw [hlo]
          exact notfire_mono himp h.1
        · rw [show stage9Go (f + 1) (c :: r) =
              c :: '*' :: '(' :: stage9Go f t from by
            simp only [stage9Go]
            rw [if_pos hd]
            simp only [hps]]
          obtain ⟨sp, hsp, heq⟩ := parenAfterSp_decomp hps
          simp only [NOcr, Bool.and_eq_true]
          refine ⟨?_, ?_, ?_, ?_⟩
          · rw [decide_eq_false (show c ≠ tgt from fun hcon => by
              rw [hcon] at hd
              rw [htd] at hd
              cases hd)]
            simp
          · rw [decide_eq_false (Ne.symm hts)]
            simp
          · rw [decide_eq_false (Ne.symm htp)]
            simp
          · refine ih t (some '(') (some '(') (fun x => x) ?_
            have h2 := h.2
            rw [heq] at h2
            exact NOcr_append h2
      · rw [show stage9Go (f + 1) (c :: r) = c :: stage9Go f r from by
          simp only [stage9Go]
          rw [if_neg hd]]
        simp only [NOcr, Bool.and_eq_true]
        refine ⟨?_, ih r (some c) (some c) (fun x => x) h.2⟩
        have hlo : lookOp (stage9Go f r) = lookOp r := by
          rw [lookOp_eq_headNS, headNS_stage9Go, ← lookOp_eq_headNS]
        rw [hlo]
        exact notfire_mono himp h.1

theorem NOcr_stage10Go {tgt : Char} (htd : isDigitC tgt = false)
    (hts : tgt ≠ '*') (htrp : tgt ≠ ')') :
    ∀ (fuel : Nat) (l : Chars) (p q : Option Char),
      (wdOpt q = true → wdOpt p = true) → NOcr tgt q l = true →
      NOcr tgt p (stage10Go fuel l) = true := by
  intro fuel
  induction fuel with
  | zero =>
    intro l p q himp h
    cases l with
    | nil => rfl
    | cons c r => exact NOcr_mono himp h
  | succ f ih =>
    intro l p q himp h
    cases l with
    | nil => rfl
    | cons c r =>
      simp only [NOcr, Bool.and_eq_true] at h
      by_cases hc : c = ')'
      · subst hc
        rcases hps : digitAfterSp r with _ | ⟨d, t⟩
        · rw [show stage10Go (f + 1) (')' :: r) = ')' :: stage10Go f r
              from by
            simp only [stage10Go]
            rw [if_pos trivial]
            simp only [hps]]
          simp only [NOcr, Bool.and_eq_true]
          refine ⟨?_, ih r (some ')') (some ')') (fun x => x) h.2⟩
          have hlo : lookOp (stage10Go f r) = lookOp r := by
            rw [lookOp_eq_headNS, headNS_stage10Go, ← lookOp_eq_headNS]
          rw [hlo]
          exact notfire_mono himp h.1
        · rw [show stage10Go (f + 1) (')' :: r) =
              ')' :: '*' :: d :: stage10Go f t from by
            simp only [stage10Go]
            rw [if_pos trivial]
            simp only [hps]]
          obtain ⟨sp, hsp, hdd, heq⟩ := digitAfterSp_decomp hps
          simp only [NOcr, Bool.and_eq_true]
          refine ⟨?_, ?_, ?_, ?_⟩
          · rw [decide_eq_false (Ne.symm htrp)]
            simp
          · rw [decide_eq_false (Ne.symm hts)]
            simp
          · rw [decide_eq_false (show d ≠ tgt from fun hcon => by
              rw [hcon] at hdd
              rw [htd] at hdd
              cases hdd)]
            simp
          · refine ih t (some d) (some d) (fun x => x) ?_
            have h2 := h.2
            rw [heq] at h2
            exact NOcr_append h2
      · rw [show stage10Go (f + 1) (c :: r) = c :: stage10Go f r from by
          simp only [stage10Go]
          rw [if_neg hc]]
        simp only [NOcr, Bool.and_eq_true]
        refine ⟨?_, ih r (some c) (some c) (fun x => x) h.2⟩
        have hlo : lookOp (stage10Go f r) = lookOp r := by
          rw [lookOp_eq_headNS, headNS_stage10Go, ← lookOp_eq_headNS]
        rw [hlo]
        exact notfire_mono himp h.1

theorem NOcr_stage11Go {tgt : Char} (hts : tgt ≠ '*') (htp : tgt ≠ '(')
    (htrp : tgt ≠ ')') :
    ∀ (fuel : Nat) (l : Chars) (p q : Option Char),
      (wdOpt q = true → wdOpt p = true) → NOcr tgt q l = true →
      NOcr tgt p (stage11Go fuel l) = true := by
  intro fuel
  induction fuel with
  | zero =>
    intro l p q himp h
    cases l with
    | nil => rfl
    | cons c r => exact NOcr_mono himp h
  | succ f ih =>
    intro l p q himp h
    cases l with
    | nil => rfl
    | cons c r =>
      simp only [NOcr, Bool.and_eq_true] at h
      by_cases hc : c = ')'
      · subst hc
        rcases hps : parenAfterSp r with _ | t
        · rw [show stage11Go (f + 1) (')' :: r) = ')' :: stage11Go f r
              from by
            simp only [stage11Go]
            rw [if_pos trivial]
            simp only [hps]]
          simp only [NOcr, Bool.and_eq_true]
          refine ⟨?_, ih r (some ')') (some ')') (fun x => x) h.2⟩
          have hlo : lookOp (stage11Go f r) = lookOp r := by
            rw [lookOp_eq_headNS, headNS_stage11Go, ← lookOp_eq_headNS]
          rw [hlo]
          exact notfire_mono himp h.1
        · rw [show stage11Go (f + 1) (')' :: r) =
              ')' :: '*' :: '(' :: stage11Go f t from by
            simp only [stage11Go]
            rw [if_pos trivial]
            simp only [hps]]
          obtain ⟨sp, hsp, heq⟩ := parenAfterSp_decomp hps
          simp only [NOcr, Bool.and_eq_true]
          refine ⟨?_, ?_, ?_, ?_⟩
          · rw [decide_eq_false (Ne.symm htrp)]
            simp
          · rw [decide_eq_false (Ne.symm hts)]
            simp
          · rw [decide_eq_false (Ne.symm htp)]
            simp
          · refine ih t (some '(') (some '(') (fun x => x) ?_
            have h2 := h.2
            rw [heq] at h2
            exact NOcr_append h2
      · rw [show stage11Go (f + 1) (c :: r) = c :: stage11Go f r from by
          simp only [stage11Go]
          rw [if_neg hc]]
        simp only [NOcr, Bool.and_eq_true]
        refine ⟨?_, ih r (some c) (some c) (fun x => x) h.2⟩
        have hlo : lookOp (stage11Go f r) = lookOp r := by
          rw [lookOp_eq_headNS, headNS_stage11Go, ← lookOp_eq_headNS]
        rw [hlo]
        exact notfire_mono himp h.1

theorem NOcr_stage12Go {tgt : Char} (htd : isDigitC tgt = false)
    (htp : tgt ≠ '(') (htrp : tgt ≠ ')') (htc : tgt ≠ ',')
    (htsp : tgt ≠ ' ') (htpl : tgt ≠ '+') (htmn : tgt ≠ '-') :
    ∀ (fuel : Nat) (l : Chars) (p q : Option Char),
      (wdOpt q = true → wdOpt p = true) → NOcr tgt q l = true →
      NOcr tgt p (stage12Go fuel l) = true := by
  intro fuel
  induction fuel with
  | zero =>
    intro l p q himp h
    cases l with
    | nil => rfl
    | cons c r => exact NOcr_mono himp h
  | succ f ih =>
    intro l p q himp h
    cases l with
    | nil => rfl
    | cons c r =>
      simp only [NOcr, Bool.and_eq_true] at h
      by_cases hc : c = '('
      · subst hc
        rcases hps : coord3Body r with _ | ⟨⟨n1, n2, n3, t⟩⟩
        · rw [show stage12Go (f + 1) ('(' :: r) = '(' :: stage12Go f r
              from by
            simp only [stage12Go]
            rw [if_pos trivial]
            simp only [hps]]
          simp only [NOcr, Bool.and_eq_true]
          refine ⟨?_, ih r (some '(') (some '(') (fun x => x) h.2⟩
          rw [decide_eq_false (Ne.symm htp)]
          simp
        · rw [show stage12Go (f + 1) ('(' :: r) =
              '(' :: (n1 ++ (',' :: ' ' :: (n2 ++ (',' :: ' ' ::
                (n3 ++ (')' :: stage12Go f t)))))) from by
            simp only [stage12Go]
            rw [if_pos trivial]
            simp only [hps]
            simp]
          obtain ⟨w, heqw, hwc, ht1, ht2, ht3, hrep⟩ :=
            coord3Body_decomp hps
          simp only [NOcr, Bool.and_eq_true]
          constructor
          · rw [decide_eq_false (Ne.symm htp)]
            simp
          · rw [show n1 ++ (',' :: ' ' :: (n2 ++ (',' :: ' ' ::
              (n3 ++ (')' :: stage12Go f t))))) =
              (n1 ++ (',' :: ' ' :: (n2 ++ (',' :: ' ' :: n3)))) ++
              ')' :: stage12Go f t from by simp]
            refine NOcr_chain ?_ (Ne.symm htrp) ?_
            · intro x hx
              simp only [List.mem_append, List.mem_cons,
                List.not_mem_nil, or_false] at hx
              rcases hx with hx | hx | hx | hx | hx | hx | hx
              · exact tok_char_ne (ht1.2.1 x hx) htpl htmn htd
              · rw [hx]
                exact Ne.symm htc
              · rw [hx]
                exact Ne.symm htsp
              · exact tok_char_ne (ht2.2.1 x hx) htpl htmn htd
              · rw [hx]
                exact Ne.symm htc
              · rw [hx]
                exact Ne.symm htsp
              · exact tok_char_ne (ht3.2.1 x hx) htpl htmn htd
            · refine ih t (some ')') (some ')') (fun x => x) ?_
              have h2 := h.2
              rw [heqw] at h2
              exact NOcr_append h2
      · rw [show stage12Go (f + 1) (c :: r) = c :: stage12Go f r from by
          simp only [stage12Go]
          rw [if_neg hc]]
        simp only [NOcr, Bool.and_eq_true]
        refine ⟨?_, ih r (some c) (some c) (fun x => x) h.2⟩
        have hlo : lookOp (stage12Go f r) = lookOp r := by
          rw [lookOp_eq_headNS, headNS_stage12Go, ← lookOp_eq_headNS]
        rw [hlo]
        exact notfire_mono himp h.1

theorem NOcr_stage13Go {tgt : Char} (htd : isDigitC tgt = false)
    (htp : tgt ≠ '(') (htrp : tgt ≠ ')') (htc : tgt ≠ ',')
    (htsp : tgt ≠ ' ') (htpl : tgt ≠ '+') (htmn : tgt ≠ '-') :
    ∀ (fuel : Nat) (l : Chars) (p q : Option Char),
      (wdOpt q = true → wdOpt p = true) → NOcr tgt q l = true →
      NOcr tgt p (stage13Go fuel l) = true := by
  intro fuel
  induction fuel with
  | zero =>
    intro l p q himp h
    cases l with
    | nil => rfl
    | cons c r => exact NOcr_mono himp h
  | succ f ih =>
    intro l p q himp h
    cases l with
    | nil => rfl
    | cons c r =>
      simp only [NOcr, Bool.and_eq_true] at h
      by_cases hc : c = '('
      · subst hc
        rcases hps : coord2Body r with _ | ⟨⟨n1, n2, t⟩⟩
        · rw [show stage13Go (f + 1) ('(' :: r) = '(' :: stage13Go f r
              from by
            simp only [stage13Go]
            rw [if_pos trivial]
            simp only [hps]]
          simp only [NOcr, Bool.and_eq_true]
          refine ⟨?_, ih r (some '(') (some '(') (fun x => x) h.2⟩
          rw [decide_eq_false (Ne.symm htp)]
          simp
        · rw [show stage13Go (f + 1) ('(' :: r) =
              '(' :: (n1 ++ (',' :: ' ' :: (n2 ++ (')' ::
                stage13Go f t)))) from by
            simp only [stage13Go]
            rw [if_pos trivial]
            simp only [hps]
            simp]
          obtain ⟨w, heqw, hwc, ht1, ht2, hrep⟩ := coord2Body_decomp hps
          simp only [NOcr, Bool.and_eq_true]
          constructor
          · rw [decide_eq_false (Ne.symm htp)]
            simp
          · rw [show n1 ++ (',' :: ' ' :: (n2 ++ (')' ::
              stage13Go f t))) =
              (n1 ++ (',' :: ' ' :: n2)) ++ ')' :: stage13Go f t
              from by simp]
            refine NOcr_chain ?_ (Ne.symm htrp) ?_
            · intro x hx
              simp only [List.mem_append, List.mem_cons,
                List.not_mem_nil, or_false] at hx
              rcases hx with hx | hx | hx | hx
              · exact tok_char_ne (ht1.2.1 x hx) htpl htmn htd
              · rw [hx]
                exact Ne.symm htc
              · rw [hx]
                exact Ne.symm htsp
              · exact tok_char_ne (ht2.2.1 x hx) htpl htmn htd
            · refine ih t (some ')') (some ')') (fun x => x) ?_
              have h2 := h.2
              rw [heqw] at h2
              exact NOcr_append h2
      · rw [show stage13Go (f + 1) (c :: r) = c :: stage13Go f r from by
          simp only [stage13Go]
          rw [if_neg hc]]
        simp only [NOcr, Bool.and_eq_true]
        refine ⟨?_, ih r (some c) (some c) (fun x => x) h.2⟩
        have hlo : lookOp (stage13Go f r) = lookOp r := by
          rw [lookOp_eq_headNS, headNS_stage13Go, ← lookOp_eq_headNS]
        rw [hlo]
        exact notfire_mono himp h.1

/-! ### Whitespace normality is preserved by the later stages -/

theorem NWs_stage9Go : ∀ (fuel : Nat) (l : Chars) (b : Bool),
    NWs b l = true → NWs b (stage9Go fuel l) = true := by
  intro fuel
  induction fuel with
  | zero =>
    intro l b h
    cases l with
    | nil => exact h
    | cons c r => exact h
  | succ f ih =>
    intro l b h
    cases l with
    | nil => exact h
    | cons c r =>
      by_cases hd : isDigitC c = true
      · have hnsp : isJsSpace c = false := digit_not_space hd
        have hrF : NWs false r = true := by
          simp only [NWs] at h
          rw [if_neg (by rw [hnsp]; simp)] at h
          exact h
        rcases hps : parenAfterSp r with _ | t
        · rw [show stage9Go (f + 1) (c :: r) = c :: stage9Go f r from by
            simp only [stage9Go]
            rw [if_pos hd]
            simp only [hps]]
          simp only [NWs]
          rw [if_neg (by rw [hnsp]; simp)]
          exact ih r false hrF
        · rw [show stage9Go (f + 1) (c :: r) =
              c :: '*' :: '(' :: stage9Go f t from by
            simp only [stage9Go]
            rw [if_pos hd]
            simp only [hps]]
          obtain ⟨sp, hsp, heq⟩ := parenAfterSp_decomp hps
          have htF : NWs false t = true := by
            rw [heq] at hrF
            have h2 := NWs_append hrF
            rw [show isJsSpace '(' = false from by decide] at h2
            exact h2
          simp only [NWs]
          rw [if_neg (by rw [hnsp]; simp), if_neg (by decide),
            if_neg (by decide)]
          exact ih t false htF
      · by_cases hsp : isJsSpace c = true
        · rw [show stage9Go (f + 1) (c :: r) = c :: stage9Go f r from by
            simp only [stage9Go]
            rw [if_neg hd]]
          simp only [NWs] at h ⊢
          rw [if_pos hsp] at h ⊢
          rw [Bool.and_eq_true] at h ⊢
          exact ⟨h.1, ih r true h.2⟩
        · rw [Bool.not_eq_true] at hsp
          rw [show stage9Go (f + 1) (c :: r) = c :: stage9Go f r from by
            simp only [stage9Go]
            rw [if_neg hd]]
          simp only [NWs] at h ⊢
          rw [if_neg (by rw [hsp]; simp)] at h ⊢
          exact ih r false h

theorem NWs_stage10Go : ∀ (fuel : Nat) (l : Chars) (b : Bool),
    NWs b l = true → NWs b (stage10Go fuel l) = true := by
  intro fuel
  induction fuel with
  | zero =>
    intro l b h
    cases l with
    | nil => exact h
    | cons c r => exact h
  | succ f ih =>
    intro l b h
    cases l with
    | nil => exact h
    | cons c r =>
      by_cases hc : c = ')'
      · subst hc
        have hrF : NWs false r = true := by
          simp only [NWs] at h
          rw [if_neg (by decide)] at h
          exact h
        rcases hps : digitAfterSp r with _ | ⟨d, t⟩
        · rw [show stage10Go (f + 1) (')' :: r) = ')' :: stage10Go f r
              from by
            simp only [stage10Go]
            rw [if_pos trivial]
            simp only [hps]]
          simp only [NWs]
          rw [if_neg (by decide)]
          exact ih r false hrF
        · rw [show stage10Go (f + 1) (')' :: r) =
              ')' :: '*' :: d :: stage10Go f t from by
            simp only [stage10Go]
            rw [if_pos trivial]
            simp only [hps]]
          obtain ⟨sp, hsp, hdd, heq⟩ := digitAfterSp_decomp hps
          have htF : NWs false t = true := by
            rw [heq] at hrF
            have h2 := NWs_append hrF
            rw [digit_not_space hdd] at h2
            exact h2
          simp only [NWs]
          rw [if_neg (by decide), if_neg (by decide),
            if_neg (by rw [digit_not_space hdd]; simp)]
          exact ih t false htF
      · by_cases hsp : isJsSpace c = true
        · rw [show stage10Go (f + 1) (c :: r) = c :: stage10Go f r from by
            simp only [stage10Go]
            rw [if_neg hc]]
          simp only [NWs] at h ⊢
          rw [if_pos hsp] at h ⊢
          rw [Bool.and_eq_true] at h ⊢
          exact ⟨h.1, ih r true h.2⟩
        · rw [Bool.not_eq_true] at hsp
          rw [show stage10Go (f + 1) (c :: r) = c :: stage10Go f r from by
            simp only [stage10Go]
            rw [if_neg hc]]
          simp only [NWs] at h ⊢
          rw [if_neg (by rw [hsp]; simp)] at h ⊢
          exact ih r false h

theorem NWs_stage11Go : ∀ (fuel : Nat) (l : Chars) (b : Bool),
    NWs b l = true → NWs b (stage11Go fuel l) = true := by
  intro fuel
  induction fuel with
  | zero =>
    intro l b h
    cases l with
    | nil => exact h
    | cons c r => exact h
  | succ f ih =>
    intro l b h
    cases l with
    | nil => exact h
    | cons c r =>
      by_cases hc : c = ')'
      · subst hc
        have hrF : NWs false r = true := by
          simp only [NWs] at h
          rw [if_neg (by decide)] at h
          exact h
        rcases hps : parenAfterSp r with _ | t
        · rw [show stage11Go (f + 1) (')' :: r) = ')' :: stage11Go f r
              from by
            simp only [stage11Go]
            rw [if_pos trivial]
            simp only [hps]]
          simp only [NWs]
          rw [if_neg (by decide)]
          exact ih r false hrF
        · rw [show stage11Go (f + 1) (')' :: r) =
              ')' :: '*' :: '(' :: stage11Go f t from by
            simp only [stage11Go]
            rw [if_pos trivial]
            simp only [hps]]
          obtain ⟨sp, hsp, heq⟩ := parenAfterSp_decomp hps
          have htF : NWs false t = true := by
            rw [heq] at hrF
            have h2 := NWs_append hrF
            rw [show isJsSpace '(' = false from by decide] at h2
            exact h2
          simp only [NWs]
          rw [if_neg (by decide), if_neg (by decide), if_neg (by decide)]
          exact ih t false htF
      · by_cases hsp : isJsSpace c = true
        · rw [show stage11Go (f + 1) (c :: r) = c :: stage11Go f r from by
            simp only [stage11Go]
            rw [if_neg hc]]
          simp only [NWs] at h ⊢
          rw [if_pos hsp] at h ⊢
          rw [Bool.and_eq_true] at h ⊢
          exact ⟨h.1, ih r true h.2⟩
        · rw [Bool.not_eq_true] at hsp
          rw [show stage11Go (f + 1) (c :: r) = c :: stage11Go f r from by
            simp only [stage11Go]
            rw [if_neg hc]]
          simp only [NWs] at h ⊢
          rw [if_neg (by rw [hsp]; simp)] at h ⊢
          exact ih r false h

theorem NWs_stage12Go : ∀ (fuel : Nat) (l : Chars) (b : Bool),
    NWs b l = true → NWs b (stage12Go fuel l) = true := by
  intro fuel
  induction fuel with
  | zero =>
    intro l b h
    cases l with
    | nil => exact h
    | cons c r => exact h
  | succ f ih =>
    intro l b h
    cases l with
    | nil => exact h
    | cons c r =>
      by_cases hc : c = '('
      · subst hc
        have hrF : NWs false r = true := by
          simp only [NWs] at h
          rw [if_neg (by decide)] at h
          exact h
        rcases hps : coord3Body r with _ | ⟨⟨n1, n2, n3, t⟩⟩
        · rw [show stage12Go (f + 1) ('(' :: r) = '(' :: stage12Go f r
              from by
            simp only [stage12Go]
            rw [if_pos trivial]
            simp only [hps]]
          simp only [NWs]
          rw [if_neg (by decide)]
          exact ih r false hrF
        · rw [show stage12Go (f + 1) ('(' :: r) =
              '(' :: (n1 ++ (',' :: ' ' :: (n2 ++ (',' :: ' ' ::
                (n3 ++ (')' :: stage12Go f t)))))) from by
            simp only [stage12Go]
            rw [if_pos trivial]
            simp only [hps]
            simp]
          obtain ⟨w, heqw, hwc, ht1, ht2, ht3, hrep⟩ :=
            coord3Body_decomp hps
          have htF : NWs false t = true := by
            rw [heqw] at hrF
            have h2 := NWs_append hrF
            rw [show isJsSpace ')' = false from by decide] at h2
            exact h2
          have hX : NWs false (')' :: stage12Go f t) = true := by
            simp only [NWs]
            rw [if_neg (by decide)]
            exact ih t false htF
          have h3 : ∀ b2, NWs b2 (n3 ++ (')' :: stage12Go f t)) = true :=
            fun b2 => NWs_nonsp_chain
              (fun x hx => tok_char_nonspace (ht3.2.1 x hx)) ht3.1 hX b2
          have h3c : NWs false (',' :: ' ' :: (n3 ++
              (')' :: stage12Go f t))) = true := by
            simp only [NWs]
            rw [if_neg (by decide), if_pos (by decide)]
            rw [Bool.and_eq_true]
            exact ⟨by decide, h3 true⟩
          have h2a : ∀ b2, NWs b2 (n2 ++ (',' :: ' ' :: (n3 ++
              (')' :: stage12Go f t)))) = true :=
            fun b2 => NWs_nonsp_chain
              (fun x hx => tok_char_nonspace (ht2.2.1 x hx)) ht2.1 h3c b2
          have h2c : NWs false (',' :: ' ' :: (n2 ++ (',' :: ' ' ::
              (n3 ++ (')' :: stage12Go f t))))) = true := by
            simp only [NWs]
            rw [if_neg (by decide), if_pos (by decide)]
            rw [Bool.and_eq_true]
            exact ⟨by decide, h2a true⟩
          have h1a : ∀ b2, NWs b2 (n1 ++ (',' :: ' ' :: (n2 ++
              (',' :: ' ' :: (n3 ++ (')' :: stage12Go f t)))))) = true :=
            fun b2 => NWs_nonsp_chain
              (fun x hx => tok_char_nonspace (ht1.2.1 x hx)) ht1.1 h2c b2
          simp only [NWs]
          rw [if_neg (by decide)]
          exact h1a false
      · by_cases hsp : isJsSpace c = true
        · rw [show stage12Go (f + 1) (c :: r) = c :: stage12Go f r from by
            simp only [stage12Go]
            rw [if_neg hc]]
          simp only [NWs] at h ⊢
          rw [if_pos hsp] at h ⊢
          rw [Bool.and_eq_true] at h ⊢
          exact ⟨h.1, ih r true h.2⟩
        · rw [Bool.not_eq_true] at hsp
          rw [show stage12Go (f + 1) (c :: r) = c :: stage12Go f r from by
            simp only [stage12Go]
            rw [if_neg hc]]
          simp only [NWs] at h ⊢
          rw [if_neg (by rw [hsp]; simp)] at h ⊢
          exact ih r false h

theorem NWs_stage13Go : ∀ (fuel : Nat) (l : Chars) (b : Bool),
    NWs b l = true → NWs b (stage13Go fuel l) = true := by
  intro fuel
  induction fuel with
  | zero =>
    intro l b h
    cases l with
    | nil => exact h
    | cons c r => exact h
  | succ f ih =>
    intro l b h
    cases l with
    | nil => exact h
    | cons c r =>
      by_cases hc : c = '('
      · subst hc
        have hrF : NWs false r = true := by
          simp only [NWs] at h
          rw [if_neg (by decide)] at h
          exact h
        rcases hps : coord2Body r with _ | ⟨⟨n1, n2, t⟩⟩
        · rw [show stage13Go (f + 1) ('(' :: r) = '(' :: stage13Go f r
              from by
            simp only [stage13Go]
            rw [if_pos trivial]
            simp only [hps]]
          simp only [NWs]
          rw [if_neg (by decide)]
          exact ih r false hrF
        · rw [show stage13Go (f + 1) ('(' :: r) =
              '(' :: (n1 ++ (',' :: ' ' :: (n2 ++ (')' ::
                stage13Go f t)))) from by
            simp only [stage13Go]
            rw [if_pos trivial]
            simp only [hps]
            simp]
          obtain ⟨w, heqw, hwc, ht1, ht2, hrep⟩ := coord2Body_decomp hps
          have htF : NWs false t = true := by
            rw [heqw] at hrF
            have h2 := NWs_append hrF
            rw [show isJsSpace ')' = false from by decide] at h2
            exact h2
          have hX : NWs false (')' :: stage13Go f t) = true := by
            simp only [NWs]
            rw [if_neg (by decide)]
            exact ih t false htF
          have h2a : ∀ b2, NWs b2 (n2 ++ (')' :: stage13Go f t)) = true :=
            fun b2 => NWs_nonsp_chain
              (fun x hx => tok_char_nonspace (ht2.2.1 x hx)) ht2.1 hX b2
          have h2c : NWs false (',' :: ' ' :: (n2 ++
              (')' :: stage13Go f t))) = true := by
            simp only [NWs]
            rw [if_neg (by decide), if_pos (by decide)]
            rw [Bool.and_eq_true]
            exact ⟨by decide, h2a true⟩
          have h1a : ∀ b2, NWs b2 (n1 ++ (',' :: ' ' :: (n2 ++
              (')' :: stage13Go f t)))) = true :=
            fun b2 => NWs_nonsp_chain
              (fun x hx => tok_char_nonspace (ht1.2.1 x hx)) ht1.1 h2c b2
          simp only [NWs]
          rw [if_neg (by decide)]
          exact h1a false
      · by_cases hsp : isJsSpace c = true
        · rw [show stage13Go (f + 1) (c :: r) = c :: stage13Go f r from by
            simp only [stage13Go]
            rw [if_neg hc]]
          simp only [NWs] at h ⊢
          rw [if_pos hsp] at h ⊢
          rw [Bool.and_eq_true] at h ⊢
          exact ⟨h.1, ih r true h.2⟩
        · rw [Bool.not_eq_true] at hsp
          rw [show stage13Go (f + 1) (c :: r) = c :: stage13Go f r from by
            simp only [stage13Go]
            rw [if_neg hc]]
          simp only [NWs] at h ⊢
          rw [if_neg (by rw [hsp]; simp)] at h ⊢
          exact ih r false h

/-! ### Stage-9 normality is preserved by stages 10 to 13 -/

theorem NS9_stage10Go : ∀ (fuel : Nat) (l : Chars),
    NS9 l = true → NS9 (stage10Go fuel l) = true := by
  intro fuel
  induction fuel with
  | zero =>
    intro l h
    cases l with
    | nil => exact h
    | cons c r => exact h
  | succ f ih =>
    intro l h
    cases l with
    | nil => exact h
    | cons c r =>
      simp only [NS9, Bool.and_eq_true] at h
      by_cases hc : c = ')'
      · subst hc
        rcases hps : digitAfterSp r with _ | ⟨d, t⟩
        · rw [show stage10Go (f + 1) (')' :: r) = ')' :: stage10Go f r
              from by
            simp only [stage10Go]
            rw [if_pos trivial]
            simp only [hps]]
          simp only [NS9, Bool.and_eq_true]
          refine ⟨?_, ih r h.2⟩
          rw [show isDigitC ')' = false from by decide]
          simp
        · rw [show stage10Go (f + 1) (')' :: r) =
              ')' :: '*' :: d :: stage10Go f t from by
            simp only [stage10Go]
            rw [if_pos trivial]
            simp only [hps]]
          obtain ⟨sp, hsp2, hdd, heq⟩ := digitAfterSp_decomp hps
          have hdt : NS9 (d :: t) = true := by
            have h2 := h.2
            rw [heq] at h2
            exact NS9_append h2
          simp only [NS9, Bool.and_eq_true] at hdt ⊢
          refine ⟨?_, ?_, ?_, ih t hdt.2⟩
          · rw [show isDigitC ')' = false from by decide]
            simp
          · rw [show isDigitC '*' = false from by decide]
            simp
          · rw [parenSome_eq_headNS, headNS_stage10Go,
              ← parenSome_eq_headNS]
            exact hdt.1
      · rw [show stage10Go (f + 1) (c :: r) = c :: stage10Go f r from by
          simp only [stage10Go]
          rw [if_neg hc]]
        simp only [NS9, Bool.and_eq_true]
        refine ⟨?_, ih r h.2⟩
        rw [parenSome_eq_headNS, headNS_stage10Go, ← parenSome_eq_headNS]
        exact h.1

theorem NS9_stage11Go : ∀ (fuel : Nat) (l : Chars),
    NS9 l = true → NS9 (stage11Go fuel l) = true := by
  intro fuel
  induction fuel with
  | zero =>
    intro l h
    cases l with
    | nil => exact h
    | cons c r => exact h
  | succ f ih =>
    intro l h
    cases l with
    | nil => exact h
    | cons c r =>
      simp only [NS9, Bool.and_eq_true] at h
      by_cases hc : c = ')'
      · subst hc
        rcases hps : parenAfterSp r with _ | t
        · rw [show stage11Go (f + 1) (')' :: r) = ')' :: stage11Go f r
              from by
            simp only [stage11Go]
            rw [if_pos trivial]
            simp only [hps]]
          simp only [NS9, Bool.and_eq_true]
          refine ⟨?_, ih r h.2⟩
          rw [show isDigitC ')' = false from by decide]
          simp
        · rw [show stage11Go (f + 1) (')' :: r) =
              ')' :: '*' :: '(' :: stage11Go f t from by
            simp only [stage11Go]
            rw [if_pos trivial]
            simp only [hps]]
          obtain ⟨sp, hsp2, heq⟩ := parenAfterSp_decomp hps
          have hdt : NS9 t = true := by
            have h2 := h.2
            rw [heq] at h2
            have h3 := NS9_append h2
            simp only [NS9, Bool.and_eq_true] at h3
            exact h3.2
          simp only [NS9, Bool.and_eq_true]
          refine ⟨?_, ?_, ?_, ih t hdt⟩
          · rw [show isDigitC ')' = false from by decide]
            simp
          · rw [show isDigitC '*' = false from by decide]
            simp
          · rw [show isDigitC '(' = false from by decide]
            simp
      · rw [show stage11Go (f + 1) (c :: r) = c :: stage11Go f r from by
          simp only [stage11Go]
          rw [if_neg hc]]
        simp only [NS9, Bool.and_eq_true]
        refine ⟨?_, ih r h.2⟩
        rw [parenSome_eq_headNS, headNS_stage11Go, ← parenSome_eq_headNS]
        exact h.1

theorem NS9_stage12Go : ∀ (fuel : Nat) (l : Chars),
    NS9 l = true → NS9 (stage12Go fuel l) = true := by
  intro fuel
  induction fuel with
  | zero =>
    intro l h
    cases l with
    | nil => exact h
    | cons c r => exact h
  | succ f ih =>
    intro l h
    cases l with
    | nil => exact h
    | cons c r =>
      simp only [NS9, Bool.and_eq_true] at h
      by_cases hc : c = '('
      · subst hc
        rcases hps : coord3Body r with _ | ⟨⟨n1, n2, n3, t⟩⟩
        · rw [show stage12Go (f + 1) ('(' :: r) = '(' :: stage12Go f r
              from by
            simp only [stage12Go]
            rw [if_pos trivial]
            simp only [hps]]
          simp only [NS9, Bool.and_eq_true]
          refine ⟨?_, ih r h.2⟩
          rw [show isDigitC '(' = false from by decide]
          simp
        · rw [show stage12Go (f + 1) ('(' :: r) =
              '(' :: (n1 ++ (',' :: ' ' :: (n2 ++ (',' :: ' ' ::
                (n3 ++ (')' :: stage12Go f t)))))) from by
            simp only [stage12Go]
            rw [if_pos trivial]
            simp only [hps]
            simp]
          obtain ⟨w, heqw, hwc, ht1, ht2, ht3, hrep⟩ :=
            coord3Body_decomp hps
          have htN : NS9 t = true := by
            have h2 := h.2
            rw [heqw] at h2
            have h3 := NS9_append h2
            simp only [NS9, Bool.and_eq_true] at h3
            exact h3.2
          have hm1 : NS9 (')' :: stage12Go f t) = true := by
            simp only [NS9, Bool.and_eq_true]
            refine ⟨?_, ih t htN⟩
            rw [show isDigitC ')' = false from by decide]
            simp
          have hm2 : NS9 (n3 ++ (')' :: stage12Go f t)) = true :=
            NS9_tok (fun x hx => ⟨tok_char_nonspace (ht3.2.1 x hx),
              tok_char_ne (ht3.2.1 x hx) (by decide) (by decide)
              (by decide)⟩)
              (parenAfterSp_cons_none (by decide) (by decide)) hm1
          have hm3 : NS9 (',' :: ' ' :: (n3 ++
              (')' :: stage12Go f t))) = true := by
            simp only [NS9, Bool.and_eq_true]
            refine ⟨?_, ?_, hm2⟩
            · rw [show isDigitC ',' = false from by decide]
              simp
            · rw [show isDigitC ' ' = false from by decide]
              simp
          have hm4 : NS9 (n2 ++ (',' :: ' ' :: (n3 ++
              (')' :: stage12Go f t)))) = true :=
            NS9_tok (fun x hx => ⟨tok_char_nonspace (ht2.2.1 x hx),
              tok_char_ne (ht2.2.1 x hx) (by decide) (by decide)
              (by decide)⟩)
              (parenAfterSp_cons_none (by decide) (by decide)) hm3
          have hm5 : NS9 (',' :: ' ' :: (n2 ++ (',' :: ' ' :: (n3 ++
              (')' :: stage12Go f t))))) = true := by
            simp only [NS9, Bool.and_eq_true]
            refine ⟨?_, ?_, hm4⟩
            · rw [show isDigitC ',' = false from by decide]
              simp
            · rw [show isDigitC ' ' = false from by decide]
              simp
          have hm6 : NS9 (n1 ++ (',' :: ' ' :: (n2 ++ (',' :: ' ' ::
              (n3 ++ (')' :: stage12Go f t)))))) = true :=
            NS9_tok (fun x hx => ⟨tok_char_nonspace (ht1.2.1 x hx),
              tok_char_ne (ht1.2.1 x hx) (by decide) (by decide)
              (by decide)⟩)
              (parenAfterSp_cons_none (by decide) (by decide)) hm5
          simp only [NS9, Bool.and_eq_true]
          refine ⟨?_, hm6⟩
          rw [show isDigitC '(' = false from by decide]
          simp
      · rw [show stage12Go (f + 1) (c :: r) = c :: stage12Go f r from by
          simp only [stage12Go]
          rw [if_neg hc]]
        simp only [NS9, Bool.and_eq_true]
        refine ⟨?_, ih r h.2⟩
        rw [parenSome_eq_headNS, headNS_stage12Go, ← parenSome_eq_headNS]
        exact h.1

theorem NS9_stage13Go : ∀ (fuel : Nat) (l : Chars),
    NS9 l = true → NS9 (stage13Go fuel l) = true := by
  intro fuel
  induction fuel with
  | zero =>
    intro l h
    cases l with
    | nil => exact h
    | cons c r => exact h
  | succ f ih =>
    intro l h
    cases l with
    | nil => exact h
    | cons c r =>
      simp only [NS9, Bool.and_eq_true] at h
      by_cases hc : c = '('
      · subst hc
        rcases hps : coord2Body r with _ | ⟨⟨n1, n2, t⟩⟩
        · rw [show stage13Go (f + 1) ('(' :: r) = '(' :: stage13Go f r
              from by
            simp only [stage13Go]
            rw [if_pos trivial]
            simp only [hps]]
          simp only [NS9, Bool.and_eq_true]
          refine ⟨?_, ih r h.2⟩
          rw [show isDigitC '(' = false from by decide]
          simp
        · rw [show stage13Go (f + 1) ('(' :: r) =
              '(' :: (n1 ++ (',' :: ' ' :: (n2 ++ (')' ::
                stage13Go f t)))) from by
            simp only [stage13Go]
            rw [if_pos trivial]
            simp only [hps]
            simp]
          obtain ⟨w, heqw, hwc, ht1, ht2, hrep⟩ := coord2Body_decomp hps
          have htN : NS9 t = true := by
            have h2 := h.2
            rw [heqw] at h2
            have h3 := NS9_append h2
            simp only [NS9, Bool.and_eq_true] at h3
            exact h3.2
          have hm1 : NS9 (')' :: stage13Go f t) = true := by
            simp only [NS9, Bool.and_eq_true]
            refine ⟨?_, ih t htN⟩
            rw [show isDigitC ')' = false from by decide]
            simp
          have hm2 : NS9 (n2 ++ (')' :: stage13Go f t)) = true :=
            NS9_tok (fun x hx => ⟨tok_char_nonspace (ht2.2.1 x hx),
              tok_char_ne (ht2.2.1 x hx) (by decide) (by decide)
              (by decide)⟩)
              (parenAfterSp_cons_none (by decide) (by decide)) hm1
          have hm3 : NS9 (',' :: ' ' :: (n2 ++
              (')' :: stage13Go f t))) = true := by
            simp only [NS9, Bool.and_eq_true]
            refine ⟨?_, ?_, hm2⟩
            · rw [show isDigitC ',' = false from by decide]
              simp
            · rw [show isDigitC ' ' = false from by decide]
              simp
          have hm4 : NS9 (n1 ++ (',' :: ' ' :: (n2 ++ (')' ::
              stage13Go f t)))) = true :=
            NS9_tok (fun x hx => ⟨tok_char_nonspace (ht1.2.1 x hx),
              tok_char_ne (ht1.2.1 x hx) (by decide) (by decide)
              (by decide)⟩)
              (parenAfterSp_cons_none (by decide) (by decide)) hm3
          simp only [NS9, Bool.and_eq_true]
          refine ⟨?_, hm4⟩
          rw [show isDigitC '(' = false from by decide]
          simp
      · rw [show stage13Go (f + 1) (c :: r) = c :: stage13Go f r from by
          simp only [stage13Go]
          rw [if_neg hc]]
        simp only [NS9, Bool.and_eq_true]
        refine ⟨?_, ih r h.2⟩
        rw [parenSome_eq_headNS, headNS_stage13Go, ← parenSome_eq_headNS]
        exact h.1

/-! ### Stage-10 and stage-11 normality through the later stages -/

theorem NS10_stage11Go : ∀ (fuel : Nat) (l : Chars),
    NS10 l = true → NS10 (stage11Go fuel l) = true := by
  intro fuel
  induction fuel with
  | zero =>
    intro l h
    cases l with
    | nil => exact h
    | cons c r => exact h
  | succ f ih =>
    intro l h
    cases l with
    | nil => exact h
    | cons c r =>
      simp only [NS10, Bool.and_eq_true] at h
      by_cases hc : c = ')'
      · subst hc
        rcases hps : parenAfterSp r with _ | t
        · rw [show stage11Go (f + 1) (')' :: r) = ')' :: stage11Go f r
              from by
            simp only [stage11Go]
            rw [if_pos trivial]
            simp only [hps]]
          simp only [NS10, Bool.and_eq_true]
          refine ⟨?_, ih r h.2⟩
          rw [digitSome_eq_headNS, headNS_stage11Go, ← digitSome_eq_headNS]
          exact h.1
        · rw [show stage11Go (f + 1) (')' :: r) =
              ')' :: '*' :: '(' :: stage11Go f t from by
            simp only [stage11Go]
            rw [if_pos trivial]
            simp only [hps]]
          obtain ⟨sp, hsp2, heq⟩ := parenAfterSp_decomp hps
          have hdt : NS10 t = true := by
            have h2 := h.2
            rw [heq] at h2
            have h3 := NS10_append h2
            simp only [NS10, Bool.and_eq_true] at h3
            exact h3.2
          simp only [NS10, Bool.and_eq_true]
          refine ⟨?_, ?_, ?_, ih t hdt⟩
          · rw [digitAfterSp_cons_none (by decide) (by decide)]
            simp
          · rw [decide_eq_false (show '*' ≠ ')' from by decide)]
            simp
          · rw [decide_eq_false (show '(' ≠ ')' from by decide)]
            simp
      · rw [show stage11Go (f + 1) (c :: r) = c :: stage11Go f r from by
          simp only [stage11Go]
          rw [if_neg hc]]
        simp only [NS10, Bool.and_eq_true]
        refine ⟨?_, ih r h.2⟩
        rw [digitSome_eq_headNS, headNS_stage11Go, ← digitSome_eq_headNS]
        exact h.1

theorem NS10_stage12Go : ∀ (fuel : Nat) (l : Chars),
    NS10 l = true → NS10 (stage12Go fuel l) = true := by
  intro fuel
  induction fuel with
  | zero =>
    intro l h
    cases l with
    | nil => exact h
    | cons c r => exact h
  | succ f ih =>
    intro l h
    cases l with
    | nil => exact h
    | cons c r =>
      simp only [NS10, Bool.and_eq_true] at h
      by_cases hc : c = '('
      · subst hc
        rcases hps : coord3Body r with _ | ⟨⟨n1, n2, n3, t⟩⟩
        · rw [show stage12Go (f + 1) ('(' :: r) = '(' :: stage12Go f r
              from by
            simp only [stage12Go]
            rw [if_pos trivial]
            simp only [hps]]
          simp only [NS10, Bool.and_eq_true]
          refine ⟨?_, ih r h.2⟩
          rw [decide_eq_false (show '(' ≠ ')' from by decide)]
          simp
        · rw [show stage12Go (f + 1) ('(' :: r) =
              '(' :: (n1 ++ (',' :: ' ' :: (n2 ++ (',' :: ' ' ::
                (n3 ++ (')' :: stage12Go f t)))))) from by
            simp only [stage12Go]
            rw [if_pos trivial]
            simp only [hps]
            simp]
          obtain ⟨w, heqw, hwc, ht1, ht2, ht3, hrep⟩ :=
            coord3Body_decomp hps
          have hcl : NS10 (')' :: t) = true := by
            have h2 := h.2
            rw [heqw] at h2
            exact NS10_append h2
          simp only [NS10, Bool.and_eq_true] at hcl
          have hm1 : NS10 (')' :: stage12Go f t) = true := by
            simp only [NS10, Bool.and_eq_true]
            refine ⟨?_, ih t hcl.2⟩
            rw [digitSome_eq_headNS, headNS_stage12Go,
              ← digitSome_eq_headNS]
            exact hcl.1
          have hchain : NS10 (('(' :: (n1 ++ (',' :: ' ' :: (n2 ++
              (',' :: ' ' :: n3))))) ++ (')' :: stage12Go f t)) = true := by
            refine NS10_chain ?_ hm1
            intro x hx
            simp only [List.mem_cons, List.mem_append,
              List.not_mem_nil, or_false] at hx
            rcases hx with hx | hx | hx | hx | hx | hx | hx | hx
            · rw [hx]
              decide
            · exact tok_char_ne (ht1.2.1 x hx) (by decide) (by decide)
                (by decide)
            · rw [hx]
              decide
            · rw [hx]
              decide
            · exact tok_char_ne (ht2.2.1 x hx) (by decide) (by decide)
                (by decide)
            · rw [hx]
              decide
            · rw [hx]
              decide
            · exact tok_char_ne (ht3.2.1 x hx) (by decide) (by decide)
                (by decide)
          rw [show '(' :: (n1 ++ (',' :: ' ' :: (n2 ++ (',' :: ' ' ::
            (n3 ++ (')' :: stage12Go f t)))))) =
            ('(' :: (n1 ++ (',' :: ' ' :: (n2 ++ (',' :: ' ' :: n3))))) ++
            (')' :: stage12Go f t) from by simp]
          exact hchain
      · rw [show stage12Go (f + 1) (c :: r) = c :: stage12Go f r from by
          simp only [stage12Go]
          rw [if_neg hc]]
        simp only [NS10, Bool.and_eq_true]
        refine ⟨?_, ih r h.2⟩
        rw [digitSome_eq_headNS, headNS_stage12Go, ← digitSome_eq_headNS]
        exact h.1

theorem NS10_stage13Go : ∀ (fuel : Nat) (l : Chars),
    NS10 l = true → NS10 (stage13Go fuel l) = true := by
  intro fuel
  induction fuel with
  | zero =>
    intro l h
    cases l with
    | nil => exact h
    | cons c r => exact h
  | succ f ih =>
    intro l h
    cases l with
    | nil => exact h
    | cons c r =>
      simp only [NS10, Bool.and_eq_true] at h
      by_cases hc : c = '('
      · subst hc
        rcases hps : coord2Body r with _ | ⟨⟨n1, n2, t⟩⟩
        · rw [show stage13Go (f + 1) ('(' :: r) = '(' :: stage13Go f r
              from by
            simp only [stage13Go]
            rw [if_pos trivial]
            simp only [hps]]
          simp only [NS10, Bool.and_eq_true]
          refine ⟨?_, ih r h.2⟩
          rw [decide_eq_false (show '(' ≠ ')' from by decide)]
          simp
        · rw [show stage13Go (f + 1) ('(' :: r) =
              '(' :: (n1 ++ (',' :: ' ' :: (n2 ++ (')' ::
                stage13Go f t)))) from by
            simp only [stage13Go]
            rw [if_pos trivial]
            simp only [hps]
            simp]
          obtain ⟨w, heqw, hwc, ht1, ht2, hrep⟩ := coord2Body_decomp hps
          have hcl : NS10 (')' :: t) = true := by
            have h2 := h.2
            rw [heqw] at h2
            exact NS10_append h2
          simp only [NS10, Bool.and_eq_true] at hcl
          have hm1 : NS10 (')' :: stage13Go f t) = true := by
            simp only [NS10, Bool.and_eq_true]
            refine ⟨?_, ih t hcl.2⟩
            rw [digitSome_eq_headNS, headNS_stage13Go,
              ← digitSome_eq_headNS]
            exact hcl.1
          have hchain : NS10 (('(' :: (n1 ++ (',' :: ' ' :: n2))) ++
              (')' :: stage13Go f t)) = true := by
            refine NS10_chain ?_ hm1
            intro x hx
            simp only [List.mem_cons, List.mem_append,
              List.not_mem_nil, or_false] at hx
            rcases hx with hx | hx | hx | hx | hx
            · rw [hx]
              decide
            · exact tok_char_ne (ht1.2.1 x hx) (by decide) (by decide)
                (by decide)
            · rw [hx]
              decide
            · rw [hx]
              decide
            · exact tok_char_ne (ht2.2.1 x hx) (by decide) (by decide)
                (by decide)
          rw [show '(' :: (n1 ++ (',' :: ' ' :: (n2 ++ (')' ::
            stage13Go f t)))) =
            ('(' :: (n1 ++ (',' :: ' ' :: n2))) ++
            (')' :: stage13Go f t) from by simp]
          exact hchain
      · rw [show stage13Go (f + 1) (c :: r) = c :: stage13Go f r from by
          simp only [stage13Go]
          rw [if_neg hc]]
        simp only [NS10, Bool.and_eq_true]
        refine ⟨?_, ih r h.2⟩
        rw [digitSome_eq_headNS, headNS_stage13Go, ← digitSome_eq_headNS]
        exact h.1

theorem NS11_stage12Go : ∀ (fuel : Nat) (l : Chars),
    NS11 l = true → NS11 (stage12Go fuel l) = true := by
  intro fuel
  induction fuel with
  | zero =>
    intro l h
    cases l with
    | nil => exact h
    | cons c r => exact h
  | succ f ih =>
    intro l h
    cases l with
    | nil => exact h
    | cons c r =>
      simp only [NS11, Bool.and_eq_true] at h
      by_cases hc : c = '('
      · subst hc
        rcases hps : coord3Body r with _ | ⟨⟨n1, n2, n3, t⟩⟩
        · rw [show stage12Go (f + 1) ('(' :: r) = '(' :: stage12Go f r
              from by
            simp only [stage12Go]
            rw [if_pos trivial]
            simp only [hps]]
          simp only [NS11, Bool.and_eq_true]
          refine ⟨?_, ih r h.2⟩
          rw [decide_eq_false (show '(' ≠ ')' from by decide)]
          simp
        · rw [show stage12Go (f + 1) ('(' :: r) =
              '(' :: (n1 ++ (',' :: ' ' :: (n2 ++ (',' :: ' ' ::
                (n3 ++ (')' :: stage12Go f t)))))) from by
            simp only [stage12Go]
            rw [if_pos trivial]
            simp only [hps]
            simp]
          obtain ⟨w, heqw, hwc, ht1, ht2, ht3, hrep⟩ :=
            coord3Body_decomp hps
          have hcl : NS11 (')' :: t) = true := by
            have h2 := h.2
            rw [heqw] at h2
            exact NS11_append h2
          simp only [NS11, Bool.and_eq_true] at hcl
          have hm1 : NS11 (')' :: stage12Go f t) = true := by
            simp only [NS11, Bool.and_eq_true]
            refine ⟨?_, ih t hcl.2⟩
            rw [parenSome_eq_headNS, headNS_stage12Go,
              ← parenSome_eq_headNS]
            exact hcl.1
          have hchain : NS11 (('(' :: (n1 ++ (',' :: ' ' :: (n2 ++
              (',' :: ' ' :: n3))))) ++ (')' :: stage12Go f t)) = true := by
            refine NS11_chain ?_ hm1
            intro x hx
            simp only [List.mem_cons, List.mem_append,
              List.not_mem_nil, or_false] at hx
            rcases hx with hx | hx | hx | hx | hx | hx | hx | hx
            · rw [hx]
              decide
            · exact tok_char_ne (ht1.2.1 x hx) (by decide) (by decide)
                (by decide)
            · rw [hx]
              decide
            · rw [hx]
              decide
            · exact tok_char_ne (ht2.2.1 x hx) (by decide) (by decide)
                (by decide)
            · rw [hx]
              decide
            · rw [hx]
              decide
            · exact tok_char_ne (ht3.2.1 x hx) (by decide) (by decide)
                (by decide)
          rw [show '(' :: (n1 ++ (',' :: ' ' :: (n2 ++ (',' :: ' ' ::
            (n3 ++ (')' :: stage12Go f t)))))) =
            ('(' :: (n1 ++ (',' :: ' ' :: (n2 ++ (',' :: ' ' :: n3))))) ++
            (')' :: stage12Go f t) from by simp]
          exact hchain
      · rw [show stage12Go (f + 1) (c :: r) = c :: stage12Go f r from by
          simp only [stage12Go]
          rw [if_neg hc]]
        simp only [NS11, Bool.and_eq_true]
        refine ⟨?_, ih r h.2⟩
        rw [parenSome_eq_headNS, headNS_stage12Go, ← parenSome_eq_headNS]
        exact h.1

theorem NS11_stage13Go : ∀ (fuel : Nat) (l : Chars),
    NS11 l = true → NS11 (stage13Go fuel l) = true := by
  intro fuel
  induction fuel with
  | zero =>
    intro l h
    cases l with
    | nil => exact h
    | cons c r => exact h
  | succ f ih =>
    intro l h
    cases l with
    | nil => exact h
    | cons c r =>
      simp only [NS11, Bool.and_eq_true] at h
      by_cases hc : c = '('
      · subst hc
        rcases hps : coord2Body r with _ | ⟨⟨n1, n2, t⟩⟩
        · rw [show stage13Go (f + 1) ('(' :: r) = '(' :: stage13Go f r
              from by
            simp only [stage13Go]
            rw [if_pos trivial]
            simp only [hps]]
          simp only [NS11, Bool.and_eq_true]
          refine ⟨?_, ih r h.2⟩
          rw [decide_eq_false (show '(' ≠ ')' from by decide)]
          simp
        · rw [show stage13Go (f + 1) ('(' :: r) =
              '(' :: (n1 ++ (',' :: ' ' :: (n2 ++ (')' ::
                stage13Go f t)))) from by
            simp only [stage13Go]
            rw [if_pos trivial]
            simp only [hps]
            simp]
          obtain ⟨w, heqw, hwc, ht1, ht2, hrep⟩ := coord2Body_decomp hps
          have hcl : NS11 (')' :: t) = true := by
            have h2 := h.2
            rw [heqw] at h2
            exact NS11_append h2
          simp only [NS11, Bool.and_eq_true] at hcl
          have hm1 : NS11 (')' :: stage13Go f t) = true := by
            simp only [NS11, Bool.and_eq_true]
            refine ⟨?_, ih t hcl.2⟩
            rw [parenSome_eq_headNS, headNS_stage13Go,
              ← parenSome_eq_headNS]
            exact hcl.1
          have hchain : NS11 (('(' :: (n1 ++ (',' :: ' ' :: n2))) ++
              (')' :: stage13Go f t)) = true := by
            refine NS11_chain ?_ hm1
            intro x hx
            simp only [List.mem_cons, List.mem_append,
              List.not_mem_nil, or_false] at hx
            rcases hx with hx | hx | hx | hx | hx
            · rw [hx]
              decide
            · exact tok_char_ne (ht1.2.1 x hx) (by decide) (by decide)
                (by decide)
            · rw [hx]
              decide
            · rw [hx]
              decide
            · exact tok_char_ne (ht2.2.1 x hx) (by decide) (by decide)
                (by decide)
          rw [show '(' :: (n1 ++ (',' :: ' ' :: (n2 ++ (')' ::
            stage13Go f t)))) =
            ('(' :: (n1 ++ (',' :: ' ' :: n2))) ++
            (')' :: stage13Go f t) from by simp]
          exact hchain
      · rw [show stage13Go (f + 1) (c :: r) = c :: stage13Go f r from by
          simp only [stage13Go]
          rw [if_neg hc]]
        simp only [NS11, Bool.and_eq_true]
        refine ⟨?_, ih r h.2⟩
        rw [parenSome_eq_headNS, headNS_stage13Go, ← parenSome_eq_headNS]
        exact h.1

/-! ### Stage-12 normality is preserved by stage 13 -/

theorem NS12_stage13Go : ∀ (fuel : Nat) (l : Chars),
    NS12 l = true → NS12 (stage13Go fuel l) = true := by
  intro fuel
  induction fuel with
  | zero =>
    intro l h
    cases l with
    | nil => exact h
    | cons c r => exact h
  | succ f ih =>
    intro l h
    cases l with
    | nil => exact h
    | cons c r =>
      simp only [NS12, Bool.and_eq_true] at h
      by_cases hc : c = '('
      · subst hc
        have hnone : coord3Body r = none := by
          rcases hcr : coord3Body r with _ | z
          · rfl
          · exfalso
            have h1 := h.1
            rw [hcr] at h1
            simp at h1
        rcases hps : coord2Body r with _ | ⟨⟨n1, n2, t⟩⟩
        · rw [show stage13Go (f + 1) ('(' :: r) = '(' :: stage13Go f r
              from by
            simp only [stage13Go]
            rw [if_pos trivial]
            simp only [hps]]
          simp only [NS12, Bool.and_eq_true]
          refine ⟨?_, ih r h.2⟩
          rcases hps2 : coord3Body (stage13Go f r) with _ |
            ⟨⟨na, nb, nc2, t2⟩⟩
          · simp
          · exfalso
            obtain ⟨w, heqw, hwc, -, -, -, hrep⟩ := coord3Body_decomp hps2
            have hwne : ∀ x ∈ w ++ [')'], x ≠ '(' := by
              intro x hx
              rcases List.mem_append.mp hx with hx | hx
              · rcases hwc x hx with hz | hz | hz | hz
                · intro heq
                  rw [heq] at hz
                  exact absurd hz (by decide)
                · intro heq
                  rw [heq] at hz
                  exact absurd hz (by decide)
                · intro heq
                  rw [heq] at hz
                  exact absurd hz (by decide)
                · intro heq
                  rw [heq] at hz
                  exact absurd hz (by decide)
              · simp only [List.mem_singleton] at hx
                rw [hx]
                decide
            have hsplit : stage13Go f r = (w ++ [')']) ++ t2 := by
              rw [heqw]
              simp
            obtain ⟨y, hy⟩ := stage13Go_copy hsplit hwne
            have hsome : coord3Body r = some (na, nb, nc2, y) := by
              rw [hy]
              rw [show (w ++ [')']) ++ y = w ++ ')' :: y from by simp]
              exact hrep y
            rw [hnone] at hsome
            cases hsome
        · rw [show stage13Go (f + 1) ('(' :: r) =
              '(' :: (n1 ++ (',' :: ' ' :: (n2 ++ (')' ::
                stage13Go f t)))) from by
            simp only [stage13Go]
            rw [if_pos trivial]
            simp only [hps]
            simp]
          obtain ⟨w, heqw, hwc, ht1, ht2, hrep⟩ := coord2Body_decomp hps
          have htN : NS12 t = true := by
            have h2 := h.2
            rw [heqw] at h2
            have h3 := NS12_append h2
            simp only [NS12, Bool.and_eq_true] at h3
            exact h3.2
          simp only [NS12, Bool.and_eq_true]
          constructor
          · rw [coord3_tok_comma ht1]
            simp
          · have hmem : ∀ x ∈ n1 ++ (',' :: ' ' :: (n2 ++ [')'])),
                x ≠ '(' := by
              intro x hx
              simp only [List.mem_append, List.mem_cons,
                List.not_mem_nil, or_false] at hx
              rcases hx with hx | hx | hx | hx | hx
              · exact tok_char_ne (ht1.2.1 x hx) (by decide) (by decide)
                  (by decide)
              · rw [hx]
                decide
              · rw [hx]
                decide
              · exact tok_char_ne (ht2.2.1 x hx) (by decide) (by decide)
                  (by decide)
              · rw [hx]
                decide
            have hchain := NS12_chain hmem (ih t htN)
            rw [show (n1 ++ (',' :: ' ' :: (n2 ++ [')']))) ++
              stage13Go f t =
              n1 ++ (',' :: ' ' :: (n2 ++ (')' :: stage13Go f t)))
              from by simp] at hchain
            exact hchain
      · rw [show stage13Go (f + 1) (c :: r) = c :: stage13Go f r from by
          simp only [stage13Go]
          rw [if_neg hc]]
        simp only [NS12, Bool.and_eq_true]
        refine ⟨?_, ih r h.2⟩
        rw [decide_eq_false hc]
        simp

/-! ### Trim preserves every earlier normality predicate -/

theorem NGlyph_trimL {l : Chars} (h : NGlyph l = true) :
    NGlyph (trimL l) = true :=
  NGlyph_mem h (fun c hc => Or.inl (mem_trimL hc))

theorem NOcr_trimL {tgt : Char} {l : Chars}
    (h : NOcr tgt none l = true) : NOcr tgt none (trimL l) = true :=
  trim_pres (fun m => NOcr tgt none m)
    (fun a m ha hh => NOcr_dropSp ha hh)
    (fun m s _ hh => NOcr_prefix hh) h

theorem NWs_trimL {l : Chars} (h : NWs false l = true) :
    NWs false (trimL l) = true :=
  trim_pres (fun m => NWs false m)
    (fun a m ha hh => NWs_dropSp ha hh)
    (fun m s _ hh => NWs_prefix hh) h

theorem NS9_trimL {l : Chars} (h : NS9 l = true) :
    NS9 (trimL l) = true :=
  trim_pres NS9 (fun a m _ hh => NS9_append hh)
    (fun m s _ hh => NS9_prefix hh) h

theorem NS10_trimL {l : Chars} (h : NS10 l = true) :
    NS10 (trimL l) = true :=
  trim_pres NS10 (fun a m _ hh => NS10_append hh)
    (fun m s _ hh => NS10_prefix hh) h

theorem NS11_trimL {l : Chars} (h : NS11 l = true) :
    NS11 (trimL l) = true :=
  trim_pres NS11 (fun a m _ hh => NS11_append hh)
    (fun m s _ hh => NS11_prefix hh) h

theorem NS12_trimL {l : Chars} (h : NS12 l = true) :
    NS12 (trimL l) = true :=
  trim_pres NS12 (fun a m _ hh => NS12_append hh)
    (fun m s _ hh => NS12_prefix hh) h

theorem NS13_trimL {l : Chars} (h : NS13 l = true) :
    NS13 (trimL l) = true :=
  trim_pres NS13 (fun a m _ hh => NS13_append hh)
    (fun m s _ hh => NS13_prefix hh) h

/-! ### The pipeline output is in normal form, hence `cleanInput` is
idempotent -/

theorem NF_cleanList (l : Chars) : NF (cleanList l) = true := by
  unfold cleanList
  set G := ((((l.map glyph1).map glyph2).map glyph3).map glyph4).map glyph5
    with hG
  set A1 := ocrFix 'l' '1' none G with hA1
  set A2 := ocrFix 'O' '0' none A1 with hA2
  set B := collapseWs false A2 with hB
  set C9 := stage9 B with hC9
  set C10 := stage10 C9 with hC10
  set C11 := stage11 C10 with hC11
  set C12 := stage12 C11 with hC12
  set C13 := stage13 C12 with hC13
  have hg1 : NGlyph G = true := by
    rw [hG]
    exact NGlyph_maps l
  have hg2 : NGlyph A1 = true := by
    rw [hA1]
    refine NGlyph_mem hg1 ?_
    intro c hc
    rcases mem_ocrFix G none hc with hc2 | hc2
    · exact Or.inl hc2
    · right
      rw [hc2]
      decide
  have hg3 : NGlyph A2 = true := by
    rw [hA2]
    refine NGlyph_mem hg2 ?_
    intro c hc
    rcases mem_ocrFix A1 none hc with hc2 | hc2
    · exact Or.inl hc2
    · right
      rw [hc2]
      decide
  have hg4 : NGlyph B = true := by
    rw [hB]
    refine NGlyph_mem hg3 ?_
    intro c hc
    rcases mem_collapseWs A2 false hc with hc2 | hc2
    · exact Or.inl hc2
    · right
      rw [hc2]
      decide
  have hg5 : NGlyph C9 = true := by
    rw [hC9]
    refine NGlyph_mem hg4 ?_
    intro c hc
    rcases mem_stage9Go B.length B hc with hc2 | hc2 | hc2
    · exact Or.inl hc2
    · right
      rw [hc2]
      decide
    · right
      rw [hc2]
      decide
  have hg6 : NGlyph C10 = true := by
    rw [hC10]
    refine NGlyph_mem hg5 ?_
    intro c hc
    rcases mem_stage10Go C9.length C9 hc with hc2 | hc2
    · exact Or.inl hc2
    · right
      rw [hc2]
      decide
  have hg7 : NGlyph C11 = true := by
    rw [hC11]
    refine NGlyph_mem hg6 ?_
    intro c hc
    rcases mem_stage11Go C10.length C10 hc with hc2 | hc2 | hc2
    · exact Or.inl hc2
    · right
      rw [hc2]
      decide
    · right
      rw [hc2]
      decide
  have hg8 : NGlyph C12 = true := by
    rw [hC12]
    refine NGlyph_mem hg7 ?_
    intro c hc
    rcases mem_stage12Go C11.length C11 hc with
      hc2 | hc2 | hc2 | hc2 | hc2 | hc2 | hc2 | hc2
    · exact Or.inl hc2
    · right
      rw [hc2]
      decide
    · right
      rw [hc2]
      decide
    · right
      rw [hc2]
      decide
    · right
      rw [hc2]
      decide
    · right
      rw [hc2]
      decide
    · right
      rw [hc2]
      decide
    · exact Or.inr (glyphFix_digit hc2)
  have hg9 : NGlyph C13 = true := by
    rw [hC13]
    refine NGlyph_mem hg8 ?_
    intro c hc
    rcases mem_stage13Go C12.length C12 hc with
      hc2 | hc2 | hc2 | hc2 | hc2 | hc2 | hc2 | hc2
    · exact Or.inl hc2
    · right
      rw [hc2]
      decide
    · right
      rw [hc2]
      decide
    · right
      rw [hc2]
      decide
    · right
      rw [hc2]
      decide
    · right
      rw [hc2]
      decide
    · right
      rw [hc2]
      decide
    · exact Or.inr (glyphFix_digit hc2)
  have hL1 : NOcr 'l' none A1 = true := by
    rw [hA1]
    exact NOcr_ocrFix_self (by decide) (by decide) (by decide) (by decide)
      (by decide) (by decide) G none none rfl
  have hL2 : NOcr 'l' none A2 = true := by
    rw [hA2]
    exact NOcr_ocrFix_other (by decide) (by decide) (by decide)
      (by decide) (by decide) (by decide) A1 none none none
      (fun x => x) hL1
  have hL3 : NOcr 'l' none B = true := by
    rw [hB]
    exact NOcr_collapseWs (by decide) A2 false none none (fun x => x) hL2
  have hL4 : NOcr 'l' none C9 = true := by
    rw [hC9]
    exact NOcr_stage9Go (by decide) (by decide) (by decide) B.length B
      none none (fun x => x) hL3
  have hL5 : NOcr 'l' none C10 = true := by
    rw [hC10]
    exact NOcr_stage10Go (by decide) (by decide) (by decide) C9.length C9
      none none (fun x => x) hL4
  have hL6 : NOcr 'l' none C11 = true := by
    rw [hC11]
    exact NOcr_stage11Go (by decide) (by decide) (by decide) C10.length
      C10 none none (fun x => x) hL5
  have hL7 : NOcr 'l' none C12 = true := by
    rw [hC12]
    exact NOcr_stage12Go (by decide) (by decide) (by decide) (by decide)
      (by decide) (by decide) (by decide) C11.length C11 none none
      (fun x => x) hL6
  have hL8 : NOcr 'l' none C13 = true := by
    rw [hC13]
    exact NOcr_stage13Go (by decide) (by decide) (by decide) (by decide)
      (by decide) (by decide) (by decide) C12.length C12 none none
      (fun x => x) hL7
  have hO1 : NOcr 'O' none A2 = true := by
    rw [hA2]
    exact NOcr_ocrFix_self (by decide) (by decide) (by decide) (by decide)
      (by decide) (by decide) A1 none none rfl
  have hO2 : NOcr 'O' none B = true := by
    rw [hB]
    exact NOcr_collapseWs (by decide) A2 false none none (fun x => x) hO1
  have hO3 : NOcr 'O' none C9 = true := by
    rw [hC9]
    exact NOcr_stage9Go (by decide) (by decide) (by decide) B.length B
      none none (fun x => x) hO2
  have hO4 : NOcr 'O' none C10 = true := by
    rw [hC10]
    exact NOcr_stage10Go (by decide) (by decide) (by decide) C9.length C9
      none none (fun x => x) hO3
  have hO5 : NOcr 'O' none C11 = true := by
    rw [hC11]
    exact NOcr_stage11Go (by decide) (by decide) (by decide) C10.length
      C10 none none (fun x => x) hO4
  have hO6 : NOcr 'O' none C12 = true := by
    rw [hC12]
    exact NOcr_stage12Go (by decide) (by decide) (by decide) (by decide)
      (by decide) (by decide) (by decide) C11.length C11 none none
      (fun x => x) hO5
  have hO7 : NOcr 'O' none C13 = true := by
    rw [hC13]
    exact NOcr_stage13Go (by decide) (by decide) (by decide) (by decide)
      (by decide) (by decide) (by decide) C12.length C12 none none
      (fun x => x) hO6
  have hw1 : NWs false B = true := by
    rw [hB]
    exact NWs_collapseWs A2 false
  have hw2 : NWs false C9 = true := by
    rw [hC9]
    exact NWs_stage9Go B.length B false hw1
  have hw3 : NWs false C10 = true := by
    rw [hC10]
    exact NWs_stage10Go C9.length C9 false hw2
  have hw4 : NWs false C11 = true := by
    rw [hC11]
    exact NWs_stage11Go C10.length C10 false hw3
  have hw5 : NWs false C12 = true := by
    rw [hC12]
    exact NWs_stage12Go C11.length C11 false hw4
  have hw6 : NWs false C13 = true := by
    rw [hC13]
    exact NWs_stage13Go C12.length C12 false hw5
  have h9a : NS9 C9 = true := by
    rw [hC9]
    exact NS9_stage9Go B.length B (le_refl _)
  have h9b : NS9 C10 = true := by
    rw [hC10]
    exact NS9_stage10Go C9.length C9 h9a
  have h9c : NS9 C11 = true := by
    rw [hC11]
    exact NS9_stage11Go C10.length C10 h9b
  have h9d : NS9 C12 = true := by
    rw [hC12]
    exact NS9_stage12Go C11.length C11 h9c
  have h9e : NS9 C13 = true := by
    rw [hC13]
    exact NS9_stage13Go C12.length C12 h9d
  have h10a : NS10 C10 = true := by
    rw [hC10]
    exact NS10_stage10Go C9.length C9 (le_refl _)
  have h10b : NS10 C11 = true := by
    rw [hC11]
    exact NS10_stage11Go C10.length C10 h10a
  have h10c : NS10 C12 = true := by
    rw [hC12]
    exact NS10_stage12Go C11.length C11 h10b
  have h10d : NS10 C13 = true := by
    rw [hC13]
    exact NS10_stage13Go C12.length C12 h10c
  have h11a : NS11 C11 = true := by
    rw [hC11]
    exact NS11_stage11Go C10.length C10 (le_refl _)
  have h11b : NS11 C12 = true := by
    rw [hC12]
    exact NS11_stage12Go C11.length C11 h11a
  have h11c : NS11 C13 = true := by
    rw [hC13]
    exact NS11_stage13Go C12.length C12 h11b
  have h12a : NS12 C12 = true := by
    rw [hC12]
    exact NS12_stage12Go C11.length C11 (le_refl _)
  have h12b : NS12 C13 = true := by
    rw [hC13]
    exact NS12_stage13Go C12.length C12 h12a
  have h13a : NS13 C13 = true := by
    rw [hC13]
    exact NS13_stage13Go C12.length C12 (le_refl _)
  simp only [NF, Bool.and_eq_true]
  refine ⟨⟨⟨⟨⟨⟨⟨⟨⟨?_, ?_⟩, ?_⟩, ?_⟩, ?_⟩, ?_⟩, ?_⟩, ?_⟩, ?_⟩, ?_⟩
  · exact NGlyph_trimL hg9
  · exact NOcr_trimL hL8
  · exact NOcr_trimL hO7
  · exact NWs_trimL hw6
  · exact NS9_trimL h9e
  · exact NS10_trimL h10d
  · exact NS11_trimL h11c
  · exact NS12_trimL h12b
  · exact NS13_trimL h13a
  · exact NTrim_trimL C13

/-- C6: the input normalizer `MathSolver.cleanInput` is idempotent —
running the thirteen substitution stages and the final trim a second
time changes nothing, because the output of the pipeline is in normal
form for every one of its own rules. -/
theorem C6_cleanInput_idempotent (s : String) :
    cleanInput (cleanInput s) = cleanInput s := by
  have h1 : ∀ t : String, cleanInput t = String.mk (cleanList t.data) :=
    fun t => rfl
  have hmk : ∀ X : Chars, (String.mk X).data = X := fun X => rfl
  rw [h1, h1, hmk, cleanList_id (NF_cleanList s.data)]

end MathSolver
